import Mathlib

/-!
Page table with an intrusive eviction-order list (`PageTable.c`)

A shallow embedding of `initPageTable`, `requestPage` and `findVictim`.

* The file-level globals (`PageTable`, `nPages`, `replacePolicy`, `replace_head`,
  `replace_tail`) are the fields of `State`; the table is a map from indices to entries,
  of which the indices `0 .. nPages-1` are the allocated array.
* C `int`s are integers. The increments of the usage counters `nPeeks` and `nPokes` wrap at
  32 bits (`wrapInt`). The only other arithmetic is `nPages-1` in `initPageTable`, which is
  in range for every `np` with which `malloc` can succeed; every other value is copied and
  compared.
* The collaborators of `Memory.h` and `Stats.h` are not part of the file: every call the
  code makes to them is appended to `State.calls`, and the value returned by
  `findFreeFrame` is given by a function `ff` of the calls made so far.
* `exit(EXIT_FAILURE)` and an access outside the allocated array end a call with
  `Outcome.fail`, which carries the state reached at that point.
* An access outside the array is undefined in C; a compiled program carries it out on the
  memory next to the array and goes on. The operations are therefore given a second time
  without the bounds guard (`findVictim_raw`, `requestPage_raw`, `runTrace_raw`), the entry
  `i` of the map standing for that memory when `i` is outside `0 .. nPages-1`. The two
  readings agree on every call the guarded one lets return, and on every `exit`.
-/

namespace PageTable

/-! ## Constants and records -/

/-- Modelled from the spec: the "none" value `NONE` of the absent `Memory.h`, the sentinel
stored in `frame`, `accessTime` and `loadTime`; the list cursors use the literal `-1`. -/
def NONE : Int := -1

/-- Source: `#define NOT_USED 0`. -/
def NOT_USED : Int := 0

/-- Source: `#define IN_MEMORY 1`. -/
def IN_MEMORY : Int := 1

/-- Source: `#define ON_DISK 2`. -/
def ON_DISK : Int := 2

/-- The value a C `int` holds after an arithmetic result `x`: 32 bits, two's complement,
so that `2147483647 + 1` is `-2147483648` (the result of the compiled `++`; the overflow is
undefined in C). -/
def wrapInt (x : Int) : Int := (x + 2147483648) % 4294967296 - 2147483648

/-- Modelled from the spec: the replacement policies `REPL_LRU`, `REPL_FIFO`, `REPL_CLOCK`
of the absent `PageTable.h`, the values `replacePolicy` is compared with. -/
inductive Policy where
  | REPL_LRU
  | REPL_FIFO
  | REPL_CLOCK
  deriving DecidableEq, Repr

/-- Source: `typedef struct { ... } PTE;`. -/
structure PTE where
  status : Int
  modified : Int
  frame : Int
  accessTime : Int
  loadTime : Int
  nPeeks : Int
  nPokes : Int
  next : Int
  prev : Int
  deriving DecidableEq, Repr

/-- The calls `PageTable.c` makes to its collaborators (`Stats.h`, `Memory.h`). -/
inductive Call where
  | countPageFault
  | countPageHit
  | findFreeFrame
  | saveFrame (fno : Int)
  | loadFrame (fno pno time : Int)
  deriving DecidableEq, Repr

/-- The static variables of `PageTable.c`, and the collaborator calls made so far
(oldest first). -/
structure State where
  PageTable : Int → PTE
  nPages : Int
  replacePolicy : Policy
  replace_head : Int
  replace_tail : Int
  calls : List Call

/-- The ways a call can end without returning: the two `exit(EXIT_FAILURE)` messages, and
an access to `PageTable[i]` with `i` outside `0 .. nPages-1` (undefined in C). -/
inductive Fatal where
  | InvalidPageReference
  | InvalidPageStatus
  | OutOfBounds
  deriving DecidableEq, Repr

/-- The result of a call: it returns a value in a new state, or ends in a state. -/
inductive Outcome (α : Type) where
  | ok (s : State) (a : α)
  | fail (e : Fatal) (s : State)

/-- `i` indexes an allocated entry of the table. -/
abbrev State.inTable (s : State) (i : Int) : Prop := 0 ≤ i ∧ i < s.nPages

/-- The assignment `PageTable[i] = f (PageTable[i])`. -/
def State.modify (s : State) (i : Int) (f : PTE → PTE) : State :=
  { s with PageTable := Function.update s.PageTable i (f (s.PageTable i)) }

/-- Record a call to a collaborator. -/
def State.call (s : State) (c : Call) : State :=
  { s with calls := s.calls ++ [c] }

/-! ## The operations -/

/-- Source: `initPageTable` (lines 48-68). `mem` is the content of the block `malloc`
returns (assumed to succeed): the loop sets seven fields of each entry and leaves `next`
and `prev` as they were. -/
def initPageTable (mem : Int → PTE) (policy : Policy) (np : Int) : State :=
  { PageTable := fun i =>
      if 0 ≤ i ∧ i < np then
        { mem i with status := NOT_USED, modified := 0, frame := NONE, accessTime := NONE,
                     loadTime := NONE, nPeeks := 0, nPokes := 0 }
      else mem i
    nPages := np
    replacePolicy := policy
    replace_head := 0
    replace_tail := np - 1
    calls := [] }

/-- Source: `findVictim` (lines 204-223). -/
def findVictim (s : State) (_time : Int) : Outcome Int :=
  -- PTE *page_victim = &PageTable[replace_head]; victim = replace_head;
  let victim := s.replace_head
  -- replace_head = page_victim->next;
  if ¬ s.inTable victim then .fail .OutOfBounds s else
  let s1 : State := { s with replace_head := (s.PageTable victim).next }
  -- (&PageTable[replace_head])->prev = -1;
  if ¬ s1.inTable s1.replace_head then .fail .OutOfBounds s1 else
  let s2 := s1.modify s1.replace_head (fun e => { e with prev := -1 })
  match s2.replacePolicy with
  | .REPL_LRU => .ok s2 victim
  | .REPL_FIFO => .ok s2 victim
  | .REPL_CLOCK => .ok s2 0

/-- Source: `requestPage`, lines 88-110: the block run when `findFreeFrame` returned `NONE`.
Returns the frame taken from the victim. -/
def requestPage_evict (s : State) (time : Int) : Outcome Int :=
  match findVictim s time with
  | .fail e s => .fail e s
  | .ok s vno =>
    -- PTE *victim_page = &PageTable[vno];
    if ¬ s.inTable vno then .fail .OutOfBounds s else
    let s := if (s.PageTable vno).modified ≠ 0 then s.call (.saveFrame (s.PageTable vno).frame) else s
    let fno := (s.PageTable vno).frame
    let s := s.modify vno (fun e =>
      { e with status := ON_DISK, modified := 0, frame := NONE, accessTime := NONE, loadTime := NONE })
    .ok s fno

/-- Source: `requestPage`, lines 192-199: usage counters, access time, returned frame. -/
def requestPage_finish (s : State) (pno : Int) (mode : Char) (time : Int) : Outcome Int :=
  let s :=
    -- if (mode == 'r') p->nPeeks++; else if (mode == 'w') { p->nPokes++; p->modified = 1; }
    if mode = 'r' then s.modify pno (fun e => { e with nPeeks := wrapInt (e.nPeeks + 1) })
    else if mode = 'w' then
      s.modify pno (fun e => { e with nPokes := wrapInt (e.nPokes + 1), modified := 1 })
    else s
  let s := s.modify pno (fun e => { e with accessTime := time })
  .ok s (s.PageTable pno).frame

/-- Source: `requestPage`, lines 115-140: load page `pno` into frame `fno` and link it at
the tail of the list. -/
def requestPage_load (s : State) (pno : Int) (fno : Int) (time : Int) : Outcome Unit :=
  let s := s.call (.loadFrame fno pno time)
  let s := s.modify pno (fun e =>
    { e with status := IN_MEMORY, modified := 0, frame := fno, loadTime := time })
  -- if (time == 0) { loadpage->prev = -1; replace_head = pno; replace_tail = pno; }
  let s : State :=
    if time = 0 then
      { s.modify pno (fun e => { e with prev := -1 }) with replace_head := pno, replace_tail := pno }
    else s
  -- p->prev = replace_tail;
  let s := s.modify pno (fun e => { e with prev := s.replace_tail })
  -- if (time==0) p->prev = -1;
  let s := if time = 0 then s.modify pno (fun e => { e with prev := -1 }) else s
  -- (&PageTable[replace_tail])->next = pno;
  if ¬ s.inTable s.replace_tail then .fail .OutOfBounds s else
  let s := s.modify s.replace_tail (fun e => { e with next := pno })
  -- replace_tail = pno; p->next = -1;
  let s : State := { s with replace_tail := pno }
  let s := s.modify pno (fun e => { e with next := -1 })
  .ok s ()

/-- Source: `requestPage`, lines 180-186: relink `pno` at the tail and count the hit. -/
def requestPage_toTail (s : State) (pno : Int) : Outcome Unit :=
  let s := s.modify pno (fun e => { e with prev := s.replace_tail })
  if ¬ s.inTable s.replace_tail then .fail .OutOfBounds s else
  let s := s.modify s.replace_tail (fun e => { e with next := pno })
  let s : State := { s with replace_tail := pno }
  let s := s.modify pno (fun e => { e with next := -1 })
  .ok (s.call .countPageHit) ()

/-- Source: `requestPage`, lines 142-187: the `IN_MEMORY` case. -/
def requestPage_hit (s : State) (pno : Int) : Outcome Unit :=
  if s.replacePolicy = .REPL_LRU then
    let prev_index := (s.PageTable pno).prev
    let next_index := (s.PageTable pno).next
    if prev_index = -1 then
      if next_index = -1 then
        -- replace_tail = replace_head = pno; countPageHit(); break;
        .ok (State.call { s with replace_head := pno, replace_tail := pno } .countPageHit) ()
      else
        -- nextpage->prev = -1; replace_head = next_index;
        if ¬ s.inTable next_index then .fail .OutOfBounds s else
        let s := s.modify next_index (fun e => { e with prev := -1 })
        let s : State := { s with replace_head := next_index }
        requestPage_toTail s pno
    else
      if next_index = -1 then
        -- countPageHit(); break;
        .ok (s.call .countPageHit) ()
      else
        -- prevpage->next = p->next;
        if ¬ s.inTable prev_index then .fail .OutOfBounds s else
        let s := s.modify prev_index (fun e => { e with next := (s.PageTable pno).next })
        -- nextpage->prev = p->prev;
        if ¬ s.inTable next_index then .fail .OutOfBounds s else
        let s := s.modify next_index (fun e => { e with prev := (s.PageTable pno).prev })
        requestPage_toTail s pno
  else
    .ok (s.call .countPageHit) ()

/-- Source: `requestPage` (lines 75-200). `ff` gives the value `findFreeFrame()` returns
after the calls made so far. -/
def requestPage (ff : List Call → Int) (s : State) (pno : Int) (mode : Char) (time : Int) :
    Outcome Int :=
  if pno < 0 ∨ pno ≥ s.nPages then .fail .InvalidPageReference s else
  let status := (s.PageTable pno).status
  if status = NOT_USED ∨ status = ON_DISK then
    let s := s.call .countPageFault
    let fno := ff s.calls
    let s := s.call .findFreeFrame
    match (if fno = NONE then requestPage_evict s time else .ok s fno) with
    | .fail e s => .fail e s
    | .ok s fno =>
      match requestPage_load s pno fno time with
      | .fail e s => .fail e s
      | .ok s _ => requestPage_finish s pno mode time
  else if status = IN_MEMORY then
    match requestPage_hit s pno with
    | .fail e s => .fail e s
    | .ok s _ => requestPage_finish s pno mode time
  else .fail .InvalidPageStatus s

/-! ## Runs -/

/-- A trace of calls `requestPage(pno, mode, time)`, stopping at the first that fails. -/
def runTrace (ff : List Call → Int) : State → List (Int × Char × Int) → Outcome Unit
  | s, [] => .ok s ()
  | s, (pno, mode, time) :: rest =>
    match requestPage ff s pno mode time with
    | .fail e s => .fail e s
    | .ok s _ => runTrace ff s rest

/-- The references `refs` made with times `t, t+1, ...`. -/
def timed : Int → List (Int × Char) → List (Int × Char × Int)
  | _, [] => []
  | t, (pno, mode) :: rest => (pno, mode, t) :: timed (t + 1) rest

/-- A reference run: `initPageTable(policy, np)`, then the `k`-th reference made at time `k`. -/
def referenceRun (ff : List Call → Int) (mem : Int → PTE) (policy : Policy) (np : Int)
    (refs : List (Int × Char)) : Outcome Unit :=
  runTrace ff (initPageTable mem policy np) (timed 0 refs)

/-! ## Observations used to state the properties -/

/-- The entry with its two list links erased: the seven data fields. -/
def PTE.data (e : PTE) : PTE := { e with next := 0, prev := 0 }

/-- The field assignments of lines 119-125. -/
def PTE.loaded (e : PTE) (fno time : Int) : PTE :=
  { e with status := IN_MEMORY, modified := 0, frame := fno, loadTime := time }

/-- The field assignments of lines 102-109. -/
def PTE.evicted (e : PTE) : PTE :=
  { e with status := ON_DISK, modified := 0, frame := NONE, accessTime := NONE, loadTime := NONE }

/-- The field assignments of lines 192-198. -/
def PTE.accessed (e : PTE) (mode : Char) (time : Int) : PTE :=
  { e with
    nPeeks := if mode = 'r' then wrapInt (e.nPeeks + 1) else e.nPeeks
    nPokes := if mode = 'w' then wrapInt (e.nPokes + 1) else e.nPokes
    modified := if mode = 'w' then 1 else e.modified
    accessTime := time }

/-- The `next` link of every index. -/
def State.nxt (s : State) : Int → Int := fun j => (s.PageTable j).next

/-- The `prev` link of every index. -/
def State.prv (s : State) : Int → Int := fun j => (s.PageTable j).prev

/-- The data fields of every index. -/
def State.dat (s : State) : Int → PTE := fun j => (s.PageTable j).data

/-- The state a call ended in. -/
def Outcome.state {α : Type} : Outcome α → State
  | .ok s _ => s
  | .fail _ s => s

/-- Whether the call returned. -/
def Outcome.isOk {α : Type} : Outcome α → Bool
  | .ok _ _ => true
  | .fail _ _ => false

/-- The fault counter of the absent `Stats.h`: the number of `countPageFault()` calls. -/
def nFaults (s : State) : Nat := s.calls.count .countPageFault

/-- The hit counter of the absent `Stats.h`: the number of `countPageHit()` calls. -/
def nHits (s : State) : Nat := s.calls.count .countPageHit

/-- The number of requests of a trace made to page `p` with mode `m`. -/
def countRefs (p : Int) (m : Char) (trace : List (Int × Char × Int)) : Nat :=
  (trace.filter (fun r => decide (r.1 = p ∧ r.2.1 = m))).length

/-- Along the trace run from `s`: whether page `p` has been referenced in write mode at or
after its most recent load (a request to `p` that found it not `IN_MEMORY`); `acc` is the
answer for the references made before the trace. -/
def writtenSinceLoad (ff : List Call → Int) (p : Int) :
    State → List (Int × Char × Int) → Bool → Bool
  | _, [], acc => acc
  | s, (pno, mode, time) :: rest, acc =>
    let acc' :=
      if pno = p then
        (if (s.PageTable p).status = IN_MEMORY then acc || decide (mode = 'w')
         else decide (mode = 'w'))
      else acc
    match requestPage ff s pno mode time with
    | .ok s' _ => writtenSinceLoad ff p s' rest acc'
    | .fail _ _ => acc'

/-- The frames some page has been loaded into, by the calls made so far. -/
def loadedFrames (calls : List Call) : List Int :=
  (calls.filterMap (fun c => match c with
    | .loadFrame fno _ _ => some fno
    | _ => none)).dedup

/-- A memory of `F` frames: `findFreeFrame` returns a frame, different from `NONE`, that no
page has been loaded into, or `NONE` once `F` frames have been loaded. -/
def FreshAllocator (F : Nat) (ff : List Call → Int) : Prop :=
  ∀ calls, if (loadedFrames calls).length < F
    then ff calls ≠ NONE ∧ ff calls ∉ loadedFrames calls
    else ff calls = NONE

/-- The allocator of a memory with frames `0 .. F-1`: the lowest frame not yet loaded, as
long as fewer than `F` frames have been loaded. -/
def firstFree (F : Nat) (calls : List Call) : Int :=
  if (loadedFrames calls).length < F then
    match (List.range F).find? (fun (i : Nat) => decide ((i : Int) ∉ loadedFrames calls)) with
    | some i => (i : Int)
    | none => NONE
  else NONE

/-- A block of uninitialised memory, every field holding 7. -/
def junk : Int → PTE := fun _ => ⟨7, 7, 7, 7, 7, 7, 7, 7, 7⟩

/-- The value a call returned (0 when it did not return). -/
def Outcome.result : Outcome Int → Int
  | .ok _ a => a
  | .fail _ _ => 0

/-! ## The eviction-order list -/

/-- Walking `next` from index `i`, for at most `fuel` steps, until the sentinel `-1`. -/
def walkFrom (nx : Int → Int) : Nat → Int → List Int
  | 0, _ => []
  | fuel + 1, i => if i = -1 then [] else i :: walkFrom nx fuel (nx i)

/-- The pages visited by walking `next` from `replace_head`. A list that is not cyclic
visits at most `nPages` entries, so `nPages + 1` steps reach its end. -/
def orderList (s : State) : List Int :=
  walkFrom s.nxt (s.nPages.toNat + 1) s.replace_head

/-- Page `p` is an entry of the table with status `IN_MEMORY`. -/
def resident (s : State) (p : Int) : Prop :=
  s.inTable p ∧ (s.PageTable p).status = IN_MEMORY

/-- The number of entries of the table with status `IN_MEMORY`. -/
def residentCount (s : State) : Nat :=
  ((List.range s.nPages.toNat).filter
    (fun (i : Nat) => decide ((s.PageTable (i : Int)).status = IN_MEMORY))).length

/-- Each element's `next` is the element after it, the last one's is `e`. -/
def NextChain (nx : Int → Int) : List Int → Int → Prop
  | [], _ => True
  | a :: rest, e => nx a = rest.headD e ∧ NextChain nx rest e

/-- Each element's `prev` is the element before it, the first one's is `b`. -/
def PrevChain (pv : Int → Int) : Int → List Int → Prop
  | _, [] => True
  | b, a :: rest => pv a = b ∧ PrevChain pv a rest

/-- `L` is a well-formed doubly linked list from `hd` to `tl`. -/
structure Links (nx pv : Int → Int) (hd tl : Int) (L : List Int) : Prop where
  nodup : L.Nodup
  nonneg : ∀ p ∈ L, 0 ≤ p
  head : L.head? = some hd
  last : L.getLast? = some tl
  next : NextChain nx L (-1)
  prev : PrevChain pv (-1) L

/-- The time by which a policy orders an entry: load time under FIFO, access time otherwise. -/
def ageOf (policy : Policy) (e : PTE) : Int :=
  match policy with
  | .REPL_FIFO => e.loadTime
  | _ => e.accessTime

/-- The invariant of a reference run, after the references made at times `0 .. k-1`: `L` is
the order list, it holds exactly the resident pages, these hold distinct frames which are
the frames loaded so far, and they are listed by increasing age. -/
structure RunInv (s : State) (k : Int) (L : List Int) : Prop where
  policy : s.replacePolicy = .REPL_FIFO ∨ s.replacePolicy = .REPL_LRU
  links : Links s.nxt s.prv s.replace_head s.replace_tail L
  inTable : ∀ p ∈ L, p < s.nPages
  status : ∀ p ∈ L, (s.dat p).status = IN_MEMORY
  absent : ∀ p, s.inTable p → p ∉ L →
    ((s.dat p).status = NOT_USED ∨ (s.dat p).status = ON_DISK) ∧ (s.dat p).frame = NONE
  frameNodup : (L.map (fun p => (s.dat p).frame)).Nodup
  frameSome : ∀ p ∈ L, (s.dat p).frame ≠ NONE
  loaded : ∀ f, f ∈ loadedFrames s.calls ↔ ∃ p ∈ L, (s.dat p).frame = f
  ordered : L.Pairwise (fun a b => ageOf s.replacePolicy (s.dat a) < ageOf s.replacePolicy (s.dat b))
  recent : ∀ p ∈ L, ageOf s.replacePolicy (s.dat p) < k

/-! ## Further observations -/

/-- Why a call did not return, when it did not. -/
def Outcome.error? {α : Type} : Outcome α → Option Fatal
  | .ok _ _ => none
  | .fail e _ => some e

/-- `L` is a well-formed order list of `s`: a doubly linked list from `replace_head` to
`replace_tail` without repetition, the head's `prev` and the tail's `next` being `-1`, made
of indices of the table. -/
def WellFormed (s : State) (L : List Int) : Prop :=
  Links s.nxt s.prv s.replace_head s.replace_tail L ∧ ∀ p ∈ L, p < s.nPages

/-- The state after the references `0r 1w 0r` of a reference run with two frames and four
pages. -/
def afterThree (policy : Policy) : State :=
  (referenceRun (firstFree 2) junk policy 4 [(0, 'r'), (1, 'w'), (0, 'r')]).state

/-! ## The operations without the bounds guard

The definitions above stop at an access to `PageTable[i]` with `i` outside `0 .. nPages-1`.
The definitions below are the same statements with every access carried out: such an access
reads or writes entry `i` of the map, that is, the memory next to the array (taken to be
disjoint from the variables of the file). They end only by returning or by `exit`, and they
agree with the guarded definitions on every call that these let return. -/

/-- Source: `findVictim` (lines 204-223), every access carried out. -/
def findVictim_raw (s : State) (_time : Int) : State × Int :=
  -- PTE *page_victim = &PageTable[replace_head]; victim = replace_head;
  let victim := s.replace_head
  -- replace_head = page_victim->next;
  let s1 : State := { s with replace_head := (s.PageTable victim).next }
  -- (&PageTable[replace_head])->prev = -1;
  let s2 := s1.modify s1.replace_head (fun e => { e with prev := -1 })
  match s2.replacePolicy with
  | .REPL_LRU => (s2, victim)
  | .REPL_FIFO => (s2, victim)
  | .REPL_CLOCK => (s2, 0)

/-- Source: `requestPage`, lines 88-110, every access carried out. Returns the frame taken
from the victim. -/
def requestPage_evict_raw (s : State) (time : Int) : State × Int :=
  let r := findVictim_raw s time
  let s := r.1
  let vno := r.2
  -- PTE *victim_page = &PageTable[vno];
  let s := if (s.PageTable vno).modified ≠ 0 then s.call (.saveFrame (s.PageTable vno).frame) else s
  let fno := (s.PageTable vno).frame
  let s := s.modify vno (fun e =>
    { e with status := ON_DISK, modified := 0, frame := NONE, accessTime := NONE, loadTime := NONE })
  (s, fno)

/-- Source: `requestPage`, lines 115-140, every access carried out. -/
def requestPage_load_raw (s : State) (pno : Int) (fno : Int) (time : Int) : State :=
  let s := s.call (.loadFrame fno pno time)
  let s := s.modify pno (fun e =>
    { e with status := IN_MEMORY, modified := 0, frame := fno, loadTime := time })
  -- if (time == 0) { loadpage->prev = -1; replace_head = pno; replace_tail = pno; }
  let s : State :=
    if time = 0 then
      { s.modify pno (fun e => { e with prev := -1 }) with replace_head := pno, replace_tail := pno }
    else s
  -- p->prev = replace_tail;
  let s := s.modify pno (fun e => { e with prev := s.replace_tail })
  -- if (time==0) p->prev = -1;
  let s := if time = 0 then s.modify pno (fun e => { e with prev := -1 }) else s
  -- (&PageTable[replace_tail])->next = pno;
  let s := s.modify s.replace_tail (fun e => { e with next := pno })
  -- replace_tail = pno; p->next = -1;
  let s : State := { s with replace_tail := pno }
  s.modify pno (fun e => { e with next := -1 })

/-- Source: `requestPage`, lines 180-186, every access carried out. -/
def requestPage_toTail_raw (s : State) (pno : Int) : State :=
  let s := s.modify pno (fun e => { e with prev := s.replace_tail })
  let s := s.modify s.replace_tail (fun e => { e with next := pno })
  let s : State := { s with replace_tail := pno }
  let s := s.modify pno (fun e => { e with next := -1 })
  s.call .countPageHit

/-- Source: `requestPage`, lines 142-187: the `IN_MEMORY` case, every access carried out. -/
def requestPage_hit_raw (s : State) (pno : Int) : State :=
  if s.replacePolicy = .REPL_LRU then
    let prev_index := (s.PageTable pno).prev
    let next_index := (s.PageTable pno).next
    if prev_index = -1 then
      if next_index = -1 then
        -- replace_tail = replace_head = pno; countPageHit(); break;
        State.call { s with replace_head := pno, replace_tail := pno } .countPageHit
      else
        -- nextpage->prev = -1; replace_head = next_index;
        let s := s.modify next_index (fun e => { e with prev := -1 })
        let s : State := { s with replace_head := next_index }
        requestPage_toTail_raw s pno
    else
      if next_index = -1 then
        -- countPageHit(); break;
        s.call .countPageHit
      else
        -- prevpage->next = p->next;
        let s := s.modify prev_index (fun e => { e with next := (s.PageTable pno).next })
        -- nextpage->prev = p->prev;
        let s := s.modify next_index (fun e => { e with prev := (s.PageTable pno).prev })
        requestPage_toTail_raw s pno
  else
    s.call .countPageHit

/-- Source: `requestPage` (lines 75-200), every access carried out. `ff` gives the value
`findFreeFrame()` returns after the calls made so far. -/
def requestPage_raw (ff : List Call → Int) (s : State) (pno : Int) (mode : Char) (time : Int) :
    Outcome Int :=
  if pno < 0 ∨ pno ≥ s.nPages then .fail .InvalidPageReference s else
  let status := (s.PageTable pno).status
  if status = NOT_USED ∨ status = ON_DISK then
    let s := s.call .countPageFault
    let fno := ff s.calls
    let s := s.call .findFreeFrame
    let r := if fno = NONE then requestPage_evict_raw s time else (s, fno)
    requestPage_finish (requestPage_load_raw r.1 pno r.2 time) pno mode time
  else if status = IN_MEMORY then
    requestPage_finish (requestPage_hit_raw s pno) pno mode time
  else .fail .InvalidPageStatus s

/-- A trace of calls `requestPage(pno, mode, time)` with every access carried out, stopping
at the first that ends by `exit`. -/
def runTrace_raw (ff : List Call → Int) : State → List (Int × Char × Int) → Outcome Unit
  | s, [] => .ok s ()
  | s, (pno, mode, time) :: rest =>
    match requestPage_raw ff s pno mode time with
    | .fail e s => .fail e s
    | .ok s _ => runTrace_raw ff s rest

/-- Every entry of the table has one of the three statuses of the source. -/
def DefinedStatus (s : State) : Prop :=
  ∀ p, s.inTable p → (s.PageTable p).status = NOT_USED ∨ (s.PageTable p).status = ON_DISK ∨
    (s.PageTable p).status = IN_MEMORY

/-- The tail cursor is an index of the table, and so is every link of an `IN_MEMORY` entry
that is not `-1`. -/
def LinksInTable (s : State) : Prop :=
  s.inTable s.replace_tail ∧
  ∀ p, s.inTable p → (s.PageTable p).status = IN_MEMORY →
    ((s.PageTable p).prev = -1 ∨ s.inTable (s.PageTable p).prev) ∧
    ((s.PageTable p).next = -1 ∨ s.inTable (s.PageTable p).next)

/-! ## Lemmas and theorems -/

@[simp] theorem modify_PageTable (s : State) (i : Int) (f : PTE → PTE) (j : Int) :
    (s.modify i f).PageTable j = if j = i then f (s.PageTable i) else s.PageTable j := by
  simp only [State.modify, Function.update_apply]

@[simp] theorem modify_nPages (s : State) (i : Int) (f : PTE → PTE) :
    (s.modify i f).nPages = s.nPages := rfl
@[simp] theorem modify_replacePolicy (s : State) (i : Int) (f : PTE → PTE) :
    (s.modify i f).replacePolicy = s.replacePolicy := rfl
@[simp] theorem modify_replace_head (s : State) (i : Int) (f : PTE → PTE) :
    (s.modify i f).replace_head = s.replace_head := rfl
@[simp] theorem modify_replace_tail (s : State) (i : Int) (f : PTE → PTE) :
    (s.modify i f).replace_tail = s.replace_tail := rfl
@[simp] theorem modify_calls (s : State) (i : Int) (f : PTE → PTE) :
    (s.modify i f).calls = s.calls := rfl
@[simp] theorem call_PageTable (s : State) (c : Call) : (s.call c).PageTable = s.PageTable := rfl
@[simp] theorem call_nPages (s : State) (c : Call) : (s.call c).nPages = s.nPages := rfl
@[simp] theorem call_replacePolicy (s : State) (c : Call) :
    (s.call c).replacePolicy = s.replacePolicy := rfl
@[simp] theorem call_replace_head (s : State) (c : Call) :
    (s.call c).replace_head = s.replace_head := rfl
@[simp] theorem call_replace_tail (s : State) (c : Call) :
    (s.call c).replace_tail = s.replace_tail := rfl
@[simp] theorem call_calls (s : State) (c : Call) : (s.call c).calls = s.calls ++ [c] := rfl

/-! ### Updates of one entry, seen through `nxt`, `prv` and `dat` -/

theorem nxt_modify (s : State) (i : Int) (f : PTE → PTE) (hf : ∀ e, (f e).next = e.next) :
    (s.modify i f).nxt = s.nxt := by
  funext j
  simp only [State.nxt, modify_PageTable]
  by_cases hj : j = i
  · subst hj
    simp only [if_true, hf]
  · simp only [hj, if_false]

theorem prv_modify (s : State) (i : Int) (f : PTE → PTE) (hf : ∀ e, (f e).prev = e.prev) :
    (s.modify i f).prv = s.prv := by
  funext j
  simp only [State.prv, modify_PageTable]
  by_cases hj : j = i
  · subst hj
    simp only [if_true, hf]
  · simp only [hj, if_false]

theorem dat_modify (s : State) (i : Int) (f g : PTE → PTE) (hf : ∀ e, (f e).data = g e.data) :
    (s.modify i f).dat = fun j => if j = i then g (s.dat i) else s.dat j := by
  funext j
  simp only [State.dat, modify_PageTable]
  by_cases hj : j = i
  · subst hj
    simp only [if_true, hf]
  · simp only [hj, if_false]

theorem dat_modify_id (s : State) (i : Int) (f : PTE → PTE) (hf : ∀ e, (f e).data = e.data) :
    (s.modify i f).dat = s.dat := by
  rw [dat_modify s i f id hf]
  funext j
  by_cases hj : j = i
  · subst hj
    simp only [if_true, id]
  · simp only [hj, if_false]

theorem nxt_modify_set (s : State) (i v : Int) (f : PTE → PTE) (hf : ∀ e, (f e).next = v) :
    (s.modify i f).nxt = fun j => if j = i then v else s.nxt j := by
  funext j
  simp only [State.nxt, modify_PageTable]
  by_cases hj : j = i
  · subst hj
    simp only [if_true, hf]
  · simp only [hj, if_false]

theorem prv_modify_set (s : State) (i v : Int) (f : PTE → PTE) (hf : ∀ e, (f e).prev = v) :
    (s.modify i f).prv = fun j => if j = i then v else s.prv j := by
  funext j
  simp only [State.prv, modify_PageTable]
  by_cases hj : j = i
  · subst hj
    simp only [if_true, hf]
  · simp only [hj, if_false]

@[simp] theorem dat_setPrev (s : State) (i v : Int) :
    (s.modify i (fun e => { e with prev := v })).dat = s.dat :=
  dat_modify_id s i _ (fun _ => rfl)

@[simp] theorem dat_setNext (s : State) (i v : Int) :
    (s.modify i (fun e => { e with next := v })).dat = s.dat :=
  dat_modify_id s i _ (fun _ => rfl)

@[simp] theorem nxt_setPrev (s : State) (i v : Int) :
    (s.modify i (fun e => { e with prev := v })).nxt = s.nxt :=
  nxt_modify s i _ (fun _ => rfl)

@[simp] theorem prv_setNext (s : State) (i v : Int) :
    (s.modify i (fun e => { e with next := v })).prv = s.prv :=
  prv_modify s i _ (fun _ => rfl)

@[simp] theorem nxt_setNext (s : State) (i v : Int) :
    (s.modify i (fun e => { e with next := v })).nxt = fun j => if j = i then v else s.nxt j :=
  nxt_modify_set s i v _ (fun _ => rfl)

@[simp] theorem prv_setPrev (s : State) (i v : Int) :
    (s.modify i (fun e => { e with prev := v })).prv = fun j => if j = i then v else s.prv j :=
  prv_modify_set s i v _ (fun _ => rfl)

@[simp] theorem dat_setHead (s : State) (x : Int) :
    State.dat { s with replace_head := x } = s.dat := rfl
@[simp] theorem nxt_setHead (s : State) (x : Int) :
    State.nxt { s with replace_head := x } = s.nxt := rfl
@[simp] theorem prv_setHead (s : State) (x : Int) :
    State.prv { s with replace_head := x } = s.prv := rfl
@[simp] theorem dat_call (s : State) (c : Call) : (s.call c).dat = s.dat := rfl
@[simp] theorem nxt_call (s : State) (c : Call) : (s.call c).nxt = s.nxt := rfl
@[simp] theorem prv_call (s : State) (c : Call) : (s.call c).prv = s.prv := rfl

/-! ### Effects of the blocks of `requestPage` -/

theorem finish_eq (s : State) (pno : Int) (mode : Char) (time : Int) :
    requestPage_finish s pno mode time =
      .ok (s.modify pno (fun e => e.accessed mode time)) (s.PageTable pno).frame := by
  have hrw : ('r' : Char) ≠ 'w' := by decide
  unfold requestPage_finish
  by_cases hr : mode = 'r'
  · subst hr
    simp [State.modify, hrw, PTE.accessed]
  · by_cases hw : mode = 'w'
    · subst hw
      simp [State.modify, PTE.accessed]
    · simp [State.modify, hr, hw, PTE.accessed]

theorem findVictim_inv {s sv : State} {t v : Int} (h : findVictim s t = .ok sv v) :
    s.inTable s.replace_head ∧ s.inTable (s.PageTable s.replace_head).next ∧
    (v = s.replace_head ∨ (s.replacePolicy = .REPL_CLOCK ∧ v = 0)) ∧
    (s.replacePolicy ≠ .REPL_CLOCK → v = s.replace_head) ∧
    sv = { s with replace_head := (s.PageTable s.replace_head).next }.modify
            (s.PageTable s.replace_head).next (fun e => { e with prev := -1 }) := by
  unfold findVictim at h
  simp only [] at h
  split at h
  · cases h
  · split at h
    · cases h
    · rename_i h1 h2
      simp only [not_not] at h1 h2
      refine ⟨h1, h2, ?_⟩
      split at h <;> rename_i hp <;> simp only [modify_replacePolicy] at hp <;>
        simp only [Outcome.ok.injEq] at h <;> obtain ⟨rfl, rfl⟩ := h <;> simp [hp]

theorem findVictim_effect {s sv : State} {t v : Int} (h : findVictim s t = .ok sv v) :
    sv.calls = s.calls ∧ sv.nPages = s.nPages ∧ sv.replacePolicy = s.replacePolicy ∧
    sv.replace_head = s.nxt s.replace_head ∧ sv.replace_tail = s.replace_tail ∧
    sv.dat = s.dat ∧ sv.nxt = s.nxt ∧
    sv.prv = (fun j => if j = s.nxt s.replace_head then -1 else s.prv j) := by
  obtain ⟨-, -, -, -, rfl⟩ := findVictim_inv h
  refine ⟨rfl, rfl, rfl, rfl, rfl, ?_, ?_, ?_⟩ <;> funext j <;>
    simp only [State.dat, State.nxt, State.prv, modify_PageTable] <;> split_ifs <;> simp_all [PTE.data]

theorem evict_inv {s s' : State} {t fno : Int} (h : requestPage_evict s t = .ok s' fno) :
    ∃ sv v, findVictim s t = .ok sv v ∧ sv.inTable v ∧ fno = (sv.PageTable v).frame ∧
      s'.calls = sv.calls ++
        (if (sv.PageTable v).modified ≠ 0 then [Call.saveFrame (sv.PageTable v).frame] else []) ∧
      s'.nPages = sv.nPages ∧ s'.replacePolicy = sv.replacePolicy ∧
      s'.replace_head = sv.replace_head ∧ s'.replace_tail = sv.replace_tail ∧
      s'.dat = (fun j => if j = v then (sv.dat v).evicted else sv.dat j) ∧
      s'.nxt = sv.nxt ∧ s'.prv = sv.prv := by
  unfold requestPage_evict at h
  split at h
  · cases h
  · rename_i sv v hv
    simp only [] at h
    split at h
    · cases h
    · rename_i hin
      simp only [not_not] at hin
      simp only [Outcome.ok.injEq] at h
      obtain ⟨rfl, rfl⟩ := h
      refine ⟨sv, v, hv, hin, ?_, ?_, ?_, ?_, ?_, ?_, ?_, ?_, ?_⟩
      · split_ifs <;> simp
      · split_ifs <;> simp
      · split_ifs <;> simp
      · split_ifs <;> simp
      · split_ifs <;> simp
      · split_ifs <;> simp
      · funext j
        simp only [State.dat, modify_PageTable]
        split_ifs <;> simp_all [PTE.data, PTE.evicted]
      · funext j
        simp only [State.nxt, modify_PageTable]
        split_ifs <;> simp_all
      · funext j
        simp only [State.prv, modify_PageTable]
        split_ifs <;> simp_all

theorem load_inv {s s' : State} {pno fno t : Int} (h : requestPage_load s pno fno t = .ok s' ()) :
    s'.calls = s.calls ++ [Call.loadFrame fno pno t] ∧
    s'.nPages = s.nPages ∧ s'.replacePolicy = s.replacePolicy ∧
    s'.replace_head = (if t = 0 then pno else s.replace_head) ∧ s'.replace_tail = pno ∧
    s'.dat = (fun j => if j = pno then (s.dat pno).loaded fno t else s.dat j) ∧
    s'.nxt = (fun j => if j = pno then -1 else if t ≠ 0 ∧ j = s.replace_tail then pno else s.nxt j) ∧
    s'.prv = (fun j => if j = pno then (if t = 0 then -1 else s.replace_tail) else s.prv j) := by
  by_cases ht : t = 0
  · subst ht
    simp only [requestPage_load, if_true] at h
    split at h
    · cases h
    · rename_i hT
      clear hT
      simp only [Outcome.ok.injEq, and_true] at h
      subst h
      refine ⟨rfl, rfl, rfl, rfl, rfl, ?_, ?_, ?_⟩ <;> funext j <;>
        simp only [State.dat, State.nxt, State.prv, modify_PageTable, call_PageTable,
          modify_replace_tail, ne_eq, not_true_eq_false, false_and, if_false] <;>
        split_ifs <;> (try subst_vars) <;> rfl
  · simp only [requestPage_load, ht, if_false] at h
    split at h
    · cases h
    · rename_i hT
      clear hT
      simp only [Outcome.ok.injEq, and_true] at h
      subst h
      refine ⟨rfl, rfl, rfl, by simp only [if_neg ht]; rfl, rfl, ?_, ?_, ?_⟩ <;>
        funext j <;>
        simp only [State.dat, State.nxt, State.prv, modify_PageTable, call_PageTable,
          modify_replace_tail, call_replace_tail, if_neg ht, ne_eq, ht, not_false_eq_true, true_and] <;>
        split_ifs <;> (try subst_vars) <;> first | rfl | contradiction

theorem load_ok (s : State) (pno fno t : Int)
    (h : if t = 0 then s.inTable pno else s.inTable s.replace_tail) :
    ∃ s', requestPage_load s pno fno t = .ok s' () := by
  unfold requestPage_load
  by_cases ht : t = 0
  · subst ht
    simp only [if_true] at h
    simp [h.1, h.2]
  · simp only [ht, if_false] at h
    simp [ht, h.1, h.2]

theorem toTail_inv {s s' : State} {pno : Int} (h : requestPage_toTail s pno = .ok s' ()) :
    s'.calls = s.calls ++ [Call.countPageHit] ∧
    s'.nPages = s.nPages ∧ s'.replacePolicy = s.replacePolicy ∧
    s'.replace_head = s.replace_head ∧ s'.replace_tail = pno ∧
    s'.dat = s.dat ∧
    s'.nxt = (fun j => if j = pno then -1 else if j = s.replace_tail then pno else s.nxt j) ∧
    s'.prv = (fun j => if j = pno then s.replace_tail else s.prv j) := by
  simp only [requestPage_toTail] at h
  split at h
  · cases h
  · rename_i hT
    clear hT
    simp only [Outcome.ok.injEq, and_true] at h
    subst h
    refine ⟨rfl, rfl, rfl, rfl, rfl, ?_, ?_, ?_⟩ <;> funext j <;>
      simp only [State.dat, State.nxt, State.prv, modify_PageTable, call_PageTable,
          modify_replace_tail, call_replace_tail] <;>
      split_ifs <;> (try subst_vars) <;> first | rfl | contradiction

theorem toTail_ok (s : State) (pno : Int) (h : s.inTable s.replace_tail) :
    ∃ s', requestPage_toTail s pno = .ok s' () := by
  unfold requestPage_toTail
  simp [h.1, h.2]

theorem hit_other {s : State} (pno : Int) (h : s.replacePolicy ≠ .REPL_LRU) :
    requestPage_hit s pno = .ok (s.call .countPageHit) () := by
  simp [requestPage_hit, h]

theorem hit_sole {s : State} {pno : Int} (h : s.replacePolicy = .REPL_LRU)
    (hp : s.prv pno = -1) (hn : s.nxt pno = -1) :
    requestPage_hit s pno =
      .ok (State.call { s with replace_head := pno, replace_tail := pno } .countPageHit) () := by
  simp only [State.prv, State.nxt] at hp hn
  simp [requestPage_hit, h, hp, hn]

theorem hit_last {s : State} {pno : Int} (h : s.replacePolicy = .REPL_LRU)
    (hp : s.prv pno ≠ -1) (hn : s.nxt pno = -1) :
    requestPage_hit s pno = .ok (s.call .countPageHit) () := by
  simp only [State.prv, State.nxt] at hp hn
  simp [requestPage_hit, h, hp, hn]

theorem hit_head {s : State} {pno : Int} (h : s.replacePolicy = .REPL_LRU)
    (hp : s.prv pno = -1) (hn : s.nxt pno ≠ -1) :
    requestPage_hit s pno =
      if ¬ s.inTable (s.nxt pno) then .fail .OutOfBounds s else
      requestPage_toTail
        { s.modify (s.nxt pno) (fun e => { e with prev := -1 }) with replace_head := s.nxt pno } pno := by
  simp only [State.prv, State.nxt] at hp hn ⊢
  simp only [requestPage_hit, h, hp, hn, if_true, if_false]

theorem modify_next_prev (s : State) (i v j : Int) :
    ((s.modify i (fun e => { e with next := v })).PageTable j).prev = (s.PageTable j).prev := by
  simp only [modify_PageTable]
  split_ifs <;> (try subst_vars) <;> rfl

theorem hit_mid {s : State} {pno : Int} (h : s.replacePolicy = .REPL_LRU)
    (hp : s.prv pno ≠ -1) (hn : s.nxt pno ≠ -1) :
    requestPage_hit s pno =
      if ¬ s.inTable (s.prv pno) then .fail .OutOfBounds s else
      if ¬ s.inTable (s.nxt pno) then
        .fail .OutOfBounds (s.modify (s.prv pno) (fun e => { e with next := s.nxt pno })) else
      requestPage_toTail
        ((s.modify (s.prv pno) (fun e => { e with next := s.nxt pno })).modify (s.nxt pno)
          (fun e => { e with prev := s.prv pno })) pno := by
  simp only [State.prv, State.nxt] at hp hn ⊢
  simp only [requestPage_hit, h, hp, hn, if_true, if_false, modify_nPages, modify_next_prev]
  rfl

theorem hit_inv {s s' : State} {pno : Int} (h : requestPage_hit s pno = .ok s' ()) :
    s'.calls = s.calls ++ [Call.countPageHit] ∧
    s'.nPages = s.nPages ∧ s'.replacePolicy = s.replacePolicy ∧ s'.dat = s.dat := by
  by_cases hpol : s.replacePolicy = .REPL_LRU
  · by_cases hp : s.prv pno = -1 <;> by_cases hn : s.nxt pno = -1
    · rw [hit_sole hpol hp hn] at h
      simp only [Outcome.ok.injEq, and_true] at h
      subst h
      exact ⟨rfl, rfl, rfl, rfl⟩
    · rw [hit_head hpol hp hn] at h
      split at h
      · cases h
      · obtain ⟨h1, h2, h3, -, -, h4, -, -⟩ := toTail_inv h
        refine ⟨h1, h2, h3, ?_⟩
        rw [h4]
        simp only [dat_setHead, dat_setPrev]
    · rw [hit_last hpol hp hn] at h
      simp only [Outcome.ok.injEq, and_true] at h
      subst h
      exact ⟨rfl, rfl, rfl, rfl⟩
    · rw [hit_mid hpol hp hn] at h
      split at h
      · cases h
      · split at h
        · cases h
        · obtain ⟨h1, h2, h3, -, -, h4, -, -⟩ := toTail_inv h
          refine ⟨h1, h2, h3, ?_⟩
          rw [h4]
          simp only [dat_setNext, dat_setPrev]
  · rw [hit_other pno hpol] at h
    simp only [Outcome.ok.injEq, and_true] at h
    subst h
    exact ⟨rfl, rfl, rfl, rfl⟩

/-- A request that returns went through the fault blocks or through the hit block. -/
theorem requestPage_inv {ff : List Call → Int} {s s' : State} {pno t fr : Int} {mode : Char}
    (h : requestPage ff s pno mode t = .ok s' fr) :
    s.inTable pno ∧
    ((((s.PageTable pno).status = NOT_USED ∨ (s.PageTable pno).status = ON_DISK) ∧
        ∃ s1 fno s2,
          (if ff (s.calls ++ [Call.countPageFault]) = NONE then
              requestPage_evict ((s.call .countPageFault).call .findFreeFrame) t
            else .ok ((s.call .countPageFault).call .findFreeFrame)
              (ff (s.calls ++ [Call.countPageFault]))) = .ok s1 fno ∧
          requestPage_load s1 pno fno t = .ok s2 () ∧
          s' = s2.modify pno (fun e => e.accessed mode t) ∧ fr = (s2.PageTable pno).frame) ∨
      ((s.PageTable pno).status = IN_MEMORY ∧
        ∃ s2, requestPage_hit s pno = .ok s2 () ∧
          s' = s2.modify pno (fun e => e.accessed mode t) ∧ fr = (s2.PageTable pno).frame)) := by
  unfold requestPage at h
  split at h
  · cases h
  · rename_i hin
    have hin' : s.inTable pno := by
      simp only [State.inTable]
      omega
    refine ⟨hin', ?_⟩
    simp only [] at h
    split at h
    · rename_i hst
      left
      refine ⟨hst, ?_⟩
      split at h
      · cases h
      · rename_i s1 fno hs1
        split at h
        · cases h
        · rename_i s2 u hs2
          rw [finish_eq] at h
          simp only [Outcome.ok.injEq] at h
          exact ⟨s1, fno, s2, hs1, hs2, h.1.symm, h.2.symm⟩
    · split at h
      · rename_i hst
        right
        refine ⟨hst, ?_⟩
        split at h
        · cases h
        · rename_i s2 u hs2
          rw [finish_eq] at h
          simp only [Outcome.ok.injEq] at h
          exact ⟨s2, hs2, h.1.symm, h.2.symm⟩
      · cases h

theorem requestPage_of_fault {ff : List Call → Int} {s s1 s2 : State} {pno t fno : Int}
    (mode : Char) (hin : s.inTable pno)
    (hst : (s.PageTable pno).status = NOT_USED ∨ (s.PageTable pno).status = ON_DISK)
    (h1 : (if ff (s.calls ++ [Call.countPageFault]) = NONE then
              requestPage_evict ((s.call .countPageFault).call .findFreeFrame) t
            else .ok ((s.call .countPageFault).call .findFreeFrame)
              (ff (s.calls ++ [Call.countPageFault]))) = .ok s1 fno)
    (h2 : requestPage_load s1 pno fno t = .ok s2 ()) :
    requestPage ff s pno mode t =
      .ok (s2.modify pno (fun e => e.accessed mode t)) (s2.PageTable pno).frame := by
  have hn : ¬ (pno < 0 ∨ pno ≥ s.nPages) := by
    have := hin.1
    have := hin.2
    omega
  unfold requestPage
  simp only [hn, if_false, hst, if_true, call_calls]
  rw [h1]
  simp only [h2, finish_eq]

theorem requestPage_of_hit (ff : List Call → Int) {s s2 : State} {pno : Int}
    (mode : Char) (t : Int) (hin : s.inTable pno)
    (hst : (s.PageTable pno).status = IN_MEMORY)
    (h2 : requestPage_hit s pno = .ok s2 ()) :
    requestPage ff s pno mode t =
      .ok (s2.modify pno (fun e => e.accessed mode t)) (s2.PageTable pno).frame := by
  have hn : ¬ (pno < 0 ∨ pno ≥ s.nPages) := by
    have := hin.1
    have := hin.2
    omega
  have hst' : ¬ (IN_MEMORY = NOT_USED ∨ IN_MEMORY = ON_DISK) := by decide
  unfold requestPage
  simp only [hn, if_false, hst', hst, if_true]
  simp only [h2, finish_eq]

/-! ### Failures -/

theorem findVictim_fail {s s' : State} {t : Int} {e : Fatal}
    (h : findVictim s t = .fail e s') : e = .OutOfBounds := by
  unfold findVictim at h
  simp only [] at h
  split at h
  · simp only [Outcome.fail.injEq] at h
    exact h.1.symm
  · split at h
    · simp only [Outcome.fail.injEq] at h
      exact h.1.symm
    · split at h <;> cases h

theorem evict_fail {s s' : State} {t : Int} {e : Fatal}
    (h : requestPage_evict s t = .fail e s') : e = .OutOfBounds := by
  unfold requestPage_evict at h
  split at h
  · rename_i e1 s1 h1
    simp only [Outcome.fail.injEq] at h
    rw [← h.1]
    exact findVictim_fail h1
  · simp only [] at h
    split at h
    · simp only [Outcome.fail.injEq] at h
      exact h.1.symm
    · cases h

theorem load_fail {s s' : State} {pno fno t : Int} {e : Fatal}
    (h : requestPage_load s pno fno t = .fail e s') : e = .OutOfBounds := by
  by_cases ht : t = 0
  · subst ht
    simp only [requestPage_load, if_true] at h
    split at h
    · simp only [Outcome.fail.injEq] at h
      exact h.1.symm
    · cases h
  · simp only [requestPage_load, ht, if_false] at h
    split at h
    · simp only [Outcome.fail.injEq] at h
      exact h.1.symm
    · cases h

theorem toTail_fail {s s' : State} {pno : Int} {e : Fatal}
    (h : requestPage_toTail s pno = .fail e s') : e = .OutOfBounds := by
  unfold requestPage_toTail at h
  simp only [] at h
  split at h
  · simp only [Outcome.fail.injEq] at h
    exact h.1.symm
  · cases h

theorem hit_fail {s s' : State} {pno : Int} {e : Fatal}
    (h : requestPage_hit s pno = .fail e s') : e = .OutOfBounds := by
  unfold requestPage_hit at h
  simp only [] at h
  repeat' split at h
  all_goals first
    | (cases h; done)
    | exact toTail_fail h
    | (simp only [Outcome.fail.injEq] at h; exact h.1.symm)

theorem requestPage_fail {ff : List Call → Int} {s s' : State} {pno t : Int} {mode : Char}
    {e : Fatal} (hin : s.inTable pno) (h : requestPage ff s pno mode t = .fail e s') :
    e = .OutOfBounds ∨
      (e = .InvalidPageStatus ∧
        ¬ ((s.PageTable pno).status = NOT_USED ∨ (s.PageTable pno).status = ON_DISK) ∧
        ¬ (s.PageTable pno).status = IN_MEMORY) := by
  have hn : ¬ (pno < 0 ∨ pno ≥ s.nPages) := by
    have := hin.1
    have := hin.2
    omega
  unfold requestPage at h
  simp only [hn, if_false, finish_eq] at h
  split at h
  · split at h
    · rename_i e1 s1 h1
      simp only [Outcome.fail.injEq] at h
      left
      rw [← h.1]
      split at h1
      · exact evict_fail h1
      · cases h1
    · split at h
      · rename_i e1 s1 h1
        simp only [Outcome.fail.injEq] at h
        left
        rw [← h.1]
        exact load_fail h1
      · cases h
  · rename_i hnf
    split at h
    · split at h
      · rename_i e1 s1 h1
        simp only [Outcome.fail.injEq] at h
        left
        rw [← h.1]
        exact hit_fail h1
      · cases h
    · rename_i hnh
      simp only [Outcome.fail.injEq] at h
      right
      exact ⟨h.1.symm, hnf, hnh⟩

/-- C6 (invalid reference): `requestPage` ends with the fatal "Invalid page reference"
exactly when `pno < 0` or `pno >= nPages`, and it then ends in the state it was called in:
no table entry, cursor or counter has changed and no call to a collaborator was made. -/
theorem invalid_reference (ff : List Call → Int) (s : State) (pno : Int) (mode : Char)
    (time : Int) :
    ((∃ s', requestPage ff s pno mode time = .fail .InvalidPageReference s') ↔
        (pno < 0 ∨ pno ≥ s.nPages)) ∧
    (∀ s', requestPage ff s pno mode time = .fail .InvalidPageReference s' →
        s' = s ∧ s'.calls = s.calls) := by
  by_cases hout : pno < 0 ∨ pno ≥ s.nPages
  · have hr : requestPage ff s pno mode time = .fail .InvalidPageReference s := by
      unfold requestPage
      simp only [hout, if_true]
    refine ⟨⟨fun _ => hout, fun _ => ⟨s, hr⟩⟩, ?_⟩
    intro s' hs'
    rw [hr] at hs'
    simp only [Outcome.fail.injEq, true_and] at hs'
    subst hs'
    exact ⟨rfl, rfl⟩
  · have hin : s.inTable pno := by
      simp only [State.inTable]
      omega
    have hno : ∀ s', requestPage ff s pno mode time ≠ .fail .InvalidPageReference s' := by
      intro s' hs'
      rcases requestPage_fail hin hs' with h | ⟨h, -⟩ <;> cases h
    refine ⟨⟨fun ⟨s', hs'⟩ => absurd hs' (hno s'), fun h => absurd h hout⟩, ?_⟩
    intro s' hs'
    exact absurd hs' (hno s')

/-! ### The effect of a successful request on the calls and on the data fields -/

theorem dat_accessed (s : State) (pno : Int) (mode : Char) (t : Int) :
    (s.modify pno (fun e => e.accessed mode t)).dat =
      fun j => if j = pno then (s.dat pno).accessed mode t else s.dat j :=
  dat_modify s pno (fun e => e.accessed mode t) (fun e => e.accessed mode t) (fun _ => rfl)

@[simp] theorem nxt_accessed (s : State) (pno : Int) (mode : Char) (t : Int) :
    (s.modify pno (fun e => e.accessed mode t)).nxt = s.nxt :=
  nxt_modify s pno (fun e => e.accessed mode t) (fun _ => rfl)

@[simp] theorem prv_accessed (s : State) (pno : Int) (mode : Char) (t : Int) :
    (s.modify pno (fun e => e.accessed mode t)).prv = s.prv :=
  prv_modify s pno (fun e => e.accessed mode t) (fun _ => rfl)

theorem request_data {ff : List Call → Int} {s s' : State} {pno t fr : Int} {mode : Char}
    (h : requestPage ff s pno mode t = .ok s' fr) :
    s'.nPages = s.nPages ∧ s'.replacePolicy = s.replacePolicy ∧ s.inTable pno ∧
    fr = (s'.dat pno).frame ∧
    ((((s.PageTable pno).status = NOT_USED ∨ (s.PageTable pno).status = ON_DISK) ∧
        ff (s.calls ++ [Call.countPageFault]) ≠ NONE ∧
        s'.calls = s.calls ++ [Call.countPageFault, Call.findFreeFrame,
          Call.loadFrame (ff (s.calls ++ [Call.countPageFault])) pno t] ∧
        s'.dat = fun j =>
          if j = pno then
            ((s.dat pno).loaded (ff (s.calls ++ [Call.countPageFault])) t).accessed mode t
          else s.dat j) ∨
      (((s.PageTable pno).status = NOT_USED ∨ (s.PageTable pno).status = ON_DISK) ∧
        ff (s.calls ++ [Call.countPageFault]) = NONE ∧
        ∃ sv v, findVictim ((s.call .countPageFault).call .findFreeFrame) t = .ok sv v ∧
          s.inTable v ∧
          s'.calls = s.calls ++ [Call.countPageFault, Call.findFreeFrame] ++
            (if (s.dat v).modified ≠ 0 then [Call.saveFrame (s.dat v).frame] else []) ++
            [Call.loadFrame (s.dat v).frame pno t] ∧
          s'.dat = fun j =>
            if j = pno then
              (((if pno = v then (s.dat v).evicted else s.dat pno).loaded
                (s.dat v).frame t).accessed mode t)
            else if j = v then (s.dat v).evicted else s.dat j) ∨
      ((s.PageTable pno).status = IN_MEMORY ∧
        s'.calls = s.calls ++ [Call.countPageHit] ∧
        s'.dat = fun j => if j = pno then (s.dat pno).accessed mode t else s.dat j)) := by
  obtain ⟨hin, hcase⟩ := requestPage_inv h
  rcases hcase with ⟨hst, s1, fno, s2, h1, h2, rfl, rfl⟩ | ⟨hst, s2, h2, rfl, rfl⟩
  · obtain ⟨l1, l2, l3, -, -, l6, -, -⟩ := load_inv h2
    have hfr : (s2.PageTable pno).frame =
        ((s2.modify pno (fun e => e.accessed mode t)).dat pno).frame := by
      rw [dat_accessed]
      simp only [if_true]
      rfl
    by_cases hff : ff (s.calls ++ [Call.countPageFault]) = NONE
    · rw [if_pos hff] at h1
      obtain ⟨sv, v, e1, e2, e3, e4, e5, e6, -, -, e9, -, -⟩ := evict_inv h1
      obtain ⟨v1, v2, v3, -, -, v6, -, -⟩ := findVictim_effect e1
      simp only [dat_call] at v6
      have hfv : (sv.PageTable v).frame = (s.dat v).frame := by
        rw [← v6]
        rfl
      have hmv : (sv.PageTable v).modified = (s.dat v).modified := by
        rw [← v6]
        rfl
      refine ⟨?_, ?_, hin, hfr, Or.inr (Or.inl ⟨hst, hff, sv, v, e1, ?_, ?_, ?_⟩)⟩
      · simp only [modify_nPages, l2, e5, v2, call_nPages]
      · simp only [modify_replacePolicy, l3, e6, v3, call_replacePolicy]
      · have := e2
        simp only [State.inTable, v2, call_nPages] at this
        exact this
      · simp only [modify_calls, l1, e4, v1, call_calls, e3, hfv, hmv, List.append_assoc,
          List.cons_append, List.nil_append]
      · rw [dat_accessed, l6, e9, v6, e3, hfv]
        funext j
        by_cases hj : j = pno
        · subst hj
          simp only [if_true]
        · simp only [hj, if_false]
    · rw [if_neg hff] at h1
      simp only [Outcome.ok.injEq] at h1
      obtain ⟨rfl, rfl⟩ := h1
      refine ⟨?_, ?_, hin, hfr, Or.inl ⟨hst, hff, ?_, ?_⟩⟩
      · simp only [modify_nPages, l2, call_nPages]
      · simp only [modify_replacePolicy, l3, call_replacePolicy]
      · simp only [modify_calls, l1, call_calls, List.append_assoc, List.cons_append,
          List.nil_append]
      · rw [dat_accessed, l6]
        simp only [dat_call]
        funext j
        by_cases hj : j = pno
        · subst hj
          simp only [if_true]
        · simp only [hj, if_false]
  · obtain ⟨l1, l2, l3, l4⟩ := hit_inv h2
    have hfr : (s2.PageTable pno).frame =
        ((s2.modify pno (fun e => e.accessed mode t)).dat pno).frame := by
      rw [dat_accessed]
      simp only [if_true]
      rfl
    refine ⟨?_, ?_, hin, hfr, Or.inr (Or.inr ⟨hst, ?_, ?_⟩)⟩
    · simp only [modify_nPages, l2]
    · simp only [modify_replacePolicy, l3]
    · simp only [modify_calls, l1]
    · rw [dat_accessed, l4]

/-! ### Traces -/

theorem ok_of_isOk {o : Outcome Unit} (h : o.isOk = true) : o = .ok o.state () := by
  cases o with
  | ok s a => rfl
  | fail e s => cases h

theorem ok_of_isOk_result {o : Outcome Int} (h : o.isOk = true) : o = .ok o.state o.result := by
  cases o with
  | ok s a => rfl
  | fail e s => cases h

theorem runTrace_cons_ok {ff : List Call → Int} {s s' : State} {pno t : Int} {mode : Char}
    {rest : List (Int × Char × Int)}
    (h : runTrace ff s ((pno, mode, t) :: rest) = .ok s' ()) :
    ∃ s1 fr, requestPage ff s pno mode t = .ok s1 fr ∧ runTrace ff s1 rest = .ok s' () := by
  simp only [runTrace] at h
  split at h
  · cases h
  · rename_i s1 fr h1
    exact ⟨s1, fr, h1, h⟩

theorem request_counts {ff : List Call → Int} {s s' : State} {pno t fr : Int} {mode : Char}
    (h : requestPage ff s pno mode t = .ok s' fr) :
    (((s.PageTable pno).status = NOT_USED ∨ (s.PageTable pno).status = ON_DISK) →
        nFaults s' = nFaults s + 1 ∧ nHits s' = nHits s) ∧
    ((s.PageTable pno).status = IN_MEMORY → nHits s' = nHits s + 1 ∧ nFaults s' = nFaults s) := by
  have hne1 : ¬ (IN_MEMORY = NOT_USED ∨ IN_MEMORY = ON_DISK) := by decide
  obtain ⟨-, -, -, -, hc⟩ := request_data h
  rcases hc with ⟨hst, -, hcalls, -⟩ | ⟨hst, -, sv, v, -, -, hcalls, -⟩ | ⟨hst, hcalls, -⟩
  · refine ⟨fun _ => ?_, fun h' => ?_⟩
    · simp [nFaults, nHits, hcalls, List.count_append, List.count_cons]
    · rw [h'] at hst
      exact absurd hst hne1
  · refine ⟨fun _ => ?_, fun h' => ?_⟩
    · simp only [nFaults, nHits, hcalls]
      split_ifs <;> simp [List.count_append, List.count_cons]
    · rw [h'] at hst
      exact absurd hst hne1
  · refine ⟨fun h' => ?_, fun _ => ?_⟩
    · rw [hst] at h'
      exact absurd h' hne1
    · simp [nFaults, nHits, hcalls, List.count_append, List.count_cons]

theorem findVictim_ok {s : State} (t : Int) (h1 : s.inTable s.replace_head)
    (h2 : s.inTable (s.nxt s.replace_head)) (hpol : s.replacePolicy ≠ .REPL_CLOCK) :
    ∃ sv, findVictim s t = .ok sv s.replace_head := by
  cases hr : findVictim s t with
  | ok sv v =>
    obtain ⟨-, -, -, hv, -⟩ := findVictim_inv hr
    rw [hv hpol]
    exact ⟨sv, rfl⟩
  | fail e s' =>
    exfalso
    unfold findVictim at hr
    simp only [] at hr
    split at hr
    · rename_i h
      exact h h1
    · split at hr
      · rename_i h
        exact h h2
      · split at hr <;> cases hr

theorem evict_ok {s sv : State} {t v : Int} (h : findVictim s t = .ok sv v)
    (hv : sv.inTable v) : ∃ s1, requestPage_evict s t = .ok s1 (sv.PageTable v).frame := by
  unfold requestPage_evict
  simp only [h, hv, not_true_eq_false, if_false]
  split_ifs
  · exact ⟨_, rfl⟩
  · exact ⟨_, rfl⟩

/-! ### The operations without the bounds guard -/

theorem findVictim_raw_eq (s : State) (t : Int) :
    findVictim_raw s t =
      ({ s with replace_head := (s.PageTable s.replace_head).next }.modify
          (s.PageTable s.replace_head).next (fun e => { e with prev := -1 }),
       if s.replacePolicy = .REPL_CLOCK then 0 else s.replace_head) := by
  unfold findVictim_raw
  cases hp : s.replacePolicy <;> simp [hp]

theorem findVictim_raw_of_ok {s sv : State} {t v : Int} (h : findVictim s t = .ok sv v) :
    findVictim_raw s t = (sv, v) := by
  unfold findVictim at h
  simp only [] at h
  split at h
  · cases h
  · split at h
    · cases h
    · rw [findVictim_raw_eq]
      split at h <;> rename_i hp <;> simp only [modify_replacePolicy] at hp <;>
        simp only [Outcome.ok.injEq] at h <;> obtain ⟨rfl, rfl⟩ := h <;> simp [hp]

theorem findVictim_raw_effect (s : State) (t : Int) :
    (findVictim_raw s t).1.calls = s.calls ∧ (findVictim_raw s t).1.nPages = s.nPages ∧
    (findVictim_raw s t).1.replacePolicy = s.replacePolicy ∧
    (findVictim_raw s t).1.replace_head = s.nxt s.replace_head ∧
    (findVictim_raw s t).1.replace_tail = s.replace_tail ∧
    (findVictim_raw s t).1.dat = s.dat ∧ (findVictim_raw s t).1.nxt = s.nxt := by
  rw [findVictim_raw_eq]
  exact ⟨rfl, rfl, rfl, rfl, rfl, dat_setPrev _ _ _, nxt_setPrev _ _ _⟩

theorem evict_raw_of_ok {s s' : State} {t fno : Int} (h : requestPage_evict s t = .ok s' fno) :
    requestPage_evict_raw s t = (s', fno) := by
  unfold requestPage_evict at h
  split at h
  · cases h
  · rename_i sv v hv
    simp only [] at h
    split at h
    · cases h
    · simp only [Outcome.ok.injEq] at h
      obtain ⟨rfl, rfl⟩ := h
      unfold requestPage_evict_raw
      rw [findVictim_raw_of_ok hv]

theorem evict_raw_effect (s : State) (t : Int) :
    (requestPage_evict_raw s t).1.calls = s.calls ++
      (if (s.PageTable (findVictim_raw s t).2).modified ≠ 0 then
        [Call.saveFrame (s.PageTable (findVictim_raw s t).2).frame] else []) ∧
    (requestPage_evict_raw s t).2 = (s.PageTable (findVictim_raw s t).2).frame ∧
    (requestPage_evict_raw s t).1.nPages = s.nPages ∧
    (requestPage_evict_raw s t).1.dat =
      (fun j => if j = (findVictim_raw s t).2 then (s.dat (findVictim_raw s t).2).evicted
        else s.dat j) := by
  obtain ⟨hc, hn, -, -, -, hd, -⟩ := findVictim_raw_effect s t
  have hm : ∀ j, ((findVictim_raw s t).1.PageTable j).modified = (s.PageTable j).modified :=
    fun j => by
      have q := congrArg PTE.modified (congrFun hd j)
      exact q
  have hf : ∀ j, ((findVictim_raw s t).1.PageTable j).frame = (s.PageTable j).frame :=
    fun j => by
      have q := congrArg PTE.frame (congrFun hd j)
      exact q
  unfold requestPage_evict_raw
  simp only []
  generalize findVictim_raw s t = r at hc hn hd hm hf
  obtain ⟨sv, v⟩ := r
  simp only [] at hc hn hd hm hf ⊢
  refine ⟨?_, ?_, ?_, ?_⟩
  · rw [hm, hf, ← hc]
    split_ifs <;> simp
  · rw [← hf]
    split_ifs <;> simp
  · rw [← hn]
    split_ifs <;> simp
  · rw [← hd]
    funext j
    simp only [State.dat, modify_PageTable]
    split_ifs <;> simp_all [PTE.data, PTE.evicted]

theorem load_raw_of_ok {s s' : State} {pno fno t : Int}
    (h : requestPage_load s pno fno t = .ok s' ()) :
    requestPage_load_raw s pno fno t = s' := by
  by_cases ht : t = 0
  · subst ht
    simp only [requestPage_load, if_true] at h
    split at h
    · cases h
    · simp only [Outcome.ok.injEq, and_true] at h
      subst h
      simp only [requestPage_load_raw, if_true]
  · simp only [requestPage_load, ht, if_false] at h
    split at h
    · cases h
    · simp only [Outcome.ok.injEq, and_true] at h
      subst h
      simp only [requestPage_load_raw, ht, if_false]

theorem load_raw_effect (s : State) (pno fno t : Int) :
    (requestPage_load_raw s pno fno t).calls = s.calls ++ [Call.loadFrame fno pno t] ∧
    (requestPage_load_raw s pno fno t).nPages = s.nPages ∧
    (requestPage_load_raw s pno fno t).dat =
      (fun j => if j = pno then (s.dat pno).loaded fno t else s.dat j) := by
  by_cases ht : t = 0
  · subst ht
    simp only [requestPage_load_raw, if_true]
    refine ⟨rfl, rfl, ?_⟩
    funext j
    simp only [State.dat, modify_PageTable, call_PageTable, modify_replace_tail]
    split_ifs <;> (try subst_vars) <;> rfl
  · simp only [requestPage_load_raw, ht, if_false]
    refine ⟨rfl, rfl, ?_⟩
    funext j
    simp only [State.dat, modify_PageTable, call_PageTable, modify_replace_tail,
      call_replace_tail]
    split_ifs <;> (try subst_vars) <;> first | rfl | contradiction

theorem toTail_raw_of_ok {s s' : State} {pno : Int}
    (h : requestPage_toTail s pno = .ok s' ()) : requestPage_toTail_raw s pno = s' := by
  simp only [requestPage_toTail] at h
  split at h
  · cases h
  · simp only [Outcome.ok.injEq, and_true] at h
    subst h
    rfl

theorem toTail_raw_effect (s : State) (pno : Int) :
    (requestPage_toTail_raw s pno).calls = s.calls ++ [Call.countPageHit] ∧
    (requestPage_toTail_raw s pno).nPages = s.nPages ∧
    (requestPage_toTail_raw s pno).dat = s.dat := by
  refine ⟨rfl, rfl, ?_⟩
  simp only [requestPage_toTail_raw, dat_call, dat_setNext, dat_setPrev]
  funext j
  simp only [State.dat, modify_PageTable, modify_replace_tail]
  split_ifs <;> (try subst_vars) <;> rfl

theorem hit_raw_of_ok {s s' : State} {pno : Int}
    (h : requestPage_hit s pno = .ok s' ()) : requestPage_hit_raw s pno = s' := by
  unfold requestPage_hit at h
  unfold requestPage_hit_raw
  split at h
  · rw [if_pos (by assumption)]
    simp only [] at h ⊢
    split at h
    · rw [if_pos (by assumption)]
      split at h
      · rw [if_pos (by assumption)]
        simp only [Outcome.ok.injEq, and_true] at h
        exact h
      · rw [if_neg (by assumption)]
        split at h
        · cases h
        · exact toTail_raw_of_ok h
    · rw [if_neg (by assumption)]
      split at h
      · rw [if_pos (by assumption)]
        simp only [Outcome.ok.injEq, and_true] at h
        exact h
      · rw [if_neg (by assumption)]
        split at h
        · cases h
        · split at h
          · cases h
          · exact toTail_raw_of_ok h
  · rw [if_neg (by assumption)]
    simp only [Outcome.ok.injEq, and_true] at h
    exact h

theorem hit_raw_effect (s : State) (pno : Int) :
    (requestPage_hit_raw s pno).calls = s.calls ++ [Call.countPageHit] ∧
    (requestPage_hit_raw s pno).nPages = s.nPages ∧
    (requestPage_hit_raw s pno).dat = s.dat := by
  unfold requestPage_hit_raw
  simp only []
  split_ifs
  · exact ⟨rfl, rfl, rfl⟩
  · obtain ⟨h1, h2, h3⟩ := toTail_raw_effect
      { s.modify (s.PageTable pno).next (fun e => { e with prev := -1 }) with
        replace_head := (s.PageTable pno).next } pno
    refine ⟨h1, h2, ?_⟩
    rw [h3, dat_setHead, dat_setPrev]
  · exact ⟨rfl, rfl, rfl⟩
  · obtain ⟨h1, h2, h3⟩ := toTail_raw_effect
      ((s.modify (s.PageTable pno).prev (fun e => { e with next := (s.PageTable pno).next })).modify
        (s.PageTable pno).next
        (fun e => { e with prev := ((s.modify (s.PageTable pno).prev
          (fun e => { e with next := (s.PageTable pno).next })).PageTable pno).prev })) pno
    refine ⟨h1, h2, ?_⟩
    rw [h3, dat_setPrev, dat_setNext]
  · exact ⟨rfl, rfl, rfl⟩

theorem requestPage_raw_fault (ff : List Call → Int) {s : State} {pno : Int} (mode : Char)
    (t : Int) (hin : s.inTable pno)
    (hst : (s.PageTable pno).status = NOT_USED ∨ (s.PageTable pno).status = ON_DISK)
    (r : State × Int)
    (hr : r = if ff (s.calls ++ [Call.countPageFault]) = NONE then
        requestPage_evict_raw ((s.call .countPageFault).call .findFreeFrame) t
      else ((s.call .countPageFault).call .findFreeFrame,
        ff (s.calls ++ [Call.countPageFault]))) :
    requestPage_raw ff s pno mode t =
      .ok ((requestPage_load_raw r.1 pno r.2 t).modify pno (fun e => e.accessed mode t))
        ((requestPage_load_raw r.1 pno r.2 t).PageTable pno).frame := by
  have hn : ¬ (pno < 0 ∨ pno ≥ s.nPages) := by
    have := hin.1
    have := hin.2
    omega
  unfold requestPage_raw
  simp only [hn, if_false, hst, if_true, call_calls, finish_eq]
  rw [hr]

theorem requestPage_raw_hit (ff : List Call → Int) {s : State} {pno : Int} (mode : Char)
    (t : Int) (hin : s.inTable pno) (hst : (s.PageTable pno).status = IN_MEMORY) :
    requestPage_raw ff s pno mode t =
      .ok ((requestPage_hit_raw s pno).modify pno (fun e => e.accessed mode t))
        ((requestPage_hit_raw s pno).PageTable pno).frame := by
  have hn : ¬ (pno < 0 ∨ pno ≥ s.nPages) := by
    have := hin.1
    have := hin.2
    omega
  have hst' : ¬ (IN_MEMORY = NOT_USED ∨ IN_MEMORY = ON_DISK) := by decide
  unfold requestPage_raw
  simp only [hn, if_false, hst', hst, if_true, finish_eq]

/-- The unguarded request agrees with the guarded one whenever that one returns. -/
theorem requestPage_raw_of_ok {ff : List Call → Int} {s s' : State} {pno t fr : Int}
    {mode : Char} (h : requestPage ff s pno mode t = .ok s' fr) :
    requestPage_raw ff s pno mode t = .ok s' fr := by
  obtain ⟨hin, hcase⟩ := requestPage_inv h
  rcases hcase with ⟨hst, s1, fno, s2, h1, h2, rfl, rfl⟩ | ⟨hst, s2, h2, rfl, rfl⟩
  · rw [requestPage_raw_fault ff mode t hin hst (s1, fno), load_raw_of_ok h2]
    by_cases hff : ff (s.calls ++ [Call.countPageFault]) = NONE
    · rw [if_pos hff] at h1 ⊢
      exact (evict_raw_of_ok h1).symm
    · rw [if_neg hff] at h1 ⊢
      simp only [Outcome.ok.injEq] at h1
      obtain ⟨rfl, rfl⟩ := h1
      rfl
  · rw [requestPage_raw_hit ff mode t hin hst, hit_raw_of_ok h2]

/-- The unguarded request ends without returning only by `exit`, as the guarded one then
does. -/
theorem requestPage_raw_fail {ff : List Call → Int} {s s' : State} {pno t : Int} {mode : Char}
    {e : Fatal} (h : requestPage_raw ff s pno mode t = .fail e s') :
    requestPage ff s pno mode t = .fail e s' ∧ s' = s ∧
    ((e = .InvalidPageReference ∧ ¬ s.inTable pno) ∨
      (e = .InvalidPageStatus ∧ s.inTable pno ∧ (s.PageTable pno).status ≠ NOT_USED ∧
        (s.PageTable pno).status ≠ ON_DISK ∧ (s.PageTable pno).status ≠ IN_MEMORY)) := by
  by_cases hn : pno < 0 ∨ pno ≥ s.nPages
  · have hR : requestPage ff s pno mode t = .fail .InvalidPageReference s := by
      unfold requestPage
      simp only [hn, if_true]
    unfold requestPage_raw at h
    simp only [hn, if_true, Outcome.fail.injEq] at h
    obtain ⟨rfl, rfl⟩ := h
    refine ⟨hR, rfl, Or.inl ⟨rfl, ?_⟩⟩
    simp only [State.inTable]
    omega
  · have hin : s.inTable pno := by
      simp only [State.inTable]
      omega
    by_cases hst : (s.PageTable pno).status = NOT_USED ∨ (s.PageTable pno).status = ON_DISK
    · rw [requestPage_raw_fault ff mode t hin hst _ rfl] at h
      cases h
    · by_cases hm : (s.PageTable pno).status = IN_MEMORY
      · rw [requestPage_raw_hit ff mode t hin hm] at h
        cases h
      · have hR : requestPage ff s pno mode t = .fail .InvalidPageStatus s := by
          unfold requestPage
          simp only [hn, if_false, hst, hm]
        unfold requestPage_raw at h
        simp only [hn, if_false, hst, hm, Outcome.fail.injEq] at h
        obtain ⟨rfl, rfl⟩ := h
        exact ⟨hR, rfl, Or.inr ⟨rfl, hin, fun h => hst (Or.inl h), fun h => hst (Or.inr h), hm⟩⟩

/-- The guarded request that ends by `exit` ends as the unguarded one. -/
theorem requestPage_raw_of_exit {ff : List Call → Int} {s s' : State} {pno t : Int}
    {mode : Char} {e : Fatal} (h : requestPage ff s pno mode t = .fail e s')
    (he : e ≠ .OutOfBounds) : requestPage_raw ff s pno mode t = .fail e s' := by
  by_cases hn : pno < 0 ∨ pno ≥ s.nPages
  · unfold requestPage at h
    simp only [hn, if_true] at h
    unfold requestPage_raw
    simp only [hn, if_true]
    exact h
  · have hin : s.inTable pno := by
      simp only [State.inTable]
      omega
    rcases requestPage_fail hin h with h1 | ⟨-, h1, h2⟩
    · exact absurd h1 he
    · unfold requestPage at h
      simp only [hn, if_false, h1, h2] at h
      unfold requestPage_raw
      simp only [hn, if_false, h1, h2]
      exact h

/-- What a request without the bounds guard does: it returns, and these are its calls and
its effect on the data fields. -/
theorem raw_request (ff : List Call → Int) (s : State) (pno : Int) (mode : Char) (t : Int)
    (hin : s.inTable pno) :
    (((s.PageTable pno).status = NOT_USED ∨ (s.PageTable pno).status = ON_DISK) →
      ff (s.calls ++ [Call.countPageFault]) ≠ NONE →
      ∃ s' fr, requestPage_raw ff s pno mode t = .ok s' fr ∧ s'.nPages = s.nPages ∧
        fr = (s'.dat pno).frame ∧
        s'.calls = s.calls ++ [Call.countPageFault, Call.findFreeFrame,
          Call.loadFrame (ff (s.calls ++ [Call.countPageFault])) pno t] ∧
        s'.dat = fun j =>
          if j = pno then
            ((s.dat pno).loaded (ff (s.calls ++ [Call.countPageFault])) t).accessed mode t
          else s.dat j) ∧
    (((s.PageTable pno).status = NOT_USED ∨ (s.PageTable pno).status = ON_DISK) →
      ff (s.calls ++ [Call.countPageFault]) = NONE →
      ∀ v, v = (findVictim_raw ((s.call .countPageFault).call .findFreeFrame) t).2 →
      ∃ s' fr, requestPage_raw ff s pno mode t = .ok s' fr ∧ s'.nPages = s.nPages ∧
        fr = (s'.dat pno).frame ∧
        s'.calls = s.calls ++ [Call.countPageFault, Call.findFreeFrame] ++
          (if (s.dat v).modified ≠ 0 then [Call.saveFrame (s.dat v).frame] else []) ++
          [Call.loadFrame (s.dat v).frame pno t] ∧
        s'.dat = fun j =>
          if j = pno then
            (((if pno = v then (s.dat v).evicted else s.dat pno).loaded
              (s.dat v).frame t).accessed mode t)
          else if j = v then (s.dat v).evicted else s.dat j) ∧
    ((s.PageTable pno).status = IN_MEMORY →
      ∃ s' fr, requestPage_raw ff s pno mode t = .ok s' fr ∧ s'.nPages = s.nPages ∧
        fr = (s'.dat pno).frame ∧
        s'.calls = s.calls ++ [Call.countPageHit] ∧
        s'.dat = fun j => if j = pno then (s.dat pno).accessed mode t else s.dat j) := by
  have hfr : ∀ s2 : State, (s2.PageTable pno).frame =
      ((s2.modify pno (fun e => e.accessed mode t)).dat pno).frame := by
    intro s2
    rw [dat_accessed]
    simp only [if_true]
    rfl
  refine ⟨fun hst hff => ?_, fun hst hff v hv => ?_, fun hst => ?_⟩
  · have hreq := requestPage_raw_fault ff mode t hin hst _ rfl
    rw [if_neg hff] at hreq
    obtain ⟨l1, l2, l6⟩ := load_raw_effect ((s.call .countPageFault).call .findFreeFrame) pno
      (ff (s.calls ++ [Call.countPageFault])) t
    refine ⟨_, _, hreq, ?_, hfr _, ?_, ?_⟩
    · simp only [modify_nPages, l2, call_nPages]
    · simp only [modify_calls, l1, call_calls, List.append_assoc, List.cons_append,
        List.nil_append]
    · rw [dat_accessed, l6]
      simp only [dat_call]
      funext j
      by_cases hj : j = pno
      · subst hj
        simp only [if_true]
      · simp only [hj, if_false]
  · have hreq := requestPage_raw_fault ff mode t hin hst _ rfl
    rw [if_pos hff] at hreq
    obtain ⟨e1, e2, e3, e4⟩ :=
      evict_raw_effect ((s.call .countPageFault).call .findFreeFrame) t
    rw [← hv] at e1 e2 e4
    simp only [call_PageTable, call_calls, call_nPages, dat_call] at e1 e2 e3 e4
    have hfv : (s.PageTable v).frame = (s.dat v).frame := rfl
    have hmv : (s.PageTable v).modified = (s.dat v).modified := rfl
    obtain ⟨l1, l2, l6⟩ := load_raw_effect
      (requestPage_evict_raw ((s.call .countPageFault).call .findFreeFrame) t).1 pno
      (requestPage_evict_raw ((s.call .countPageFault).call .findFreeFrame) t).2 t
    refine ⟨_, _, hreq, ?_, hfr _, ?_, ?_⟩
    · simp only [modify_nPages, l2, e3]
    · rw [modify_calls, l1, e1, e2]
      simp only [hfv, hmv, List.append_assoc, List.cons_append, List.nil_append]
    · rw [dat_accessed, l6, e4, e2, hfv]
      funext j
      by_cases hj : j = pno
      · subst hj
        simp only [if_true]
      · simp only [hj, if_false]
  · have hreq := requestPage_raw_hit ff mode t hin hst
    obtain ⟨l1, l2, l4⟩ := hit_raw_effect s pno
    refine ⟨_, _, hreq, ?_, hfr _, ?_, ?_⟩
    · simp only [modify_nPages, l2]
    · simp only [modify_calls, l1]
    · rw [dat_accessed, l4]

/-! ### Calls made by a request that stops -/

theorem findVictim_fail_calls {s s' : State} {t : Int} {e : Fatal}
    (h : findVictim s t = .fail e s') : s'.calls = s.calls := by
  unfold findVictim at h
  simp only [] at h
  split at h
  · simp only [Outcome.fail.injEq] at h
    rw [← h.2]
  · split at h
    · simp only [Outcome.fail.injEq] at h
      rw [← h.2]
    · split at h <;> cases h

theorem evict_fail_calls {s s' : State} {t : Int} {e : Fatal}
    (h : requestPage_evict s t = .fail e s') : s'.calls = s.calls := by
  unfold requestPage_evict at h
  split at h
  · rename_i e1 s1 h1
    simp only [Outcome.fail.injEq] at h
    rw [← h.2]
    exact findVictim_fail_calls h1
  · rename_i sv v hv
    simp only [] at h
    split at h
    · simp only [Outcome.fail.injEq] at h
      rw [← h.2]
      exact (findVictim_effect hv).1
    · cases h

theorem load_fail_calls {s s' : State} {pno fno t : Int} {e : Fatal}
    (h : requestPage_load s pno fno t = .fail e s') :
    s'.calls = s.calls ++ [Call.loadFrame fno pno t] := by
  by_cases ht : t = 0
  · subst ht
    simp only [requestPage_load, if_true] at h
    split at h
    · simp only [Outcome.fail.injEq] at h
      rw [← h.2]
      rfl
    · cases h
  · simp only [requestPage_load, ht, if_false] at h
    split at h
    · simp only [Outcome.fail.injEq] at h
      rw [← h.2]
      rfl
    · cases h

/-- A request that finds the entry `NOT_USED` or `ON_DISK` has called `countPageFault` once
and `countPageHit` never, whether it returns or stops at an out-of-bounds access. -/
theorem fault_counted (ff : List Call → Int) (s : State) (pno : Int) (mode : Char) (t : Int)
    (hin : s.inTable pno)
    (hst : (s.PageTable pno).status = NOT_USED ∨ (s.PageTable pno).status = ON_DISK) :
    nFaults (requestPage ff s pno mode t).state = nFaults s + 1 ∧
    nHits (requestPage ff s pno mode t).state = nHits s := by
  cases hr : requestPage ff s pno mode t with
  | ok s' fr =>
    obtain ⟨-, -, -, -, hc⟩ := request_data hr
    have hne1 : ¬ (IN_MEMORY = NOT_USED ∨ IN_MEMORY = ON_DISK) := by decide
    simp only [Outcome.state]
    rcases hc with ⟨-, -, hcalls, -⟩ | ⟨-, -, sv, v, -, -, hcalls, -⟩ | ⟨hst', -⟩
    · simp [nFaults, nHits, hcalls, List.count_append, List.count_cons]
    · simp only [nFaults, nHits, hcalls]
      split_ifs <;> simp [List.count_append, List.count_cons]
    · rw [hst'] at hst
      exact absurd hst hne1
  | fail e s' =>
    simp only [Outcome.state]
    have hn : ¬ (pno < 0 ∨ pno ≥ s.nPages) := by
      have := hin.1
      have := hin.2
      omega
    unfold requestPage at hr
    simp only [hn, if_false, hst, if_true, finish_eq, call_calls] at hr
    split at hr
    · rename_i e1 s1 h1
      simp only [Outcome.fail.injEq] at hr
      obtain ⟨-, rfl⟩ := hr
      split at h1
      · have := evict_fail_calls h1
        simp only [call_calls] at this
        simp [nFaults, nHits, this, List.count_append, List.count_cons]
      · cases h1
    · rename_i s1 fno h1
      split at hr
      · rename_i e2 s2 h2
        simp only [Outcome.fail.injEq] at hr
        obtain ⟨-, rfl⟩ := hr
        have hl := load_fail_calls h2
        split at h1
        · obtain ⟨sv, v, hv, -, -, hc1, -⟩ := evict_inv h1
          have hc0 := (findVictim_effect hv).1
          simp only [call_calls] at hc0
          simp only [nFaults, nHits, hl, hc1, hc0]
          split_ifs <;> simp [List.count_append, List.count_cons]
        · simp only [Outcome.ok.injEq] at h1
          obtain ⟨rfl, rfl⟩ := h1
          simp [nFaults, nHits, hl, List.count_append, List.count_cons]
      · cases hr

theorem toTail_fail_calls {s s' : State} {pno : Int} {e : Fatal}
    (h : requestPage_toTail s pno = .fail e s') : s'.calls = s.calls := by
  unfold requestPage_toTail at h
  simp only [] at h
  split at h
  · simp only [Outcome.fail.injEq] at h
    rw [← h.2]
    rfl
  · cases h

theorem hit_fail_calls {s s' : State} {pno : Int} {e : Fatal}
    (h : requestPage_hit s pno = .fail e s') : s'.calls = s.calls := by
  unfold requestPage_hit at h
  simp only [] at h
  repeat' split at h
  all_goals first
    | (cases h; done)
    | exact (toTail_fail_calls h).trans rfl
    | (simp only [Outcome.fail.injEq] at h; rw [← h.2]; done)
    | (simp only [Outcome.fail.injEq] at h; rw [← h.2]; rfl)

/-- The calls a request to a page of the table has made in the state it ends in, whether it
returns or stops at an out-of-bounds access. -/
theorem request_calls (ff : List Call → Int) (s : State) (pno : Int) (mode : Char) (t : Int)
    (hin : s.inTable pno) :
    (((s.PageTable pno).status = NOT_USED ∨ (s.PageTable pno).status = ON_DISK) →
      ff (s.calls ++ [Call.countPageFault]) ≠ NONE →
      (requestPage ff s pno mode t).state.calls =
        s.calls ++ [Call.countPageFault, Call.findFreeFrame,
          Call.loadFrame (ff (s.calls ++ [Call.countPageFault])) pno t]) ∧
    (((s.PageTable pno).status = NOT_USED ∨ (s.PageTable pno).status = ON_DISK) →
      ff (s.calls ++ [Call.countPageFault]) = NONE →
      ∀ sv v, findVictim ((s.call .countPageFault).call .findFreeFrame) t = .ok sv v →
      (requestPage ff s pno mode t).state.calls =
        s.calls ++ [Call.countPageFault, Call.findFreeFrame] ++
          (if (s.PageTable v).modified ≠ 0 then [Call.saveFrame (s.PageTable v).frame]
            else []) ++
          [Call.loadFrame (s.PageTable v).frame pno t]) ∧
    (((s.PageTable pno).status = NOT_USED ∨ (s.PageTable pno).status = ON_DISK) →
      ff (s.calls ++ [Call.countPageFault]) = NONE →
      ∀ e sv, findVictim ((s.call .countPageFault).call .findFreeFrame) t = .fail e sv →
      (requestPage ff s pno mode t).state.calls =
        s.calls ++ [Call.countPageFault, Call.findFreeFrame]) ∧
    ((s.PageTable pno).status = IN_MEMORY →
      (requestPage ff s pno mode t).state.calls = s.calls ++ [Call.countPageHit] ∨
      ((requestPage ff s pno mode t).isOk = false ∧
        (requestPage ff s pno mode t).state.calls = s.calls)) := by
  have hn : ¬ (pno < 0 ∨ pno ≥ s.nPages) := by
    have := hin.1
    have := hin.2
    omega
  have hne1 : ¬ (IN_MEMORY = NOT_USED ∨ IN_MEMORY = ON_DISK) := by decide
  refine ⟨fun hst hff => ?_, fun hst hff sv v hv => ?_, fun hst hff e sv hv => ?_,
    fun hst => ?_⟩
  · unfold requestPage
    simp only [hn, if_false, hst, if_true, finish_eq, call_calls, hff]
    cases hl : requestPage_load ((s.call .countPageFault).call .findFreeFrame) pno
        (ff (s.calls ++ [Call.countPageFault])) t with
    | ok s2 u =>
      simp only [Outcome.state, modify_calls, (load_inv hl).1, call_calls,
        List.append_assoc, List.cons_append, List.nil_append]
    | fail e2 s2 =>
      simp only [Outcome.state, load_fail_calls hl, call_calls,
        List.append_assoc, List.cons_append, List.nil_append]
  · obtain ⟨h1, -, h3, -, -⟩ := findVictim_inv hv
    obtain ⟨v1, v2, -, -, -, v6, -, -⟩ := findVictim_effect hv
    simp only [call_calls, call_nPages, dat_call, call_replace_head] at h1 v1 v2 v6
    have hvin : sv.inTable v := by
      rw [State.inTable, v2]
      rcases h3 with h3 | ⟨-, h3⟩
      · rw [h3]
        exact h1
      · rw [h3]
        have := hin.1
        have := hin.2
        omega
    have hfv : (sv.PageTable v).frame = (s.PageTable v).frame := by
      have q := congrArg PTE.frame (congrFun v6 v)
      exact q
    have hmv : (sv.PageTable v).modified = (s.PageTable v).modified := by
      have q := congrArg PTE.modified (congrFun v6 v)
      exact q
    obtain ⟨s1, hs1⟩ := evict_ok hv hvin
    obtain ⟨sv', v', e0, -, -, e4, -⟩ := evict_inv hs1
    rw [hv] at e0
    simp only [Outcome.ok.injEq] at e0
    obtain ⟨rfl, rfl⟩ := e0
    rw [v1, hmv, hfv] at e4
    rw [hfv] at hs1
    unfold requestPage
    simp only [hn, if_false, hst, if_true, finish_eq, call_calls, hff, hs1]
    cases hl : requestPage_load s1 pno (s.PageTable v).frame t with
    | ok s2 u =>
      simp only [Outcome.state, modify_calls, (load_inv hl).1, e4,
        List.append_assoc, List.cons_append, List.nil_append]
    | fail e2 s2 =>
      simp only [Outcome.state, load_fail_calls hl, e4,
        List.append_assoc, List.cons_append, List.nil_append]
  · have hev : requestPage_evict ((s.call .countPageFault).call .findFreeFrame) t =
        .fail e sv := by
      unfold requestPage_evict
      simp only [hv]
    have hc := findVictim_fail_calls hv
    simp only [call_calls] at hc
    unfold requestPage
    simp only [hn, if_false, hst, if_true, finish_eq, call_calls, hff, hev, Outcome.state, hc,
      List.append_assoc, List.cons_append, List.nil_append]
  · unfold requestPage
    simp only [hn, if_false, hne1, hst, if_true, finish_eq]
    cases hh : requestPage_hit s pno with
    | ok s2 u =>
      left
      simp only [Outcome.state, modify_calls, (hit_inv hh).1]
    | fail e2 s2 =>
      right
      simp only [Outcome.state, Outcome.isOk, hit_fail_calls hh, and_self]

/-! ### The links of the resident pages stay in the table -/

/-- A step that writes only `-1` or indices of the table into the links of the entries that
are `IN_MEMORY` after it, and makes the tail cursor an index of the table, keeps
`LinksInTable`. -/
theorem linksInTable_step {s s' : State} (h : LinksInTable s) (hn : s'.nPages = s.nPages)
    (htl : s.inTable s'.replace_tail)
    (hp : ∀ p, s.inTable p → (s'.dat p).status = IN_MEMORY →
      ((s'.prv p = -1 ∨ s.inTable (s'.prv p)) ∨
        ((s.dat p).status = IN_MEMORY ∧ s'.prv p = s.prv p)) ∧
      ((s'.nxt p = -1 ∨ s.inTable (s'.nxt p)) ∨
        ((s.dat p).status = IN_MEMORY ∧ s'.nxt p = s.nxt p))) :
    LinksInTable s' := by
  have hT : ∀ x, s'.inTable x ↔ s.inTable x := by
    intro x
    simp only [State.inTable, hn]
  refine ⟨(hT _).2 htl, ?_⟩
  intro p hin hst
  obtain ⟨h1, h2⟩ := hp p ((hT p).1 hin) hst
  constructor
  · rcases h1 with (h1 | h1) | ⟨hs, h1⟩
    · exact Or.inl h1
    · exact Or.inr ((hT _).2 h1)
    · have := (h.2 p ((hT p).1 hin) hs).1
      have e : (s'.PageTable p).prev = (s.PageTable p).prev := h1
      rw [e]
      rcases this with q | q
      · exact Or.inl q
      · exact Or.inr ((hT _).2 q)
  · rcases h2 with (h2 | h2) | ⟨hs, h2⟩
    · exact Or.inl h2
    · exact Or.inr ((hT _).2 h2)
    · have := (h.2 p ((hT p).1 hin) hs).2
      have e : (s'.PageTable p).next = (s.PageTable p).next := h2
      rw [e]
      rcases this with q | q
      · exact Or.inl q
      · exact Or.inr ((hT _).2 q)

theorem linksInTable_init (mem : Int → PTE) (policy : Policy) (np : Int) (h : 0 < np) :
    LinksInTable (initPageTable mem policy np) := by
  refine ⟨?_, ?_⟩
  · show 0 ≤ np - 1 ∧ np - 1 < np
    omega
  · intro p hp hst
    have hp' : 0 ≤ p ∧ p < np := hp
    simp only [initPageTable, hp', and_self, if_true] at hst
    exact absurd hst (by decide)

theorem linksInTable_findVictim {s sv : State} {t v : Int} (h : LinksInTable s)
    (hv : findVictim s t = .ok sv v) : LinksInTable sv := by
  obtain ⟨-, v2, -, -, v5, v6, v7, v8⟩ := findVictim_effect hv
  refine linksInTable_step h v2 (by rw [v5]; exact h.1) ?_
  intro p hp hst
  rw [v6] at hst
  rw [v7, v8]
  beta_reduce
  refine ⟨?_, Or.inr ⟨hst, rfl⟩⟩
  split_ifs
  · exact Or.inl (Or.inl rfl)
  · exact Or.inr ⟨hst, rfl⟩

theorem linksInTable_evict {s s' : State} {t fno : Int} (h : LinksInTable s)
    (he : requestPage_evict s t = .ok s' fno) : LinksInTable s' := by
  obtain ⟨sv, v, hv, -, -, -, e5, -, -, e8, e9, e10, e11⟩ := evict_inv he
  have hsv := linksInTable_findVictim h hv
  refine linksInTable_step hsv e5 (by rw [e8]; exact hsv.1) ?_
  intro p hp hst
  rw [e9] at hst
  rw [e10, e11]
  beta_reduce at hst
  by_cases hpv : p = v
  · rw [if_pos hpv] at hst
    have hne : ¬ (ON_DISK = IN_MEMORY) := by decide
    exact absurd hst hne
  · rw [if_neg hpv] at hst
    exact ⟨Or.inr ⟨hst, rfl⟩, Or.inr ⟨hst, rfl⟩⟩

theorem linksInTable_load {s s' : State} {pno fno t : Int} (h : LinksInTable s)
    (hin : s.inTable pno) (hl : requestPage_load s pno fno t = .ok s' ()) :
    LinksInTable s' := by
  obtain ⟨-, l2, -, -, l5, l6, l7, l8⟩ := load_inv hl
  refine linksInTable_step h l2 (by rw [l5]; exact hin) ?_
  intro p hp hst
  rw [l6] at hst
  rw [l7, l8]
  beta_reduce at hst ⊢
  by_cases hpp : p = pno
  · rw [if_pos hpp, if_pos hpp]
    refine ⟨?_, Or.inl (Or.inl rfl)⟩
    split_ifs
    · exact Or.inl (Or.inl rfl)
    · exact Or.inl (Or.inr h.1)
  · rw [if_neg hpp] at hst
    rw [if_neg hpp, if_neg hpp]
    refine ⟨Or.inr ⟨hst, rfl⟩, ?_⟩
    split_ifs
    · exact Or.inl (Or.inr hin)
    · exact Or.inr ⟨hst, rfl⟩

theorem linksInTable_accessed {s : State} (h : LinksInTable s) (pno : Int) (mode : Char)
    (t : Int) : LinksInTable (s.modify pno (fun e => e.accessed mode t)) := by
  refine linksInTable_step h rfl h.1 ?_
  intro p hp hst
  rw [dat_accessed] at hst
  rw [nxt_accessed, prv_accessed]
  beta_reduce at hst
  have hs : (s.dat p).status = IN_MEMORY := by
    by_cases hpp : p = pno
    · subst hpp
      rw [if_pos rfl] at hst
      exact hst
    · rw [if_neg hpp] at hst
      exact hst
  exact ⟨Or.inr ⟨hs, rfl⟩, Or.inr ⟨hs, rfl⟩⟩

theorem linksInTable_toTail {s s' : State} {pno : Int} (h : LinksInTable s)
    (hin : s.inTable pno) (ht : requestPage_toTail s pno = .ok s' ()) : LinksInTable s' := by
  obtain ⟨-, t2, -, -, t5, t6, t7, t8⟩ := toTail_inv ht
  refine linksInTable_step h t2 (by rw [t5]; exact hin) ?_
  intro p hp hst
  rw [t6] at hst
  rw [t7, t8]
  beta_reduce
  constructor
  · split_ifs
    · exact Or.inl (Or.inr h.1)
    · exact Or.inr ⟨hst, rfl⟩
  · split_ifs
    · exact Or.inl (Or.inl rfl)
    · exact Or.inl (Or.inr hin)
    · exact Or.inr ⟨hst, rfl⟩

/-- With the links in the table, the `IN_MEMORY` case of `requestPage` returns, in each of
its sub-cases, and keeps the links in the table. -/
theorem linksInTable_hit {s : State} (h : LinksInTable s) {pno : Int} (hin : s.inTable pno)
    (hst : (s.PageTable pno).status = IN_MEMORY) :
    ∃ s2, requestPage_hit s pno = .ok s2 () ∧ LinksInTable s2 := by
  obtain ⟨hpv, hnx⟩ := h.2 pno hin hst
  have hpv' : s.prv pno = -1 ∨ s.inTable (s.prv pno) := hpv
  have hnx' : s.nxt pno = -1 ∨ s.inTable (s.nxt pno) := hnx
  by_cases hpol : s.replacePolicy = .REPL_LRU
  · by_cases hp : s.prv pno = -1 <;> by_cases hn : s.nxt pno = -1
    · refine ⟨_, hit_sole hpol hp hn, ?_⟩
      refine linksInTable_step h rfl hin ?_
      intro p _ hs
      exact ⟨Or.inr ⟨hs, rfl⟩, Or.inr ⟨hs, rfl⟩⟩
    · have hnin : s.inTable (s.nxt pno) := hnx'.resolve_left hn
      have e1 : State.prv { s.modify (s.nxt pno) (fun e => { e with prev := -1 }) with
          replace_head := s.nxt pno } = fun j => if j = s.nxt pno then -1 else s.prv j :=
        prv_setPrev s (s.nxt pno) (-1)
      have e2 : State.nxt { s.modify (s.nxt pno) (fun e => { e with prev := -1 }) with
          replace_head := s.nxt pno } = s.nxt :=
        nxt_setPrev s (s.nxt pno) (-1)
      have e3 : State.dat { s.modify (s.nxt pno) (fun e => { e with prev := -1 }) with
          replace_head := s.nxt pno } = s.dat :=
        dat_setPrev s (s.nxt pno) (-1)
      have h1 : LinksInTable
          { s.modify (s.nxt pno) (fun e => { e with prev := -1 }) with
            replace_head := s.nxt pno } := by
        refine linksInTable_step h rfl h.1 ?_
        intro p _ hs
        rw [e3] at hs
        rw [e1, e2]
        beta_reduce
        refine ⟨?_, Or.inr ⟨hs, rfl⟩⟩
        split_ifs
        · exact Or.inl (Or.inl rfl)
        · exact Or.inr ⟨hs, rfl⟩
      obtain ⟨s2, hs2⟩ := toTail_ok
        { s.modify (s.nxt pno) (fun e => { e with prev := -1 }) with
          replace_head := s.nxt pno } pno h.1
      refine ⟨s2, ?_, linksInTable_toTail h1 hin hs2⟩
      rw [hit_head hpol hp hn, if_neg (not_not_intro hnin)]
      exact hs2
    · refine ⟨_, hit_last hpol hp hn, ?_⟩
      refine linksInTable_step h rfl h.1 ?_
      intro p _ hs
      exact ⟨Or.inr ⟨hs, rfl⟩, Or.inr ⟨hs, rfl⟩⟩
    · have hpin : s.inTable (s.prv pno) := hpv'.resolve_left hp
      have hnin : s.inTable (s.nxt pno) := hnx'.resolve_left hn
      have h1 : LinksInTable
          ((s.modify (s.prv pno) (fun e => { e with next := s.nxt pno })).modify (s.nxt pno)
            (fun e => { e with prev := s.prv pno })) := by
        refine linksInTable_step h rfl h.1 ?_
        intro p _ hs
        rw [dat_setPrev (s.modify (s.prv pno) (fun e => { e with next := s.nxt pno })),
          dat_setNext s] at hs
        rw [prv_setPrev (s.modify (s.prv pno) (fun e => { e with next := s.nxt pno })),
          prv_setNext s,
          nxt_setPrev (s.modify (s.prv pno) (fun e => { e with next := s.nxt pno })),
          nxt_setNext s]
        beta_reduce
        constructor
        · split_ifs
          · exact Or.inl (Or.inr hpin)
          · exact Or.inr ⟨hs, rfl⟩
        · split_ifs
          · exact Or.inl (Or.inr hnin)
          · exact Or.inr ⟨hs, rfl⟩
      obtain ⟨s2, hs2⟩ := toTail_ok
        ((s.modify (s.prv pno) (fun e => { e with next := s.nxt pno })).modify (s.nxt pno)
          (fun e => { e with prev := s.prv pno })) pno h.1
      refine ⟨s2, ?_, linksInTable_toTail h1 hin hs2⟩
      rw [hit_mid hpol hp hn, if_neg (not_not_intro hpin), if_neg (not_not_intro hnin)]
      exact hs2
  · refine ⟨_, hit_other pno hpol, ?_⟩
    refine linksInTable_step h rfl h.1 ?_
    intro p _ hs
    exact ⟨Or.inr ⟨hs, rfl⟩, Or.inr ⟨hs, rfl⟩⟩

theorem linksInTable_request {ff : List Call → Int} {s s' : State} {pno t fr : Int}
    {mode : Char} (h : LinksInTable s) (hr : requestPage ff s pno mode t = .ok s' fr) :
    LinksInTable s' := by
  obtain ⟨hin, hcase⟩ := requestPage_inv hr
  rcases hcase with ⟨hst, s1, fno, s2, h1, h2, rfl, rfl⟩ | ⟨hst, s2, h2, rfl, rfl⟩
  · have h0 : LinksInTable ((s.call .countPageFault).call .findFreeFrame) :=
      linksInTable_step h rfl h.1 (fun p _ hs => ⟨Or.inr ⟨hs, rfl⟩, Or.inr ⟨hs, rfl⟩⟩)
    have hs1 : LinksInTable s1 ∧ s1.nPages = s.nPages := by
      split at h1
      · obtain ⟨sv, v, hv, -, -, -, e5, -⟩ := evict_inv h1
        have := (findVictim_effect hv).2.1
        exact ⟨linksInTable_evict h0 h1, by rw [e5, this]; rfl⟩
      · simp only [Outcome.ok.injEq] at h1
        rw [← h1.1]
        exact ⟨h0, rfl⟩
    have hin1 : s1.inTable pno := by
      rw [State.inTable, hs1.2]
      exact hin
    exact linksInTable_accessed (linksInTable_load hs1.1 hin1 h2) pno mode t
  · obtain ⟨s2', hs2', hl⟩ := linksInTable_hit h hin hst
    rw [h2] at hs2'
    simp only [Outcome.ok.injEq, and_true] at hs2'
    subst hs2'
    exact linksInTable_accessed hl pno mode t

theorem linksInTable_run {ff : List Call → Int} :
    ∀ (trace : List (Int × Char × Int)) (s s' : State), LinksInTable s →
      runTrace ff s trace = .ok s' () → LinksInTable s' := by
  intro trace
  induction trace with
  | nil =>
    intro s s' h hr
    simp only [runTrace, Outcome.ok.injEq, and_true] at hr
    rw [← hr]
    exact h
  | cons r rest ih =>
    intro s s' h hr
    obtain ⟨pno, mode, t⟩ := r
    obtain ⟨s1, fr, h1, h2⟩ := runTrace_cons_ok hr
    exact ih s1 s' (linksInTable_request h h1) h2

theorem runTrace_nPages {ff : List Call → Int} :
    ∀ (trace : List (Int × Char × Int)) (s s' : State),
      runTrace ff s trace = .ok s' () → s'.nPages = s.nPages := by
  intro trace
  induction trace with
  | nil =>
    intro s s' hr
    simp only [runTrace, Outcome.ok.injEq, and_true] at hr
    rw [← hr]
  | cons r rest ih =>
    intro s s' hr
    obtain ⟨pno, mode, t⟩ := r
    obtain ⟨s1, fr, h1, h2⟩ := runTrace_cons_ok hr
    rw [ih s1 s' h2, (request_data h1).1]

/-- In every state reached from `initPageTable` by requests that return, a request that
finds the entry `IN_MEMORY` returns, having called `countPageHit` once and `countPageFault`
never. -/
theorem hit_counted (ff : List Call → Int) (mem : Int → PTE) (policy : Policy) (np : Int)
    (trace : List (Int × Char × Int)) (s : State)
    (hrun : runTrace ff (initPageTable mem policy np) trace = .ok s ())
    (pno : Int) (mode : Char) (t : Int) (hin : s.inTable pno)
    (hst : (s.PageTable pno).status = IN_MEMORY) :
    ∃ s' fr, requestPage ff s pno mode t = .ok s' fr ∧
      nHits s' = nHits s + 1 ∧ nFaults s' = nFaults s := by
  have hnp : s.nPages = np := runTrace_nPages trace _ s hrun
  have hpos : 0 < np := by
    have := hin.1
    have := hin.2
    omega
  have hl := linksInTable_run trace _ s (linksInTable_init mem policy np hpos) hrun
  obtain ⟨s2, hs2, -⟩ := linksInTable_hit hl hin hst
  have hreq := requestPage_of_hit ff mode t hin hst hs2
  exact ⟨_, _, hreq, (request_counts hreq).2 hst⟩

/-! ### Hit and fault accounting -/

theorem runTrace_raw_of_ok {ff : List Call → Int} :
    ∀ (trace : List (Int × Char × Int)) (s s' : State), runTrace ff s trace = .ok s' () →
      runTrace_raw ff s trace = .ok s' () := by
  intro trace
  induction trace with
  | nil => exact fun s s' h => h
  | cons r rest ih =>
    intro s s' h
    obtain ⟨pno, mode, t⟩ := r
    obtain ⟨s1, fr, h1, h2⟩ := runTrace_cons_ok h
    simp only [runTrace_raw, requestPage_raw_of_ok h1]
    exact ih s1 s' h2

/-- A request without the bounds guard, to a page of the table whose status is defined:
it returns, having called exactly one of `countPageFault` and `countPageHit`, once. -/
theorem raw_counts (ff : List Call → Int) (s : State) (pno : Int) (mode : Char) (t : Int)
    (hin : s.inTable pno) :
    (((s.PageTable pno).status = NOT_USED ∨ (s.PageTable pno).status = ON_DISK) →
      ∃ s' fr, requestPage_raw ff s pno mode t = .ok s' fr ∧
        nFaults s' = nFaults s + 1 ∧ nHits s' = nHits s ∧ s'.nPages = s.nPages ∧
        (DefinedStatus s → DefinedStatus s')) ∧
    ((s.PageTable pno).status = IN_MEMORY →
      ∃ s' fr, requestPage_raw ff s pno mode t = .ok s' fr ∧
        nHits s' = nHits s + 1 ∧ nFaults s' = nFaults s ∧ s'.nPages = s.nPages ∧
        (DefinedStatus s → DefinedStatus s')) := by
  obtain ⟨r1, r2, r3⟩ := raw_request ff s pno mode t hin
  have e2 : ∀ (u : State) (p : Int), (u.PageTable p).status = (u.dat p).status :=
    fun _ _ => rfl
  refine ⟨fun hst => ?_, fun hst => ?_⟩
  · by_cases hff : ff (s.calls ++ [Call.countPageFault]) = NONE
    · obtain ⟨s', fr, h, hn, -, hcalls, hd⟩ := r2 hst hff _ rfl
      refine ⟨s', fr, h, ?_, ?_, hn, ?_⟩
      · simp only [nFaults, hcalls]
        split_ifs <;> simp [List.count_append, List.count_cons]
      · simp only [nHits, hcalls]
        split_ifs <;> simp [List.count_append, List.count_cons]
      · intro hdef p hp
        rw [State.inTable, hn] at hp
        rw [e2 s', hd]
        by_cases hpp : p = pno
        · simp only [hpp, if_true]
          exact Or.inr (Or.inr rfl)
        · simp only [hpp, if_false]
          split_ifs
          · exact Or.inr (Or.inl rfl)
          · exact hdef p hp
    · obtain ⟨s', fr, h, hn, -, hcalls, hd⟩ := r1 hst hff
      refine ⟨s', fr, h, ?_, ?_, hn, ?_⟩
      · simp [nFaults, hcalls, List.count_append, List.count_cons]
      · simp [nHits, hcalls, List.count_append, List.count_cons]
      · intro hdef p hp
        rw [State.inTable, hn] at hp
        rw [e2 s', hd]
        by_cases hpp : p = pno
        · simp only [hpp, if_true]
          exact Or.inr (Or.inr rfl)
        · simp only [hpp, if_false]
          exact hdef p hp
  · obtain ⟨s', fr, h, hn, -, hcalls, hd⟩ := r3 hst
    refine ⟨s', fr, h, ?_, ?_, hn, ?_⟩
    · simp [nHits, hcalls, List.count_append, List.count_cons]
    · simp [nFaults, hcalls, List.count_append, List.count_cons]
    · intro hdef p hp
      rw [State.inTable, hn] at hp
      rw [e2 s', hd]
      by_cases hpp : p = pno
      · simp only [hpp, if_true, PTE.accessed]
        exact Or.inr (Or.inr hst)
      · simp only [hpp, if_false]
        exact hdef p hp

theorem definedStatus_init (mem : Int → PTE) (policy : Policy) (np : Int) :
    DefinedStatus (initPageTable mem policy np) := by
  intro p hp
  have hp' : 0 ≤ p ∧ p < np := hp
  left
  simp only [initPageTable, hp', and_self, if_true]

/-- Over a trace of requests that all return, faults + hits grows by its length. -/
theorem trace_counts (ff : List Call → Int) :
    ∀ (trace : List (Int × Char × Int)) (s s' : State), runTrace ff s trace = .ok s' () →
      nFaults s' + nHits s' = nFaults s + nHits s + trace.length := by
  intro trace
  induction trace with
  | nil =>
    intro s s' h
    simp only [runTrace, Outcome.ok.injEq, and_true] at h
    subst h
    simp
  | cons r rest ih =>
    intro s s' h
    obtain ⟨pno, mode, t⟩ := r
    obtain ⟨s1, fr, h1, h2⟩ := runTrace_cons_ok h
    have ih' := ih s1 s' h2
    have hc := request_counts h1
    obtain ⟨-, hcase⟩ := requestPage_inv h1
    rcases hcase with ⟨hst, -⟩ | ⟨hst, -⟩
    · have := hc.1 hst
      simp only [List.length_cons]
      omega
    · have := hc.2 hst
      simp only [List.length_cons]
      omega

/-- C7 (hit/fault accounting): every request to a page of the table whose entry has a
defined status calls exactly one of `countPageFault` and `countPageHit`, once:
`countPageFault` when the entry was `NOT_USED` or `ON_DISK`, `countPageHit` when it was
`IN_MEMORY`, under every policy.

With all table accesses carried out (`requestPage_raw`) this holds in every state: the
request returns with that one call made, and every trace of `n` requests to pages of a
table whose entries have defined statuses returns with faults + hits grown by `n`.

With the bounds guard (`requestPage`): a request that finds the entry `NOT_USED` or
`ON_DISK` has made the one call in the state it ends in, whether it returns or stops; in
every state reached from `initPageTable` by requests that return, a request that finds the
entry `IN_MEMORY` returns with the one call made; over a trace of `n` requests that return,
faults + hits grows by `n`; and a request or trace that returns ends in the state the
unguarded one returns. -/
theorem hit_fault_accounting (ff : List Call → Int) :
    (∀ s pno mode time, s.inTable pno →
      ((s.PageTable pno).status = NOT_USED ∨ (s.PageTable pno).status = ON_DISK) →
      ∃ s' fr, requestPage_raw ff s pno mode time = .ok s' fr ∧
        nFaults s' = nFaults s + 1 ∧ nHits s' = nHits s) ∧
    (∀ s pno mode time, s.inTable pno → (s.PageTable pno).status = IN_MEMORY →
      ∃ s' fr, requestPage_raw ff s pno mode time = .ok s' fr ∧
        nHits s' = nHits s + 1 ∧ nFaults s' = nFaults s) ∧
    (∀ trace s, DefinedStatus s → (∀ r ∈ trace, s.inTable r.1) →
      ∃ s', runTrace_raw ff s trace = .ok s' () ∧
        nFaults s' + nHits s' = nFaults s + nHits s + trace.length) ∧
    (∀ s pno mode time, s.inTable pno →
      ((s.PageTable pno).status = NOT_USED ∨ (s.PageTable pno).status = ON_DISK) →
      nFaults (requestPage ff s pno mode time).state = nFaults s + 1 ∧
      nHits (requestPage ff s pno mode time).state = nHits s) ∧
    (∀ mem policy np trace s, runTrace ff (initPageTable mem policy np) trace = .ok s () →
      ∀ pno mode time, s.inTable pno → (s.PageTable pno).status = IN_MEMORY →
      ∃ s' fr, requestPage ff s pno mode time = .ok s' fr ∧
        nHits s' = nHits s + 1 ∧ nFaults s' = nFaults s) ∧
    (∀ trace s s', runTrace ff s trace = .ok s' () →
      nFaults s' + nHits s' = nFaults s + nHits s + trace.length) ∧
    (∀ s pno mode time s' fr, requestPage ff s pno mode time = .ok s' fr →
      requestPage_raw ff s pno mode time = .ok s' fr) ∧
    (∀ trace s s', runTrace ff s trace = .ok s' () → runTrace_raw ff s trace = .ok s' ()) := by
  refine ⟨?_, ?_, ?_, fun s pno mode time hin hst => fault_counted ff s pno mode time hin hst,
    fun mem policy np trace s hrun pno mode time hin hst =>
      hit_counted ff mem policy np trace s hrun pno mode time hin hst,
    trace_counts ff,
    fun s pno mode time s' fr h => requestPage_raw_of_ok h,
    fun trace s s' h => runTrace_raw_of_ok trace s s' h⟩
  · intro s pno mode time hin hst
    obtain ⟨s', fr, h, h1, h2, -⟩ := (raw_counts ff s pno mode time hin).1 hst
    exact ⟨s', fr, h, h1, h2⟩
  · intro s pno mode time hin hst
    obtain ⟨s', fr, h, h1, h2, -⟩ := (raw_counts ff s pno mode time hin).2 hst
    exact ⟨s', fr, h, h1, h2⟩
  · intro trace
    induction trace with
    | nil =>
      intro s _ _
      exact ⟨s, rfl, by simp⟩
    | cons r rest ih =>
      intro s hdef hall
      obtain ⟨pno, mode, t⟩ := r
      have hin : s.inTable pno := hall (pno, mode, t) (List.mem_cons_self _ _)
      have hrest : ∀ (s1 : State), s1.nPages = s.nPages → ∀ r ∈ rest, s1.inTable r.1 := by
        intro s1 hn r hr
        have := hall r (List.mem_cons_of_mem _ hr)
        rw [State.inTable, hn]
        exact this
      rcases hdef pno hin with hst | hst | hst
      · obtain ⟨s1, fr, h, h1, h2, hn, hd⟩ := (raw_counts ff s pno mode t hin).1 (Or.inl hst)
        obtain ⟨s', hs', hcount⟩ := ih s1 (hd hdef) (hrest s1 hn)
        refine ⟨s', ?_, ?_⟩
        · simp only [runTrace_raw, h]
          exact hs'
        · simp only [List.length_cons]
          omega
      · obtain ⟨s1, fr, h, h1, h2, hn, hd⟩ := (raw_counts ff s pno mode t hin).1 (Or.inr hst)
        obtain ⟨s', hs', hcount⟩ := ih s1 (hd hdef) (hrest s1 hn)
        refine ⟨s', ?_, ?_⟩
        · simp only [runTrace_raw, h]
          exact hs'
        · simp only [List.length_cons]
          omega
      · obtain ⟨s1, fr, h, h1, h2, hn, hd⟩ := (raw_counts ff s pno mode t hin).2 hst
        obtain ⟨s', hs', hcount⟩ := ih s1 (hd hdef) (hrest s1 hn)
        refine ⟨s', ?_, ?_⟩
        · simp only [runTrace_raw, h]
          exact hs'
        · simp only [List.length_cons]
          omega

/-! ### The usage counters -/

theorem wrapInt_wrapInt_add (a b : Int) : wrapInt (wrapInt a + b) = wrapInt (a + b) := by
  unfold wrapInt
  omega

theorem wrapInt_of_range {x : Int} (h0 : -2147483648 ≤ x) (h1 : x ≤ 2147483647) :
    wrapInt x = x := by
  unfold wrapInt
  omega

theorem wrapInt_range (x : Int) : -2147483648 ≤ wrapInt x ∧ wrapInt x ≤ 2147483647 := by
  unfold wrapInt
  omega

theorem request_modified {ff : List Call → Int} {s s' : State} {pno t fr : Int} {mode : Char}
    (h : requestPage ff s pno mode t = .ok s' fr) :
    (s'.PageTable pno).status = IN_MEMORY ∧
    (s'.PageTable pno).modified =
      (if mode = 'w' then 1
       else if (s.PageTable pno).status = IN_MEMORY then (s.PageTable pno).modified else 0) ∧
    (∀ p, p ≠ pno → (s'.PageTable p).modified ≠ 0 →
      (s'.PageTable p).modified = (s.PageTable p).modified ∧
      (s'.PageTable p).status = (s.PageTable p).status) := by
  have hne1 : ¬ (IN_MEMORY = NOT_USED ∨ IN_MEMORY = ON_DISK) := by decide
  obtain ⟨-, -, -, -, hc⟩ := request_data h
  have e1 : ∀ (u : State) (p : Int), (u.PageTable p).modified = (u.dat p).modified :=
    fun _ _ => rfl
  have e2 : ∀ (u : State) (p : Int), (u.PageTable p).status = (u.dat p).status :=
    fun _ _ => rfl
  simp only [e1 s', e2 s']
  rcases hc with ⟨hst, -, -, hd⟩ | ⟨hst, -, sv, v, -, -, -, hd⟩ | ⟨hst, -, hd⟩
  · have hst' : (s.PageTable pno).status ≠ IN_MEMORY := by
      intro h'
      rw [h'] at hst
      exact hne1 hst
    rw [hd]
    refine ⟨by simp [PTE.accessed, PTE.loaded], by simp [PTE.accessed, PTE.loaded, hst'], ?_⟩
    intro p hp _
    simp only [hp, if_false]
    exact ⟨rfl, rfl⟩
  · have hst' : (s.PageTable pno).status ≠ IN_MEMORY := by
      intro h'
      rw [h'] at hst
      exact hne1 hst
    rw [hd]
    refine ⟨by simp [PTE.accessed, PTE.loaded], by simp [PTE.accessed, PTE.loaded, hst'], ?_⟩
    intro p hp hm
    simp only [hp, if_false] at hm ⊢
    by_cases hpv : p = v
    · simp only [hpv, if_true, PTE.evicted] at hm
      exact absurd rfl hm
    · simp only [hpv, if_false]
      exact ⟨rfl, rfl⟩
  · rw [hd]
    refine ⟨by simp only [if_true, PTE.accessed]; exact hst,
      by simp only [if_true, PTE.accessed, hst]; rfl, ?_⟩
    intro p hp _
    simp only [hp, if_false]
    exact ⟨rfl, rfl⟩

theorem request_usage {ff : List Call → Int} {s s' : State} {pno t fr : Int} {mode : Char}
    (h : requestPage ff s pno mode t = .ok s' fr) (p : Int) :
    (s'.PageTable p).nPeeks =
        (if pno = p ∧ mode = 'r' then wrapInt ((s.PageTable p).nPeeks + 1)
         else (s.PageTable p).nPeeks) ∧
    (s'.PageTable p).nPokes =
        (if pno = p ∧ mode = 'w' then wrapInt ((s.PageTable p).nPokes + 1)
         else (s.PageTable p).nPokes) := by
  obtain ⟨-, -, -, -, hc⟩ := request_data h
  have e1 : ∀ (u : State), (u.PageTable p).nPeeks = (u.dat p).nPeeks := fun _ => rfl
  have e2 : ∀ (u : State), (u.PageTable p).nPokes = (u.dat p).nPokes := fun _ => rfl
  rw [e1 s', e2 s', e1 s, e2 s]
  rcases hc with ⟨-, -, -, hd⟩ | ⟨-, -, sv, v, -, -, -, hd⟩ | ⟨-, -, hd⟩
  · rw [hd]
    by_cases hp : p = pno
    · subst hp
      simp only [if_true, true_and, PTE.accessed, PTE.loaded]
    · have hp' : ¬ pno = p := fun h => hp h.symm
      simp only [hp, hp', if_false, false_and, and_self]
  · rw [hd]
    by_cases hp : p = pno
    · subst hp
      simp only [if_true, true_and, PTE.accessed, PTE.loaded, PTE.evicted]
      split_ifs <;> simp_all
    · have hp' : ¬ pno = p := fun h => hp h.symm
      simp only [hp, hp', if_false, false_and]
      split_ifs
      · subst_vars
        simp only [PTE.evicted, and_self]
      · simp only [and_self]
  · rw [hd]
    by_cases hp : p = pno
    · subst hp
      simp only [if_true, true_and, PTE.accessed]
    · have hp' : ¬ pno = p := fun h => hp h.symm
      simp only [hp, hp', if_false, false_and, and_self]

theorem countRefs_cons (p : Int) (m : Char) (pno t : Int) (mode : Char)
    (rest : List (Int × Char × Int)) :
    countRefs p m ((pno, mode, t) :: rest) =
      (if pno = p ∧ mode = m then 1 else 0) + countRefs p m rest := by
  simp only [countRefs, List.filter_cons]
  by_cases hc : pno = p ∧ mode = m
  · simp only [hc, and_self, decide_True, if_true, List.length_cons]
    omega
  · simp only [hc, decide_False, if_false, zero_add]
    rfl

theorem countRefs_replicate (p : Int) (m : Char) (t : Int) (n : Nat) :
    countRefs p m (List.replicate n (p, m, t)) = n := by
  induction n with
  | zero => rfl
  | succ n ih =>
    rw [List.replicate_succ, countRefs_cons, ih, if_pos ⟨rfl, rfl⟩]
    omega

/-- Over a trace of requests that all return, a counter that starts within the range of an
`int` ends at the wrapped sum of its start and the number of matching requests. -/
theorem usage_trace (ff : List Call → Int) (p : Int) :
    ∀ (trace : List (Int × Char × Int)) (s s' : State), runTrace ff s trace = .ok s' () →
      (wrapInt (s.PageTable p).nPeeks = (s.PageTable p).nPeeks →
        (s'.PageTable p).nPeeks = wrapInt ((s.PageTable p).nPeeks + countRefs p 'r' trace)) ∧
      (wrapInt (s.PageTable p).nPokes = (s.PageTable p).nPokes →
        (s'.PageTable p).nPokes = wrapInt ((s.PageTable p).nPokes + countRefs p 'w' trace)) := by
  intro trace
  induction trace with
  | nil =>
    intro s s' h
    simp only [runTrace, Outcome.ok.injEq, and_true] at h
    subst h
    have e : ∀ m, ((countRefs p m ([] : List (Int × Char × Int)) : Nat) : Int) = 0 :=
      fun _ => rfl
    rw [e, e, add_zero, add_zero]
    exact ⟨fun h => h.symm, fun h => h.symm⟩
  | cons r rest ih =>
    intro s s' h
    obtain ⟨pno, mode, t⟩ := r
    obtain ⟨s1, fr, h1, h2⟩ := runTrace_cons_ok h
    obtain ⟨i1, i2⟩ := ih s1 s' h2
    obtain ⟨u1, u2⟩ := request_usage h1 p
    rw [countRefs_cons, countRefs_cons]
    constructor
    · intro hr
      have hr1 : wrapInt (s1.PageTable p).nPeeks = (s1.PageTable p).nPeeks := by
        rw [u1]
        split_ifs
        · have := wrapInt_range ((s.PageTable p).nPeeks + 1)
          exact wrapInt_of_range this.1 this.2
        · exact hr
      rw [i1 hr1, u1]
      split_ifs
      · rw [wrapInt_wrapInt_add]
        push_cast
        congr 1
        ring
      · push_cast
        congr 1
        ring
    · intro hr
      have hr1 : wrapInt (s1.PageTable p).nPokes = (s1.PageTable p).nPokes := by
        rw [u2]
        split_ifs
        · have := wrapInt_range ((s.PageTable p).nPokes + 1)
          exact wrapInt_of_range this.1 this.2
        · exact hr
      rw [i2 hr1, u2]
      split_ifs
      · rw [wrapInt_wrapInt_add]
        push_cast
        congr 1
        ring
      · push_cast
        congr 1
        ring

/-- Under FIFO and CLOCK, requests to a resident page all return. -/
theorem run_hits (ff : List Call → Int) (p : Int) (m : Char) (t : Int) :
    ∀ (n : Nat) (s : State), s.replacePolicy ≠ .REPL_LRU → s.inTable p →
      (s.PageTable p).status = IN_MEMORY →
      ∃ s', runTrace ff s (List.replicate n (p, m, t)) = .ok s' () := by
  intro n
  induction n with
  | zero => exact fun s _ _ _ => ⟨s, rfl⟩
  | succ n ih =>
    intro s hpol hin hst
    have h1 := requestPage_of_hit ff m t hin hst (hit_other p hpol)
    obtain ⟨-, hpol', -, -, -⟩ := request_data h1
    have hst1 := (request_modified h1).1
    have hin1 : State.inTable ((s.call .countPageHit).modify p (fun e => e.accessed m t)) p :=
      hin
    obtain ⟨s', hs'⟩ := ih _ (by rw [hpol']; exact hpol) hin1 hst1
    refine ⟨s', ?_⟩
    rw [List.replicate_succ]
    simp only [runTrace, h1]
    exact hs'

/-- C8, amended (usage counters): over a trace of requests that all return, under any
policy, a counter `nPeeks` that starts within the range of an `int` and is not taken past
`2147483647` grows by the number of requests made to the page with mode `'r'`, and `nPokes`
likewise with mode `'w'` (so neither decreases, and neither is reset by an eviction or a
reload); after `initPageTable` they equal these numbers wrapped to 32 bits, hence these
numbers themselves as long as they are below `2147483648`. -/
theorem usage_counters (ff : List Call → Int) (s : State) (trace : List (Int × Char × Int))
    (s' : State) (h : runTrace ff s trace = .ok s' ()) (p : Int) :
    (-2147483648 ≤ (s.PageTable p).nPeeks →
      (s.PageTable p).nPeeks + countRefs p 'r' trace ≤ 2147483647 →
      (s'.PageTable p).nPeeks = (s.PageTable p).nPeeks + countRefs p 'r' trace) ∧
    (-2147483648 ≤ (s.PageTable p).nPokes →
      (s.PageTable p).nPokes + countRefs p 'w' trace ≤ 2147483647 →
      (s'.PageTable p).nPokes = (s.PageTable p).nPokes + countRefs p 'w' trace) ∧
    (∀ mem policy np, s = initPageTable mem policy np → 0 ≤ p → p < np →
      (s'.PageTable p).nPeeks = wrapInt (countRefs p 'r' trace) ∧
      (s'.PageTable p).nPokes = wrapInt (countRefs p 'w' trace) ∧
      (countRefs p 'r' trace < 2147483648 →
        (s'.PageTable p).nPeeks = countRefs p 'r' trace) ∧
      (countRefs p 'w' trace < 2147483648 →
        (s'.PageTable p).nPokes = countRefs p 'w' trace)) := by
  obtain ⟨m1, m2⟩ := usage_trace ff p trace s s' h
  refine ⟨fun h0 h1 => ?_, fun h0 h1 => ?_, ?_⟩
  · have hc : (0 : Int) ≤ countRefs p 'r' trace := Int.ofNat_nonneg _
    rw [m1 (wrapInt_of_range h0 (by omega))]
    exact wrapInt_of_range (by omega) h1
  · have hc : (0 : Int) ≤ countRefs p 'w' trace := Int.ofNat_nonneg _
    rw [m2 (wrapInt_of_range h0 (by omega))]
    exact wrapInt_of_range (by omega) h1
  · intro mem policy np hs h0 h1
    subst hs
    have z1 : ((initPageTable mem policy np).PageTable p).nPeeks = 0 := by
      simp [initPageTable, h0, h1]
    have z2 : ((initPageTable mem policy np).PageTable p).nPokes = 0 := by
      simp [initPageTable, h0, h1]
    rw [z1] at m1
    rw [z2] at m2
    have w0 : wrapInt 0 = 0 := by decide
    have n1 := m1 w0
    have n2 := m2 w0
    rw [zero_add] at n1 n2
    refine ⟨n1, n2, fun hlt => ?_, fun hlt => ?_⟩
    · rw [n1]
      exact wrapInt_of_range (by omega) (by omega)
    · rw [n2]
      exact wrapInt_of_range (by omega) (by omega)

/-- C8 as stated fails: after `initPageTable(REPL_FIFO, 4)` and 2147483648 successful
requests to page 0 with mode `'r'`, its `nPeeks` is `-2147483648`. -/
theorem usage_counter_wraps :
    ∃ s', runTrace (firstFree 2) (initPageTable junk .REPL_FIFO 4)
        ((0, 'r', 0) :: List.replicate 2147483647 (0, 'r', 1)) = .ok s' () ∧
      countRefs 0 'r' ((0, 'r', 0) :: List.replicate 2147483647 (0, 'r', 1)) = 2147483648 ∧
      (s'.PageTable 0).nPeeks = -2147483648 ∧
      (s'.PageTable 0).nPeeks ≠
        countRefs 0 'r' ((0, 'r', 0) :: List.replicate 2147483647 (0, 'r', 1)) := by
  have h1 : requestPage (firstFree 2) (initPageTable junk .REPL_FIFO 4) 0 'r' 0 =
      .ok (requestPage (firstFree 2) (initPageTable junk .REPL_FIFO 4) 0 'r' 0).state
        (requestPage (firstFree 2) (initPageTable junk .REPL_FIFO 4) 0 'r' 0).result :=
    ok_of_isOk_result (by decide)
  obtain ⟨hnp, hpol, -, -, -⟩ := request_data h1
  have hst := (request_modified h1).1
  obtain ⟨s', hs'⟩ := run_hits (firstFree 2) 0 'r' 1 2147483647 _
    (by rw [hpol]; decide) (by rw [State.inTable, hnp]; decide) hst
  have hrun : runTrace (firstFree 2) (initPageTable junk .REPL_FIFO 4)
      ((0, 'r', 0) :: List.replicate 2147483647 (0, 'r', 1)) = .ok s' () := by
    rw [runTrace, h1]
    exact hs'
  have hcount : countRefs 0 'r' ((0, 'r', 0) :: List.replicate 2147483647 (0, 'r', 1)) =
      2147483648 := by
    rw [countRefs_cons, countRefs_replicate, if_pos ⟨rfl, rfl⟩]
  have hval := (usage_trace (firstFree 2) 0 _ _ _ hrun).1 (by decide)
  rw [hcount] at hval
  have hv : (s'.PageTable 0).nPeeks = -2147483648 := by
    rw [hval]
    decide
  refine ⟨s', hrun, hcount, hv, ?_⟩
  rw [hv, hcount]
  decide

/-- C9 (persist on eviction): the calls of a request to a page of the table, in every state.
On a fault with no free frame, with `v` the victim `findVictim` returns and `f` the frame
`v` holds, they are `countPageFault`, `findFreeFrame`, then `saveFrame(f)` once if
`v.modified` was set before the call and no `saveFrame` if it was not, then
`loadFrame(f, pno, time)`. On a fault with a free frame, and on a hit, there is no
`saveFrame` among them.

With all table accesses carried out (`requestPage_raw`) the request returns, with these
calls made. With the bounds guard (`requestPage`) these are the calls made in the state the
request ends in, whether it returns or stops, whenever `findVictim` returns a victim; when
`findVictim` stops, no `saveFrame` and no `loadFrame` is made; and a request that returns
ends in the state the unguarded one returns. -/
theorem persist_on_eviction (ff : List Call → Int) (s : State) (pno : Int) (mode : Char)
    (time : Int) (hin : s.inTable pno) :
    (((s.PageTable pno).status = NOT_USED ∨ (s.PageTable pno).status = ON_DISK) →
      ff (s.calls ++ [Call.countPageFault]) = NONE →
      ∀ v f, v = (findVictim_raw ((s.call .countPageFault).call .findFreeFrame) time).2 →
        f = (s.PageTable v).frame →
        ∃ s' fr, requestPage_raw ff s pno mode time = .ok s' fr ∧
          ((s.PageTable v).modified ≠ 0 →
            s'.calls = s.calls ++ [Call.countPageFault, Call.findFreeFrame,
              Call.saveFrame f, Call.loadFrame f pno time]) ∧
          ((s.PageTable v).modified = 0 →
            s'.calls = s.calls ++ [Call.countPageFault, Call.findFreeFrame,
              Call.loadFrame f pno time])) ∧
    (((s.PageTable pno).status = NOT_USED ∨ (s.PageTable pno).status = ON_DISK) →
      ff (s.calls ++ [Call.countPageFault]) ≠ NONE →
      ∃ s' fr, requestPage_raw ff s pno mode time = .ok s' fr ∧
        s'.calls = s.calls ++ [Call.countPageFault, Call.findFreeFrame,
          Call.loadFrame (ff (s.calls ++ [Call.countPageFault])) pno time]) ∧
    ((s.PageTable pno).status = IN_MEMORY →
      ∃ s' fr, requestPage_raw ff s pno mode time = .ok s' fr ∧
        s'.calls = s.calls ++ [Call.countPageHit]) ∧
    (((s.PageTable pno).status = NOT_USED ∨ (s.PageTable pno).status = ON_DISK) →
      ff (s.calls ++ [Call.countPageFault]) = NONE →
      ∀ sv v f, findVictim ((s.call .countPageFault).call .findFreeFrame) time = .ok sv v →
        f = (s.PageTable v).frame →
        ((s.PageTable v).modified ≠ 0 →
          (requestPage ff s pno mode time).state.calls =
            s.calls ++ [Call.countPageFault, Call.findFreeFrame,
              Call.saveFrame f, Call.loadFrame f pno time]) ∧
        ((s.PageTable v).modified = 0 →
          (requestPage ff s pno mode time).state.calls =
            s.calls ++ [Call.countPageFault, Call.findFreeFrame,
              Call.loadFrame f pno time])) ∧
    (((s.PageTable pno).status = NOT_USED ∨ (s.PageTable pno).status = ON_DISK) →
      ff (s.calls ++ [Call.countPageFault]) = NONE →
      ∀ e sv, findVictim ((s.call .countPageFault).call .findFreeFrame) time = .fail e sv →
        (requestPage ff s pno mode time).state.calls =
          s.calls ++ [Call.countPageFault, Call.findFreeFrame]) ∧
    (((s.PageTable pno).status = NOT_USED ∨ (s.PageTable pno).status = ON_DISK) →
      ff (s.calls ++ [Call.countPageFault]) ≠ NONE →
      (requestPage ff s pno mode time).state.calls =
        s.calls ++ [Call.countPageFault, Call.findFreeFrame,
          Call.loadFrame (ff (s.calls ++ [Call.countPageFault])) pno time]) ∧
    ((s.PageTable pno).status = IN_MEMORY →
      (requestPage ff s pno mode time).state.calls = s.calls ++ [Call.countPageHit] ∨
      ((requestPage ff s pno mode time).isOk = false ∧
        (requestPage ff s pno mode time).state.calls = s.calls)) ∧
    (∀ s' fr, requestPage ff s pno mode time = .ok s' fr →
      requestPage_raw ff s pno mode time = .ok s' fr) := by
  obtain ⟨r1, r2, r3⟩ := raw_request ff s pno mode time hin
  obtain ⟨g1, g2, g3, g4⟩ := request_calls ff s pno mode time hin
  refine ⟨fun hst hff v f hv hf => ?_, fun hst hff => ?_, fun hst => ?_,
    fun hst hff sv v f hv hf => ?_, g3, g1, g4, fun s' fr h => requestPage_raw_of_ok h⟩
  · obtain ⟨s', fr, h, -, -, hcalls, -⟩ := r2 hst hff v hv
    have hfv : (s.dat v).frame = f := hf.symm
    refine ⟨s', fr, h, fun hm => ?_, fun hm => ?_⟩
    · have hm' : (s.dat v).modified ≠ 0 := hm
      rw [hcalls, if_pos hm', hfv]
      simp only [List.append_assoc, List.cons_append, List.nil_append]
    · have hm' : ¬ (s.dat v).modified ≠ 0 := fun h' => h' hm
      rw [hcalls, if_neg hm', hfv]
      simp only [List.append_assoc, List.cons_append, List.nil_append, List.append_nil]
  · obtain ⟨s', fr, h, -, -, hcalls, -⟩ := r1 hst hff
    exact ⟨s', fr, h, hcalls⟩
  · obtain ⟨s', fr, h, -, -, hcalls, -⟩ := r3 hst
    exact ⟨s', fr, h, hcalls⟩
  · have hcalls := g2 hst hff sv v hv
    refine ⟨fun hm => ?_, fun hm => ?_⟩
    · rw [hcalls, if_pos hm, ← hf]
      simp only [List.append_assoc, List.cons_append, List.nil_append]
    · have hm' : ¬ (s.PageTable v).modified ≠ 0 := fun h' => h' hm
      rw [hcalls, if_neg hm', ← hf]
      simp only [List.append_assoc, List.cons_append, List.nil_append, List.append_nil]

/-- C10 (modified flag): in every state reached from `initPageTable` by requests that all
return, a page whose `modified` is set is `IN_MEMORY` and has been referenced in write mode
at or after its most recent load; and right after a request in mode `'w'` that returns, in
any state, `modified` of the requested page is 1. -/
theorem modified_flag (ff : List Call → Int) :
    (∀ mem policy np trace s',
      runTrace ff (initPageTable mem policy np) trace = .ok s' () →
      ∀ p, 0 ≤ p → p < np → (s'.PageTable p).modified ≠ 0 →
        (s'.PageTable p).status = IN_MEMORY ∧
        writtenSinceLoad ff p (initPageTable mem policy np) trace false = true) ∧
    (∀ s pno time s' fr, requestPage ff s pno 'w' time = .ok s' fr →
      (s'.PageTable pno).modified = 1) := by
  constructor
  · intro mem policy np trace s' h p h0 h1
    have main : ∀ (trace : List (Int × Char × Int)) (s : State) (acc : Bool),
        runTrace ff s trace = .ok s' () →
        ((s.PageTable p).modified ≠ 0 → (s.PageTable p).status = IN_MEMORY ∧ acc = true) →
        (s'.PageTable p).modified ≠ 0 →
          (s'.PageTable p).status = IN_MEMORY ∧ writtenSinceLoad ff p s trace acc = true := by
      intro trace
      induction trace with
      | nil =>
        intro s acc h hinv hm
        simp only [runTrace, Outcome.ok.injEq, and_true] at h
        subst h
        simpa [writtenSinceLoad] using hinv hm
      | cons r rest ih =>
        intro s acc h hinv hm
        obtain ⟨pno, mode, t⟩ := r
        obtain ⟨s1, fr, hreq, hrest⟩ := runTrace_cons_ok h
        obtain ⟨q1, q2, q3⟩ := request_modified hreq
        simp only [writtenSinceLoad, hreq]
        apply ih s1 _ hrest _ hm
        intro hm1
        by_cases hp : pno = p
        · subst hp
          refine ⟨q1, ?_⟩
          simp only [if_true]
          rw [q2] at hm1
          by_cases hw : mode = 'w'
          · simp [hw]
          · simp only [hw, if_false] at hm1
            by_cases hst : (s.PageTable pno).status = IN_MEMORY
            · simp only [hst, if_true] at hm1
              simp [hst, (hinv hm1).2]
            · simp only [hst, if_false] at hm1
              exact absurd rfl hm1
        · have hp' : p ≠ pno := fun h' => hp h'.symm
          obtain ⟨r1, r2⟩ := q3 p hp' hm1
          rw [r1] at hm1
          rw [r2]
          simp only [hp, if_false]
          exact hinv hm1
    apply main trace _ false h _
    intro hm0
    simp [initPageTable, h0, h1] at hm0
  · intro s pno time s' fr h
    have := (request_modified h).2.1
    simpa using this

/-! ### Linked lists -/

theorem nextChain_congr {nx nx' : Int → Int} :
    ∀ {L : List Int} {e : Int}, (∀ a ∈ L, nx' a = nx a) → NextChain nx L e → NextChain nx' L e
  | [], _, _, _ => trivial
  | a :: rest, e, h, hc => by
    refine ⟨?_, nextChain_congr (fun x hx => h x (List.mem_cons_of_mem _ hx)) hc.2⟩
    rw [h a (List.mem_cons_self _ _)]
    exact hc.1

theorem prevChain_congr {pv pv' : Int → Int} :
    ∀ {L : List Int} {b : Int}, (∀ a ∈ L, pv' a = pv a) → PrevChain pv b L → PrevChain pv' b L
  | [], _, _, _ => trivial
  | a :: rest, b, h, hc => by
    refine ⟨?_, prevChain_congr (fun x hx => h x (List.mem_cons_of_mem _ hx)) hc.2⟩
    rw [h a (List.mem_cons_self _ _)]
    exact hc.1

theorem nextChain_append (nx : Int → Int) :
    ∀ (L1 L2 : List Int) (e : Int),
      NextChain nx (L1 ++ L2) e ↔ NextChain nx L1 (L2.headD e) ∧ NextChain nx L2 e
  | [], L2, e => by simp [NextChain]
  | a :: rest, L2, e => by
    have ih := nextChain_append nx rest L2 e
    have hh : (rest ++ L2).headD e = rest.headD (L2.headD e) := by
      cases rest <;> simp
    show (nx a = (rest ++ L2).headD e ∧ NextChain nx (rest ++ L2) e) ↔
      (nx a = rest.headD (L2.headD e) ∧ NextChain nx rest (L2.headD e)) ∧ NextChain nx L2 e
    rw [ih, hh, and_assoc]

theorem prevChain_append (pv : Int → Int) :
    ∀ (L1 L2 : List Int) (b : Int),
      PrevChain pv b (L1 ++ L2) ↔ PrevChain pv b L1 ∧ PrevChain pv (L1.getLastD b) L2
  | [], L2, b => by simp [PrevChain]
  | a :: rest, L2, b => by
    have ih := prevChain_append pv rest L2 a
    have hh : (a :: rest).getLastD b = rest.getLastD a := by
      cases rest <;> simp [List.getLastD]
    show (pv a = b ∧ PrevChain pv a (rest ++ L2)) ↔
      (pv a = b ∧ PrevChain pv a rest) ∧ PrevChain pv ((a :: rest).getLastD b) L2
    rw [ih, hh, and_assoc]

theorem getLast?_eq_some_append {L : List Int} {tl : Int} (h : L.getLast? = some tl) :
    ∃ L0, L = L0 ++ [tl] :=
  List.getLast?_eq_some_iff.1 h

theorem Links.mem_ne {nx pv : Int → Int} {hd tl : Int} {L : List Int}
    (h : Links nx pv hd tl L) {p : Int} (hp : p ∈ L) : p ≠ -1 := by
  have := h.nonneg p hp
  omega

/-- Where an element sits determines its two links. -/
theorem Links.split {nx pv : Int → Int} {hd tl : Int} {L : List Int}
    (h : Links nx pv hd tl L) {A B : List Int} {p : Int} (hL : L = A ++ p :: B) :
    nx p = B.headD (-1) ∧ pv p = A.getLastD (-1) := by
  subst hL
  have h1 := (nextChain_append nx A (p :: B) (-1)).1 h.next
  have h2 := (prevChain_append pv A (p :: B) (-1)).1 h.prev
  exact ⟨h1.2.1, h2.2.1⟩

/-- Appending an element that is not in the list. -/
theorem Links.snoc {nx pv : Int → Int} {hd tl : Int} {L : List Int}
    (h : Links nx pv hd tl L) {p : Int} (hp : p ∉ L) (h0 : 0 ≤ p) :
    Links (fun j => if j = p then -1 else if j = tl then p else nx j)
      (fun j => if j = p then tl else pv j) hd p (L ++ [p]) := by
  obtain ⟨L0, rfl⟩ := getLast?_eq_some_append h.last
  have hnd := h.nodup
  have htl0 : tl ∉ L0 := by
    intro hmem
    have := List.nodup_append.1 hnd
    exact this.2.2 hmem (List.mem_singleton_self tl) 
  have htlp : tl ≠ p := by
    intro e
    apply hp
    simp [e]
  have hn1 := (nextChain_append nx L0 [tl] (-1)).1 h.next
  have hp1 := h.prev
  refine ⟨?_, ?_, ?_, ?_, ?_, ?_⟩
  · rw [List.nodup_append]
    refine ⟨hnd, List.nodup_singleton p, ?_⟩
    intro a ha hb
    rw [List.mem_singleton] at hb
    subst hb
    exact hp ha
  · intro q hq
    rw [List.mem_append, List.mem_singleton] at hq
    rcases hq with hq | hq
    · exact h.nonneg q hq
    · rw [hq]
      exact h0
  · have := h.head
    cases L0 <;> simpa using this
  · simp
  · rw [List.append_assoc, nextChain_append]
    refine ⟨?_, ?_⟩
    · refine nextChain_congr ?_ hn1.1
      intro a ha
      have hap : a ≠ p := fun e => hp (by simp [← e, ha])
      have hat : a ≠ tl := fun e => htl0 (e ▸ ha)
      simp only [hap, hat, if_false]
    · refine ⟨?_, ?_, trivial⟩
      · simp only [htlp, if_false, if_true]
        rfl
      · simp only [if_true]
        rfl
  · rw [prevChain_append]
    refine ⟨?_, ?_⟩
    · refine prevChain_congr ?_ hp1
      intro a ha
      have hap : a ≠ p := fun e => hp (e ▸ ha)
      simp only [hap, if_false]
    · refine ⟨?_, trivial⟩
      simp only [if_true]
      exact (List.getLastD_concat _ _ _).symm

/-- Removing the first element of a list of at least two. -/
theorem Links.pop {nx pv : Int → Int} {hd tl a b : Int} {r : List Int}
    (h : Links nx pv hd tl (a :: b :: r)) :
    hd = a ∧ nx a = b ∧ Links nx (fun j => if j = b then -1 else pv j) b tl (b :: r) := by
  have hnd := h.nodup
  have hbr : b ∉ r := (List.nodup_cons.1 (List.nodup_cons.1 hnd).2).1
  have hhd : hd = a := by
    have := h.head
    simp only [List.head?_cons, Option.some.injEq] at this
    exact this.symm
  refine ⟨hhd, h.next.1, ?_, ?_, rfl, ?_, h.next.2, ?_⟩
  · exact (List.nodup_cons.1 hnd).2
  · intro q hq
    exact h.nonneg q (List.mem_cons_of_mem _ hq)
  · have := h.last
    rw [List.getLast?_cons_cons] at this
    exact this
  · refine ⟨by simp only [if_true], ?_⟩
    refine prevChain_congr ?_ h.prev.2.2
    intro x hx
    have hxb : x ≠ b := fun e => hbr (e ▸ hx)
    simp only [hxb, if_false]

/-- Removing an interior element. -/
theorem Links.remove {nx pv : Int → Int} {hd tl a p b : Int} {A B : List Int}
    (h : Links nx pv hd tl (A ++ a :: p :: b :: B)) :
    Links (fun j => if j = a then b else nx j) (fun j => if j = b then a else pv j) hd tl
      (A ++ a :: b :: B) := by
  have hnd := h.nodup
  have hsub : (A ++ a :: b :: B).Sublist (A ++ a :: p :: b :: B) := by
    apply List.Sublist.append (List.Sublist.refl A)
    exact List.Sublist.cons₂ a (List.sublist_cons_self p (b :: B))
  have hnd' : (A ++ a :: b :: B).Nodup := hnd.sublist hsub
  have hn := (nextChain_append nx A (a :: p :: b :: B) (-1)).1 h.next
  have hp := (prevChain_append pv A (a :: p :: b :: B) (-1)).1 h.prev
  have haA : a ∉ A := fun hm =>
    (List.nodup_append.1 hnd').2.2 hm (List.mem_cons_self _ _) 
  have hbA : b ∉ A := fun hm =>
    (List.nodup_append.1 hnd').2.2 hm (List.mem_cons_of_mem _ (List.mem_cons_self _ _)) 
  have hab : a ≠ b := by
    have := (List.nodup_cons.1 (List.nodup_append.1 hnd').2.1).1
    intro e
    apply this
    rw [e]
    exact List.mem_cons_self _ _
  have haB : a ∉ B := by
    have := (List.nodup_cons.1 (List.nodup_append.1 hnd').2.1).1
    intro hm
    exact this (List.mem_cons_of_mem _ hm)
  have hbB : b ∉ B :=
    (List.nodup_cons.1 (List.nodup_cons.1 (List.nodup_append.1 hnd').2.1).2).1
  refine ⟨hnd', ?_, ?_, ?_, ?_, ?_⟩
  · intro q hq
    exact h.nonneg q (hsub.subset hq)
  · have := h.head
    cases A <;> simpa using this
  · have h1 : (A ++ a :: p :: b :: B).getLast? = (b :: B).getLast? := by
      rw [show A ++ a :: p :: b :: B = (A ++ [a, p]) ++ (b :: B) by simp]
      exact List.getLast?_append_of_ne_nil _ (List.cons_ne_nil _ _)
    have h2 : (A ++ a :: b :: B).getLast? = (b :: B).getLast? := by
      rw [show A ++ a :: b :: B = (A ++ [a]) ++ (b :: B) by simp]
      exact List.getLast?_append_of_ne_nil _ (List.cons_ne_nil _ _)
    rw [h2, ← h1]
    exact h.last
  · rw [nextChain_append]
    refine ⟨?_, ?_, ?_, ?_⟩
    · refine nextChain_congr ?_ hn.1
      intro x hx
      have hxa : x ≠ a := fun e => haA (e ▸ hx)
      simp only [hxa, if_false]
    · simp only [if_true]
      rfl
    · have hba : b ≠ a := fun e => hab e.symm
      simp only [hba, if_false]
      exact hn.2.2.2.1
    · refine nextChain_congr ?_ hn.2.2.2.2
      intro x hx
      have hxa : x ≠ a := fun e => haB (e ▸ hx)
      simp only [hxa, if_false]
  · rw [prevChain_append]
    refine ⟨?_, ?_, ?_, ?_⟩
    · refine prevChain_congr ?_ hp.1
      intro x hx
      have hxb : x ≠ b := fun e => hbA (e ▸ hx)
      simp only [hxb, if_false]
    · simp only [hab, if_false]
      exact hp.2.1
    · simp only [if_true]
    · refine prevChain_congr ?_ hp.2.2.2.2
      intro x hx
      have hxb : x ≠ b := fun e => hbB (e ▸ hx)
      simp only [hxb, if_false]

/-- The four positions of an element, read off its links. -/
theorem Links.cases {nx pv : Int → Int} {hd tl : Int} {L : List Int}
    (h : Links nx pv hd tl L) {p : Int} (hp : p ∈ L) :
    (L = [p] ∧ pv p = -1 ∧ nx p = -1) ∨
    (∃ b r, L = p :: b :: r ∧ pv p = -1 ∧ nx p = b ∧ b ≠ -1) ∨
    (∃ A a, L = A ++ [a, p] ∧ pv p = a ∧ a ≠ -1 ∧ nx p = -1) ∨
    (∃ A a b B, L = A ++ a :: p :: b :: B ∧ pv p = a ∧ nx p = b ∧ a ≠ -1 ∧ b ≠ -1) := by
  obtain ⟨A', B', hL⟩ := List.append_of_mem hp
  have hs := h.split hL
  rcases List.eq_nil_or_concat A' with hA | ⟨A, a, hA⟩
  · subst hA
    cases B' with
    | nil => exact Or.inl ⟨hL, hs.2, hs.1⟩
    | cons b B =>
      refine Or.inr (Or.inl ⟨b, B, hL, hs.2, hs.1, ?_⟩)
      apply h.mem_ne
      rw [hL]
      simp
  · subst hA
    have ha : a ≠ -1 := by
      apply h.mem_ne
      rw [hL]
      simp
    have hpa : pv p = a := by
      rw [hs.2, List.concat_eq_append]
      exact List.getLastD_concat _ _ _
    cases B' with
    | nil =>
      refine Or.inr (Or.inr (Or.inl ⟨A, a, ?_, hpa, ha, hs.1⟩))
      rw [hL]
      simp
    | cons b B =>
      refine Or.inr (Or.inr (Or.inr ⟨A, a, b, B, ?_, hpa, hs.1, ha, ?_⟩))
      · rw [hL]
        simp
      · apply h.mem_ne
        rw [hL]
        simp

/-- Walking `next` from the head of a well-formed list visits the list. -/
theorem walkFrom_eq {nx : Int → Int} :
    ∀ (L : List Int) (fuel : Nat), NextChain nx L (-1) → (∀ p ∈ L, p ≠ -1) → L.length < fuel →
      walkFrom nx fuel (L.headD (-1)) = L
  | [], fuel, _, _, hf => by
    cases fuel with
    | zero => rfl
    | succ n => simp [walkFrom]
  | a :: rest, fuel, hc, hne, hf => by
    cases fuel with
    | zero => simp at hf
    | succ n =>
      have ha : a ≠ -1 := hne a (List.mem_cons_self _ _)
      have ih := walkFrom_eq rest n hc.2 (fun p hp => hne p (List.mem_cons_of_mem _ hp))
        (by simpa using hf)
      simp only [walkFrom, List.headD_cons, ha, if_false, hc.1, ih]

/-! ### The invariant of a reference run -/

theorem mem_loadedFrames_append (calls : List Call) (c : Call) (f : Int) :
    f ∈ loadedFrames (calls ++ [c]) ↔ f ∈ loadedFrames calls ∨ f ∈ loadedFrames [c] := by
  simp only [loadedFrames, List.mem_dedup, List.filterMap_append, List.mem_append]

theorem loadedFrames_length_congr {c1 c2 : List Call}
    (h : ∀ f, f ∈ loadedFrames c1 ↔ f ∈ loadedFrames c2) :
    (loadedFrames c1).length = (loadedFrames c2).length := by
  apply List.Perm.length_eq
  exact (List.perm_ext_iff_of_nodup (List.nodup_dedup _) (List.nodup_dedup _)).2 h

theorem RunInv.mem_inTable {s : State} {k : Int} {L : List Int} (inv : RunInv s k L)
    {p : Int} (hp : p ∈ L) : s.inTable p :=
  ⟨inv.links.nonneg p hp, inv.inTable p hp⟩

theorem RunInv.tail_mem {s : State} {k : Int} {L : List Int} (inv : RunInv s k L) :
    s.replace_tail ∈ L := by
  obtain ⟨L0, h⟩ := getLast?_eq_some_append inv.links.last
  rw [h]
  simp

theorem RunInv.mem_iff {s : State} {k : Int} {L : List Int} (inv : RunInv s k L)
    {p : Int} (hin : s.inTable p) : p ∈ L ↔ (s.PageTable p).status = IN_MEMORY := by
  constructor
  · exact inv.status p
  · intro h
    by_contra hp
    have := (inv.absent p hin hp).1
    have e : (s.dat p).status = IN_MEMORY := h
    rw [e] at this
    revert this
    decide

/-- The frames held by the list are as many as the frames loaded. -/
theorem RunInv.length_eq {s : State} {k : Int} {L : List Int} (inv : RunInv s k L) :
    L.length = (loadedFrames s.calls).length := by
  have h1 : (L.map (fun p => (s.dat p).frame)).Perm (loadedFrames s.calls) := by
    apply (List.perm_ext_iff_of_nodup inv.frameNodup (List.nodup_dedup _)).2
    intro f
    exact List.mem_map.trans (inv.loaded f).symm
  have := h1.length_eq
  rw [List.length_map] at this
  exact this

theorem ageOf_loaded_accessed (pol : Policy) (e : PTE) (fno k : Int) (mode : Char) :
    ageOf pol ((e.loaded fno k).accessed mode k) = k := by
  cases pol <;> rfl

/-- The data part of the invariant when the list becomes `M ++ [pno]`, `M` a part of the old
list whose entries keep their data, and `pno` is given age `k`. -/
theorem snoc_data (pol : Policy) {d d' : Int → PTE} {L M : List Int} {pno k : Int}
    (hsub : M.Sublist L) (hagree : ∀ p ∈ M, d' p = d p)
    (hst : (d' pno).status = IN_MEMORY) (hfr : (d' pno).frame ≠ NONE)
    (hfresh : ∀ p ∈ M, (d p).frame ≠ (d' pno).frame) (hage : ageOf pol (d' pno) = k)
    (i_status : ∀ p ∈ L, (d p).status = IN_MEMORY)
    (i_nodup : (L.map (fun p => (d p).frame)).Nodup)
    (i_some : ∀ p ∈ L, (d p).frame ≠ NONE)
    (i_ord : L.Pairwise (fun a b => ageOf pol (d a) < ageOf pol (d b)))
    (i_rec : ∀ p ∈ L, ageOf pol (d p) < k) :
    (∀ p ∈ M ++ [pno], (d' p).status = IN_MEMORY) ∧
    ((M ++ [pno]).map (fun p => (d' p).frame)).Nodup ∧
    (∀ p ∈ M ++ [pno], (d' p).frame ≠ NONE) ∧
    (M ++ [pno]).Pairwise (fun a b => ageOf pol (d' a) < ageOf pol (d' b)) ∧
    (∀ p ∈ M ++ [pno], ageOf pol (d' p) < k + 1) := by
  have hmem : ∀ p ∈ M, p ∈ L := fun p hp => hsub.subset hp
  refine ⟨?_, ?_, ?_, ?_, ?_⟩
  · intro p hp
    rw [List.mem_append, List.mem_singleton] at hp
    rcases hp with hp | hp
    · rw [hagree p hp]
      exact i_status p (hmem p hp)
    · rw [hp]
      exact hst
  · rw [List.map_append, List.nodup_append]
    refine ⟨?_, List.nodup_singleton _, ?_⟩
    · have e : M.map (fun p => (d' p).frame) = M.map (fun p => (d p).frame) :=
        List.map_congr_left (fun p hp => by rw [hagree p hp])
      rw [e]
      exact i_nodup.sublist (hsub.map _)
    · intro f hf1 hf2
      rw [List.mem_map] at hf1
      obtain ⟨p, hp, rfl⟩ := hf1
      simp only [List.map_cons, List.map_nil, List.mem_singleton] at hf2
      rw [hagree p hp] at hf2
      exact hfresh p hp hf2
  · intro p hp
    rw [List.mem_append, List.mem_singleton] at hp
    rcases hp with hp | hp
    · rw [hagree p hp]
      exact i_some p (hmem p hp)
    · rw [hp]
      exact hfr
  · rw [List.pairwise_append]
    refine ⟨?_, List.pairwise_singleton _ _, ?_⟩
    · have := i_ord.sublist hsub
      refine this.imp_of_mem ?_
      intro a b ha hb hab
      rw [hagree a ha, hagree b hb]
      exact hab
    · intro a ha b hb
      rw [List.mem_singleton] at hb
      rw [hb, hage, hagree a ha]
      exact i_rec a (hmem a ha)
  · intro p hp
    rw [List.mem_append, List.mem_singleton] at hp
    rcases hp with hp | hp
    · rw [hagree p hp]
      have := i_rec p (hmem p hp)
      omega
    · rw [hp, hage]
      omega

theorem mem_loadedFrames_three (calls : List Call) (fno pno t f : Int) :
    f ∈ loadedFrames (calls ++ [Call.countPageFault, Call.findFreeFrame,
      Call.loadFrame fno pno t]) ↔ f ∈ loadedFrames calls ∨ f = fno := by
  simp only [loadedFrames, List.mem_dedup, List.filterMap_append, List.mem_append,
    List.filterMap_cons, List.filterMap_nil, List.mem_singleton]

theorem mem_loadedFrames_fault (calls : List Call) (f : Int) :
    f ∈ loadedFrames (calls ++ [Call.countPageFault]) ↔ f ∈ loadedFrames calls := by
  simp only [loadedFrames, List.mem_dedup, List.filterMap_append, List.mem_append,
    List.filterMap_cons, List.filterMap_nil, List.not_mem_nil, or_false]

theorem mem_loadedFrames_hit (calls : List Call) (f : Int) :
    f ∈ loadedFrames (calls ++ [Call.countPageHit]) ↔ f ∈ loadedFrames calls := by
  simp only [loadedFrames, List.mem_dedup, List.filterMap_append, List.mem_append,
    List.filterMap_cons, List.filterMap_nil, List.not_mem_nil, or_false]

/-- A fault served from a free frame appends the page to the list. -/
theorem step_fault_free {ff : List Call → Int} {s : State} {k : Int} {L : List Int}
    {pno : Int} (mode : Char) (inv : RunInv s k L) (hk : 0 < k) (hin : s.inTable pno)
    (hst : (s.PageTable pno).status ≠ IN_MEMORY)
    (hne : ff (s.calls ++ [Call.countPageFault]) ≠ NONE)
    (hfresh : ff (s.calls ++ [Call.countPageFault]) ∉ loadedFrames s.calls) :
    ∃ s' fr, requestPage ff s pno mode k = .ok s' fr ∧ RunInv s' (k + 1) (L ++ [pno]) ∧
      s'.nPages = s.nPages := by
  have hk0 : k ≠ 0 := by omega
  have hpL : pno ∉ L := fun h => hst ((inv.mem_iff hin).1 h)
  have habs := inv.absent pno hin hpL
  have htl := inv.mem_inTable inv.tail_mem
  obtain ⟨s2, h2⟩ := load_ok ((s.call .countPageFault).call .findFreeFrame) pno
    (ff (s.calls ++ [Call.countPageFault])) k (by simp only [hk0, if_false]; exact htl)
  have h1 : (if ff (s.calls ++ [Call.countPageFault]) = NONE then
              requestPage_evict ((s.call .countPageFault).call .findFreeFrame) k
            else .ok ((s.call .countPageFault).call .findFreeFrame)
              (ff (s.calls ++ [Call.countPageFault]))) =
      .ok ((s.call .countPageFault).call .findFreeFrame)
        (ff (s.calls ++ [Call.countPageFault])) := by
    rw [if_neg hne]
  have hreq := requestPage_of_fault mode hin habs.1 h1 h2
  refine ⟨_, _, hreq, ?_, ?_⟩
  · obtain ⟨-, l2, l3, l4, l5, -, l7, l8⟩ := load_inv h2
    obtain ⟨d1, d2, -, -, dc⟩ := request_data hreq
    have hne1 : ¬ (IN_MEMORY = NOT_USED ∨ IN_MEMORY = ON_DISK) := by decide
    rcases dc with ⟨-, -, hcalls, hd⟩ | ⟨-, hff, -⟩ | ⟨hst', -⟩
    · have hsnoc := inv.links.snoc hpL hin.1
      have hagree : ∀ p ∈ L, (s2.modify pno (fun e => e.accessed mode k)).dat p = s.dat p := by
        intro p hp
        have : p ≠ pno := fun e => hpL (e ▸ hp)
        rw [hd]
        simp only [this, if_false]
      have hdp : (s2.modify pno (fun e => e.accessed mode k)).dat pno =
          ((s.dat pno).loaded (ff (s.calls ++ [Call.countPageFault])) k).accessed mode k := by
        rw [hd]
        simp only [if_true]
      have hfr : ∀ p ∈ L, (s.dat p).frame ≠
          ((s2.modify pno (fun e => e.accessed mode k)).dat pno).frame := by
        intro p hp e
        rw [hdp] at e
        exact hfresh ((inv.loaded _).2 ⟨p, hp, e⟩)
      have hpol : (s2.modify pno (fun e => e.accessed mode k)).replacePolicy =
          s.replacePolicy := d2
      obtain ⟨n1, n2, n3, n4, n5⟩ := snoc_data s.replacePolicy (List.Sublist.refl L) hagree
        (by rw [hdp]; rfl) (by rw [hdp]; exact hne)
        hfr (by rw [hdp]; exact ageOf_loaded_accessed s.replacePolicy _ _ _ _)
        inv.status inv.frameNodup inv.frameSome inv.ordered inv.recent
      refine ⟨by rw [hpol]; exact inv.policy, ?_, ?_, n1, ?_, n2, n3, ?_, ?_, ?_⟩
      · rw [nxt_accessed, prv_accessed, l7, l8]
        simp only [modify_replace_head, modify_replace_tail, l4, l5, hk0, if_false, ne_eq,
          not_false_eq_true, true_and, call_replace_head, call_replace_tail, nxt_call,
          prv_call]
        exact hsnoc
      · intro p hp
        rw [d1]
        rw [List.mem_append, List.mem_singleton] at hp
        rcases hp with hp | hp
        · exact inv.inTable p hp
        · rw [hp]
          exact hin.2
      · intro p hp hpn
        rw [List.mem_append, List.mem_singleton, not_or] at hpn
        have hp' : s.inTable p := by
          simp only [State.inTable, d1] at hp
          exact hp
        rw [hd]
        simp only [hpn.2, if_false]
        exact inv.absent p hp' hpn.1
      · intro f
        rw [modify_calls] at hcalls
        rw [modify_calls, hcalls, mem_loadedFrames_three, inv.loaded f]
        constructor
        · rintro (⟨p, hp, e⟩ | e)
          · refine ⟨p, List.mem_append_left _ hp, ?_⟩
            rw [hagree p hp]
            exact e
          · refine ⟨pno, by simp, ?_⟩
            rw [hdp, e]
            rfl
        · rintro ⟨p, hp, e⟩
          rw [List.mem_append, List.mem_singleton] at hp
          rcases hp with hp | hp
          · left
            refine ⟨p, hp, ?_⟩
            rw [← hagree p hp]
            exact e
          · right
            rw [hp, hdp] at e
            exact e.symm
      · rw [hpol]
        exact n4
      · rw [hpol]
        exact n5
    · exact absurd hff hne
    · exact absurd hst' hst
  · obtain ⟨-, l2, -⟩ := load_inv h2
    simp only [modify_nPages, l2, call_nPages]

theorem mem_loadedFrames_evict (calls : List Call) (m fv pno t f : Int) :
    f ∈ loadedFrames (calls ++ [Call.countPageFault, Call.findFreeFrame] ++
      (if m ≠ 0 then [Call.saveFrame fv] else []) ++ [Call.loadFrame fv pno t]) ↔
    f ∈ loadedFrames calls ∨ f = fv := by
  split_ifs <;>
  simp only [loadedFrames, List.mem_dedup, List.filterMap_append, List.mem_append,
    List.filterMap_cons, List.filterMap_nil, List.mem_singleton, List.not_mem_nil, or_false]

/-- A fault with no free frame pops the head of the list and appends the page. -/
theorem step_fault_evict {ff : List Call → Int} {s : State} {k : Int} {L : List Int}
    {pno : Int} (mode : Char) (inv : RunInv s k L) (hk : 0 < k) (hin : s.inTable pno)
    (hst : (s.PageTable pno).status ≠ IN_MEMORY)
    (hff : ff (s.calls ++ [Call.countPageFault]) = NONE) (hlen : 2 ≤ L.length) :
    ∃ v b r, L = v :: b :: r ∧ v ≠ pno ∧
      ∃ s' fr sv, findVictim ((s.call .countPageFault).call .findFreeFrame) k = .ok sv v ∧
        requestPage ff s pno mode k = .ok s' fr ∧ RunInv s' (k + 1) (b :: r ++ [pno]) ∧
        s'.nPages = s.nPages ∧ fr = (s.dat v).frame ∧ (s'.dat v).status = ON_DISK ∧
        (s'.dat pno).frame = (s.dat v).frame := by
  have hk0 : k ≠ 0 := by omega
  have hpL : pno ∉ L := fun h => hst ((inv.mem_iff hin).1 h)
  have habs := inv.absent pno hin hpL
  obtain ⟨v, b, r, rfl⟩ : ∃ v b r, L = v :: b :: r := by
    match L, hlen with
    | v :: b :: r, _ => exact ⟨v, b, r, rfl⟩
  have hvp : v ≠ pno := fun e => hpL (by simp [e])
  obtain ⟨hhd, hnv, hpop⟩ := inv.links.pop
  have hvin := inv.mem_inTable (List.mem_cons_self v (b :: r))
  have hbin := inv.mem_inTable (List.mem_cons_of_mem v (List.mem_cons_self b r))
  have htl := inv.mem_inTable inv.tail_mem
  have hpol : s.replacePolicy ≠ .REPL_CLOCK := by
    rcases inv.policy with h | h <;> rw [h] <;> decide
  obtain ⟨sv, hsv⟩ := findVictim_ok (s := (s.call .countPageFault).call .findFreeFrame) k
    (by simp only [call_replace_head, call_nPages, hhd]; exact hvin)
    (by simp only [call_replace_head, call_nPages, nxt_call, hhd, hnv]; exact hbin) hpol
  simp only [call_replace_head, hhd] at hsv
  obtain ⟨v1, v2, v3, v4, v5, v6, v7, v8⟩ := findVictim_effect hsv
  obtain ⟨s1, hs1⟩ := evict_ok hsv (by simp only [State.inTable, v2, call_nPages]; exact hvin)
  obtain ⟨sv', v', e0, -, -, -, e5, e6, e7, e8, -, e10, e11⟩ := evict_inv hs1
  rw [hsv] at e0
  simp only [Outcome.ok.injEq] at e0
  obtain ⟨rfl, rfl⟩ := e0
  obtain ⟨s2, h2⟩ := load_ok s1 pno (sv.PageTable v).frame k (by
    simp only [hk0, if_false, State.inTable, e5, e8, v2, v5, call_nPages, call_replace_tail]
    exact htl)
  have h1 : (if ff (s.calls ++ [Call.countPageFault]) = NONE then
              requestPage_evict ((s.call .countPageFault).call .findFreeFrame) k
            else .ok ((s.call .countPageFault).call .findFreeFrame)
              (ff (s.calls ++ [Call.countPageFault]))) = .ok s1 (sv.PageTable v).frame := by
    rw [if_pos hff, hs1]
  have hreq := requestPage_of_fault mode hin habs.1 h1 h2
  obtain ⟨-, l2, l3, l4, l5, -, l7, l8⟩ := load_inv h2
  obtain ⟨d1, d2, -, d4, dc⟩ := request_data hreq
  rcases dc with ⟨-, hne, -⟩ | ⟨-, -, sv', v', hv', -, hcalls, hd⟩ | ⟨hst', -⟩
  · exact absurd hff hne
  · rw [hsv] at hv'
    simp only [Outcome.ok.injEq] at hv'
    obtain ⟨rfl, rfl⟩ := hv'
    have hpv : ¬ pno = v := fun e => hvp e.symm
    have hpM : pno ∉ b :: r := fun h => hpL (List.mem_cons_of_mem _ h)
    have hvM : v ∉ b :: r := (List.nodup_cons.1 inv.links.nodup).1
    have hsnoc := hpop.snoc hpM hin.1
    have hagree : ∀ p ∈ b :: r,
        (s2.modify pno (fun e => e.accessed mode k)).dat p = s.dat p := by
      intro p hp
      have h1 : p ≠ pno := fun e => hpM (e ▸ hp)
      have h2 : p ≠ v := fun e => hvM (e ▸ hp)
      rw [hd]
      simp only [h1, h2, if_false]
    have hdp : (s2.modify pno (fun e => e.accessed mode k)).dat pno =
        ((s.dat pno).loaded (s.dat v).frame k).accessed mode k := by
      rw [hd]
      simp only [if_true, hpv, if_false]
    have hdv : (s2.modify pno (fun e => e.accessed mode k)).dat v = (s.dat v).evicted := by
      rw [hd]
      simp only [hvp, if_false, if_true]
    have hfr : ∀ p ∈ b :: r, (s.dat p).frame ≠
        ((s2.modify pno (fun e => e.accessed mode k)).dat pno).frame := by
      intro p hp e
      rw [hdp] at e
      have hn := inv.frameNodup
      rw [List.map_cons, List.nodup_cons] at hn
      apply hn.1
      rw [List.mem_map]
      exact ⟨p, hp, e⟩
    obtain ⟨n1, n2, n3, n4, n5⟩ := snoc_data s.replacePolicy (List.sublist_cons_self v (b :: r)) hagree
      (by rw [hdp]; rfl)
      (by rw [hdp]; exact inv.frameSome v (List.mem_cons_self _ _))
      hfr (by rw [hdp]; exact ageOf_loaded_accessed s.replacePolicy _ _ _ _)
      inv.status inv.frameNodup inv.frameSome inv.ordered inv.recent
    refine ⟨v, b, r, rfl, hvp, _, _, sv, hsv, hreq, ?_, d1, ?_, ?_, ?_⟩
    · refine ⟨by rw [d2]; exact inv.policy, ?_, ?_, n1, ?_, n2, n3, ?_, ?_, ?_⟩
      · rw [nxt_accessed, prv_accessed, l7, l8]
        simp only [modify_replace_head, modify_replace_tail, l4, l5, hk0, if_false, ne_eq,
          not_false_eq_true, true_and, e7, e8, e10, e11, v4, v5, v7, v8, call_replace_head,
          call_replace_tail, nxt_call, prv_call, hhd, hnv]
        exact hsnoc
      · intro p hp
        rw [d1]
        rw [List.mem_append, List.mem_singleton] at hp
        rcases hp with hp | hp
        · exact inv.inTable p (List.mem_cons_of_mem _ hp)
        · rw [hp]
          exact hin.2
      · intro p hp hpn
        rw [List.mem_append, List.mem_singleton, not_or] at hpn
        have hp' : s.inTable p := by
          simp only [State.inTable, d1] at hp
          exact hp
        by_cases hpv' : p = v
        · rw [hpv', hdv]
          exact ⟨Or.inr rfl, rfl⟩
        · rw [hd]
          simp only [hpn.2, hpv', if_false]
          apply inv.absent p hp'
          intro hmem
          rcases List.mem_cons.1 hmem with h | h
          · exact hpv' h
          · exact hpn.1 h
      · intro f
        rw [modify_calls] at hcalls
        rw [modify_calls, hcalls, mem_loadedFrames_evict, inv.loaded f]
        constructor
        · rintro (⟨p, hp, e⟩ | e)
          · rcases List.mem_cons.1 hp with h | h
            · refine ⟨pno, by simp, ?_⟩
              rw [hdp, ← e, h]
              rfl
            · refine ⟨p, List.mem_append_left _ h, ?_⟩
              rw [hagree p h]
              exact e
          · refine ⟨pno, by simp, ?_⟩
            rw [hdp, e]
            rfl
        · rintro ⟨p, hp, e⟩
          rw [List.mem_append, List.mem_singleton] at hp
          rcases hp with hp | hp
          · left
            refine ⟨p, List.mem_cons_of_mem _ hp, ?_⟩
            rw [← hagree p hp]
            exact e
          · right
            rw [hp, hdp] at e
            exact e.symm
      · rw [d2]
        exact n4
      · rw [d2]
        exact n5
    · rw [d4, hdp]
      rfl
    · rw [hdv]
      rfl
    · rw [hdp]
      rfl
  · exact absurd hst' hst

theorem hit_effect {ff : List Call → Int} {s s' : State} {pno t fr : Int} {mode : Char}
    (h : requestPage ff s pno mode t = .ok s' fr)
    (hst : (s.PageTable pno).status = IN_MEMORY) :
    s'.nPages = s.nPages ∧ s'.replacePolicy = s.replacePolicy ∧
    s'.calls = s.calls ++ [Call.countPageHit] ∧
    s'.dat = fun j => if j = pno then (s.dat pno).accessed mode t else s.dat j := by
  have hne1 : ¬ (IN_MEMORY = NOT_USED ∨ IN_MEMORY = ON_DISK) := by decide
  obtain ⟨d1, d2, -, -, dc⟩ := request_data h
  rcases dc with ⟨h', -⟩ | ⟨h', -⟩ | ⟨-, hc, hd⟩
  · rw [hst] at h'
    exact absurd h' hne1
  · rw [hst] at h'
    exact absurd h' hne1
  · exact ⟨d1, d2, hc, hd⟩

/-- A hit under a policy that leaves the list alone. -/
theorem step_hit_fifo (ff : List Call → Int) {s : State} {k : Int} {L : List Int}
    {pno : Int} (mode : Char) (inv : RunInv s k L) (hin : s.inTable pno)
    (hst : (s.PageTable pno).status = IN_MEMORY) (hpol : s.replacePolicy = .REPL_FIFO) :
    ∃ s' fr, requestPage ff s pno mode k = .ok s' fr ∧ RunInv s' (k + 1) L ∧
      s'.nPages = s.nPages := by
  have hnl : s.replacePolicy ≠ .REPL_LRU := by
    rw [hpol]
    decide
  have hreq := requestPage_of_hit ff mode k hin hst (hit_other pno hnl)
  obtain ⟨d1, d2, hc, hd⟩ := hit_effect hreq hst
  refine ⟨_, _, hreq, ?_, d1⟩
  have hst' : ∀ p, (((s.call .countPageHit).modify pno (fun e => e.accessed mode k)).dat p).status
      = (s.dat p).status := by
    intro p
    rw [hd]
    by_cases h : p = pno
    · rw [h]
      simp only [if_true]
      rfl
    · simp only [h, if_false]
  have hfr' : ∀ p, (((s.call .countPageHit).modify pno (fun e => e.accessed mode k)).dat p).frame
      = (s.dat p).frame := by
    intro p
    rw [hd]
    by_cases h : p = pno
    · rw [h]
      simp only [if_true]
      rfl
    · simp only [h, if_false]
  have hage' : ∀ p, ageOf .REPL_FIFO
      (((s.call .countPageHit).modify pno (fun e => e.accessed mode k)).dat p)
      = ageOf .REPL_FIFO (s.dat p) := by
    intro p
    rw [hd]
    by_cases h : p = pno
    · rw [h]
      simp only [if_true]
      rfl
    · simp only [h, if_false]
  refine ⟨by rw [d2]; exact inv.policy, ?_, ?_, ?_, ?_, ?_, ?_, ?_, ?_, ?_⟩
  · rw [nxt_accessed, prv_accessed]
    exact inv.links
  · intro p hp
    rw [d1]
    exact inv.inTable p hp
  · intro p hp
    rw [hst' p]
    exact inv.status p hp
  · intro p hp hpn
    rw [hst' p, hfr' p]
    exact inv.absent p (by simpa only [State.inTable, d1] using hp) hpn
  · simp only [hfr']
    exact inv.frameNodup
  · intro p hp
    rw [hfr' p]
    exact inv.frameSome p hp
  · intro f
    rw [hc, mem_loadedFrames_hit, inv.loaded f]
    simp only [hfr']
  · rw [d2, hpol]
    simp only [hage']
    have := inv.ordered
    rw [hpol] at this
    exact this
  · intro p hp
    rw [d2, hpol, hage' p]
    have := inv.recent p hp
    rw [hpol] at this
    omega

/-- The invariant after an LRU hit, given the links of the new list `M ++ [pno]`. -/
theorem lru_hit_inv {s s' : State} {k : Int} {L M : List Int} {pno : Int} {mode : Char}
    (inv : RunInv s k L) (hpol : s.replacePolicy = .REPL_LRU) (hsub : M.Sublist L)
    (hmem : ∀ q, q ∈ L ↔ q ∈ M ∨ q = pno) (hpM : pno ∉ M)
    (hn : s'.nPages = s.nPages) (hp : s'.replacePolicy = s.replacePolicy)
    (hc : s'.calls = s.calls ++ [Call.countPageHit])
    (hd : s'.dat = fun j => if j = pno then (s.dat pno).accessed mode k else s.dat j)
    (hl : Links s'.nxt s'.prv s'.replace_head s'.replace_tail (M ++ [pno])) :
    RunInv s' (k + 1) (M ++ [pno]) := by
  have hpL : pno ∈ L := (hmem pno).2 (Or.inr rfl)
  have hagree : ∀ p ∈ M, s'.dat p = s.dat p := by
    intro p hp'
    have : p ≠ pno := fun e => hpM (e ▸ hp')
    rw [hd]
    simp only [this, if_false]
  have hdp : s'.dat pno = (s.dat pno).accessed mode k := by
    rw [hd]
    simp only [if_true]
  have hfr : ∀ p ∈ M, (s.dat p).frame ≠ (s'.dat pno).frame := by
    intro p hp' e
    rw [hdp] at e
    have e' : (fun q => (s.dat q).frame) p = (fun q => (s.dat q).frame) pno := e
    have := List.inj_on_of_nodup_map inv.frameNodup (hsub.subset hp') hpL e'
    exact hpM (this ▸ hp')
  have hmem' : ∀ q, q ∈ M ++ [pno] ↔ q ∈ L := by
    intro q
    rw [List.mem_append, List.mem_singleton, hmem q]
  obtain ⟨n1, n2, n3, n4, n5⟩ := snoc_data s.replacePolicy hsub hagree
    (by rw [hdp]; exact inv.status pno hpL)
    (by rw [hdp]; exact inv.frameSome pno hpL)
    hfr (by rw [hdp, hpol]; rfl)
    inv.status inv.frameNodup inv.frameSome inv.ordered inv.recent
  refine ⟨by rw [hp]; exact inv.policy, hl, ?_, n1, ?_, n2, n3, ?_, ?_, ?_⟩
  · intro p hp'
    rw [hn]
    exact inv.inTable p ((hmem' p).1 hp')
  · intro p hp' hpn
    have hpL' : p ∉ L := fun h => hpn ((hmem' p).2 h)
    have hpp : p ≠ pno := fun e => hpL' (e ▸ hpL)
    rw [hd]
    simp only [hpp, if_false]
    exact inv.absent p (by simpa only [State.inTable, hn] using hp') hpL'
  · intro f
    rw [hc, mem_loadedFrames_hit, inv.loaded f]
    have hfr' : ∀ p, (s'.dat p).frame = (s.dat p).frame := by
      intro p
      rw [hd]
      by_cases h : p = pno
      · rw [h]
        simp only [if_true]
        rfl
      · simp only [h, if_false]
    simp only [hfr', hmem']
  · rw [hp]
    exact n4
  · rw [hp]
    exact n5

/-- A hit under LRU moves the page to the end of the list. -/
theorem step_hit_lru (ff : List Call → Int) {s : State} {k : Int} {L : List Int}
    {pno : Int} (mode : Char) (inv : RunInv s k L) (hin : s.inTable pno)
    (hst : (s.PageTable pno).status = IN_MEMORY) (hpol : s.replacePolicy = .REPL_LRU) :
    ∃ s' fr M, requestPage ff s pno mode k = .ok s' fr ∧ RunInv s' (k + 1) (M ++ [pno]) ∧
      s'.nPages = s.nPages := by
  have hpL : pno ∈ L := (inv.mem_iff hin).2 hst
  have htl := inv.mem_inTable inv.tail_mem
  rcases inv.links.cases hpL with ⟨hL, hp, hn⟩ | ⟨b, r, hL, hp, hn, hb⟩ |
    ⟨A, a, hL, hp, ha, hn⟩ | ⟨A, a, b, B, hL, hp, hn, ha, hb⟩
  · -- the only entry
    have hreq := requestPage_of_hit ff mode k hin hst (hit_sole hpol hp hn)
    obtain ⟨d1, d2, hc, hd⟩ := hit_effect hreq hst
    refine ⟨_, _, [], hreq, ?_, d1⟩
    refine lru_hit_inv inv hpol (List.nil_sublist L) ?_ (List.not_mem_nil _) d1 d2 hc hd ?_
    · intro q
      rw [hL]
      simp
    · have hl := inv.links
      rw [hL] at hl
      have hh : s.replace_head = pno := by
        have := hl.head
        simp only [List.head?_cons, Option.some.injEq] at this
        exact this.symm
      have ht : s.replace_tail = pno := by
        have := hl.last
        simp only [List.getLast?_singleton, Option.some.injEq] at this
        exact this.symm
      rw [hh, ht] at hl
      rw [nxt_accessed, prv_accessed]
      exact hl
  · -- the first of several
    have hbin : s.inTable b := inv.mem_inTable (by rw [hL]; simp)
    have hh := hit_head hpol hp (by rw [hn]; exact hb)
    rw [hn, if_neg (not_not_intro hbin)] at hh
    generalize hs1 : ({ s.modify b (fun e => { e with prev := -1 }) with
      replace_head := b } : State) = s1 at hh
    have e1 : s1.nxt = s.nxt := by
      rw [← hs1]
      exact nxt_setPrev s b (-1)
    have e2 : s1.prv = fun j => if j = b then -1 else s.prv j := by
      rw [← hs1]
      exact prv_setPrev s b (-1)
    have e3 : s1.replace_head = b := by rw [← hs1]
    have e4 : s1.replace_tail = s.replace_tail := by rw [← hs1]; rfl
    have e5 : s1.nPages = s.nPages := by rw [← hs1]; rfl
    obtain ⟨s2, h2⟩ := toTail_ok s1 pno (by
      simp only [State.inTable, e4, e5]
      exact htl)
    rw [h2] at hh
    have hreq := requestPage_of_hit ff mode k hin hst hh
    obtain ⟨d1, d2, hc, hd⟩ := hit_effect hreq hst
    obtain ⟨-, -, -, t4, t5, -, t7, t8⟩ := toTail_inv h2
    have hl := inv.links
    rw [hL] at hl
    obtain ⟨-, -, hpop⟩ := hl.pop
    have hnd := hl.nodup
    have hpM : pno ∉ b :: r := (List.nodup_cons.1 hnd).1
    refine ⟨_, _, b :: r, hreq, ?_, d1⟩
    refine lru_hit_inv inv hpol ?_ ?_ hpM d1 d2 hc hd ?_
    · rw [hL]
      exact List.sublist_cons_self _ _
    · intro q
      rw [hL, List.mem_cons]
      tauto
    · rw [nxt_accessed, prv_accessed, t7, t8]
      simp only [modify_replace_head, modify_replace_tail, t4, t5, e1, e2, e3, e4]
      exact hpop.snoc hpM hin.1
  · -- the last of several
    have hreq := requestPage_of_hit ff mode k hin hst
      (hit_last hpol (by rw [hp]; exact ha) hn)
    obtain ⟨d1, d2, hc, hd⟩ := hit_effect hreq hst
    have hL' : L = (A ++ [a]) ++ [pno] := by
      rw [hL]
      simp
    have hnd := inv.links.nodup
    rw [hL'] at hnd
    have hpM : pno ∉ A ++ [a] := fun h =>
      (List.nodup_append.1 hnd).2.2 h (List.mem_singleton_self pno)
    refine ⟨_, _, A ++ [a], hreq, ?_, d1⟩
    refine lru_hit_inv inv hpol ?_ ?_ hpM d1 d2 hc hd ?_
    · rw [hL']
      exact List.sublist_append_left _ _
    · intro q
      rw [hL', List.mem_append, List.mem_singleton]
    · rw [nxt_accessed, prv_accessed]
      have hl := inv.links
      rw [hL'] at hl
      exact hl
  · -- an interior entry
    have hain : s.inTable a := inv.mem_inTable (by rw [hL]; simp)
    have hbin : s.inTable b := inv.mem_inTable (by rw [hL]; simp)
    have hh := hit_mid hpol (by rw [hp]; exact ha) (by rw [hn]; exact hb)
    rw [hn, hp, if_neg (not_not_intro hain), if_neg (not_not_intro hbin)] at hh
    generalize hs1 : (s.modify a (fun e => { e with next := b })).modify b
      (fun e => { e with prev := a }) = s1 at hh
    have e1 : s1.nxt = fun j => if j = a then b else s.nxt j := by
      rw [← hs1, nxt_setPrev, nxt_setNext]
    have e2 : s1.prv = fun j => if j = b then a else s.prv j := by
      rw [← hs1, prv_setPrev, prv_setNext]
    have e3 : s1.replace_head = s.replace_head := by rw [← hs1]; rfl
    have e4 : s1.replace_tail = s.replace_tail := by rw [← hs1]; rfl
    have e5 : s1.nPages = s.nPages := by rw [← hs1]; rfl
    obtain ⟨s2, h2⟩ := toTail_ok s1 pno (by
      simp only [State.inTable, e4, e5]
      exact htl)
    rw [h2] at hh
    have hreq := requestPage_of_hit ff mode k hin hst hh
    obtain ⟨d1, d2, hc, hd⟩ := hit_effect hreq hst
    obtain ⟨-, -, -, t4, t5, -, t7, t8⟩ := toTail_inv h2
    have hl := inv.links
    rw [hL] at hl
    have hrem := hl.remove
    have hnd := hl.nodup
    have hsub : (A ++ a :: b :: B).Sublist (A ++ a :: pno :: b :: B) := by
      apply List.Sublist.append (List.Sublist.refl A)
      exact List.Sublist.cons₂ a (List.sublist_cons_self pno (b :: B))
    have hpM : pno ∉ A ++ a :: b :: B := by
      intro h
      rw [List.mem_append, List.mem_cons, List.mem_cons] at h
      have h1 := List.nodup_append.1 hnd
      have h2 := List.nodup_cons.1 h1.2.1
      have h3 := List.nodup_cons.1 h2.2
      rcases h with h | h | h | h
      · exact h1.2.2 h (by simp) 
      · exact h2.1 (by rw [h]; simp)
      · exact h3.1 (by rw [h]; simp)
      · exact h3.1 (by simp [h])
    refine ⟨_, _, A ++ a :: b :: B, hreq, ?_, d1⟩
    refine lru_hit_inv inv hpol ?_ ?_ hpM d1 d2 hc hd ?_
    · rw [hL]
      exact hsub
    · intro q
      rw [hL]
      simp only [List.mem_append, List.mem_cons]
      tauto
    · rw [nxt_accessed, prv_accessed, t7, t8]
      simp only [modify_replace_head, modify_replace_tail, t4, t5, e1, e2, e3, e4]
      exact hrem.snoc hpM hin.1

theorem loadedFrames_nil : loadedFrames [] = [] := rfl

theorem FreshAllocator.first {F : Nat} {ff : List Call → Int} (hff : FreshAllocator F ff)
    (hF : 2 ≤ F) : ff [Call.countPageFault] ≠ NONE := by
  have h := hff [Call.countPageFault]
  have e : loadedFrames [Call.countPageFault] = [] := rfl
  rw [e] at h
  simp only [List.length_nil] at h
  rw [if_pos (by omega)] at h
  exact h.1

/-- The first request of a reference run, at time 0, makes the page the whole list. -/
theorem step_first {F : Nat} {ff : List Call → Int} (hF : 2 ≤ F) (hff : FreshAllocator F ff)
    (mem : Int → PTE) {policy : Policy}
    (hpol : policy = .REPL_FIFO ∨ policy = .REPL_LRU) {np pno : Int} (mode : Char)
    (hin : 0 ≤ pno ∧ pno < np) :
    ∃ s' fr, requestPage ff (initPageTable mem policy np) pno mode 0 = .ok s' fr ∧
      RunInv s' 1 [pno] ∧ s'.nPages = np := by
  have hne : ff ((initPageTable mem policy np).calls ++ [Call.countPageFault]) ≠ NONE :=
    hff.first hF
  have hin' : (initPageTable mem policy np).inTable pno := hin
  have hdat : ∀ p, 0 ≤ p ∧ p < np →
      ((initPageTable mem policy np).dat p).status = NOT_USED ∧
      ((initPageTable mem policy np).dat p).frame = NONE := by
    intro p hp
    simp only [State.dat, initPageTable, hp, and_self, if_true, PTE.data]
  have hst : ((initPageTable mem policy np).PageTable pno).status = NOT_USED := (hdat pno hin).1
  obtain ⟨s2, h2⟩ := load_ok
    (((initPageTable mem policy np).call .countPageFault).call .findFreeFrame) pno
    (ff ((initPageTable mem policy np).calls ++ [Call.countPageFault])) 0
    (by simp only [if_true]; exact hin)
  have h1 : (if ff ((initPageTable mem policy np).calls ++ [Call.countPageFault]) = NONE then
        requestPage_evict
          (((initPageTable mem policy np).call .countPageFault).call .findFreeFrame) 0
      else .ok (((initPageTable mem policy np).call .countPageFault).call .findFreeFrame)
        (ff ((initPageTable mem policy np).calls ++ [Call.countPageFault]))) =
      .ok (((initPageTable mem policy np).call .countPageFault).call .findFreeFrame)
        (ff ((initPageTable mem policy np).calls ++ [Call.countPageFault])) := by
    rw [if_neg hne]
  have hreq := requestPage_of_fault mode hin' (Or.inl hst) h1 h2
  obtain ⟨-, l2, l3, l4, l5, -, l7, l8⟩ := load_inv h2
  obtain ⟨d1, d2, -, -, dc⟩ := request_data hreq
  have hne1 : ¬ (NOT_USED = IN_MEMORY) := by decide
  rcases dc with ⟨-, -, hcalls, hd⟩ | ⟨-, hff', -⟩ | ⟨hst', -⟩
  · have hdp : (s2.modify pno (fun e => e.accessed mode 0)).dat pno =
        (((initPageTable mem policy np).dat pno).loaded
          (ff ((initPageTable mem policy np).calls ++ [Call.countPageFault])) 0).accessed
          mode 0 := by
      rw [hd]
      simp only [if_true]
    refine ⟨_, _, hreq, ?_, d1⟩
    refine ⟨by rw [d2]; exact hpol, ?_, ?_, ?_, ?_, ?_, ?_, ?_, ?_, ?_⟩
    · rw [nxt_accessed, prv_accessed, l7, l8]
      simp only [modify_replace_head, modify_replace_tail, l4, l5, if_true]
      refine ⟨List.nodup_singleton _, ?_, rfl, rfl, ?_, ?_⟩
      · intro p hp
        rw [List.mem_singleton] at hp
        rw [hp]
        exact hin.1
      · refine ⟨?_, trivial⟩
        simp only [if_true]
        rfl
      · refine ⟨?_, trivial⟩
        simp only [if_true]
    · intro p hp
      rw [List.mem_singleton] at hp
      rw [hp, d1]
      exact hin.2
    · intro p hp
      rw [List.mem_singleton] at hp
      rw [hp, hdp]
      rfl
    · intro p hp hpn
      rw [List.mem_singleton] at hpn
      have hp' : 0 ≤ p ∧ p < np := by
        simp only [State.inTable, d1] at hp
        exact hp
      rw [hd]
      simp only [hpn, if_false]
      exact ⟨Or.inl (hdat p hp').1, (hdat p hp').2⟩
    · simp only [List.map_cons, List.map_nil]
      exact List.nodup_singleton _
    · intro p hp
      rw [List.mem_singleton] at hp
      rw [hp, hdp]
      exact hne
    · intro f
      rw [modify_calls] at hcalls
      rw [modify_calls, hcalls, mem_loadedFrames_three]
      have e0 : (initPageTable mem policy np).calls = [] := rfl
      rw [e0, loadedFrames_nil]
      constructor
      · rintro (h | h)
        · cases h
        · refine ⟨pno, List.mem_singleton_self _, ?_⟩
          rw [hdp, h]
          rfl
      · rintro ⟨p, hp, e⟩
        rw [List.mem_singleton] at hp
        rw [hp, hdp] at e
        right
        exact e.symm
    · exact List.pairwise_singleton _ _
    · intro p hp
      rw [List.mem_singleton] at hp
      rw [hp, hdp, ageOf_loaded_accessed]
      decide
  · exact absurd hff' hne
  · rw [hst] at hst'
    exact absurd hst' hne1

/-- Every later request of a reference run keeps the invariant. -/
theorem step {F : Nat} {ff : List Call → Int} (hF : 2 ≤ F) (hff : FreshAllocator F ff)
    {s : State} {k : Int} {L : List Int} {pno : Int} (mode : Char) (inv : RunInv s k L)
    (hk : 0 < k) (hin : s.inTable pno) :
    ∃ s' fr L', requestPage ff s pno mode k = .ok s' fr ∧ RunInv s' (k + 1) L' ∧
      s'.nPages = s.nPages ∧ s'.replacePolicy = s.replacePolicy := by
  suffices h : ∃ s' fr L', requestPage ff s pno mode k = .ok s' fr ∧ RunInv s' (k + 1) L' ∧
      s'.nPages = s.nPages by
    obtain ⟨s', fr, L', h1, h2, h3⟩ := h
    exact ⟨s', fr, L', h1, h2, h3, (request_data h1).2.1⟩
  by_cases hst : (s.PageTable pno).status = IN_MEMORY
  · rcases inv.policy with hpol | hpol
    · obtain ⟨s', fr, h1, h2, h3⟩ := step_hit_fifo ff mode inv hin hst hpol
      exact ⟨s', fr, L, h1, h2, h3⟩
    · obtain ⟨s', fr, M, h1, h2, h3⟩ := step_hit_lru ff mode inv hin hst hpol
      exact ⟨s', fr, _, h1, h2, h3⟩
  · have hlen : (loadedFrames (s.calls ++ [Call.countPageFault])).length = L.length := by
      rw [inv.length_eq]
      exact loadedFrames_length_congr (mem_loadedFrames_fault s.calls)
    have hall := hff (s.calls ++ [Call.countPageFault])
    by_cases hnone : ff (s.calls ++ [Call.countPageFault]) = NONE
    · have h2 : 2 ≤ L.length := by
        by_contra hlt
        rw [if_pos (by omega)] at hall
        exact hall.1 hnone
      obtain ⟨v, b, r, -, -, s', fr, sv, -, h1, h2, h3, -⟩ :=
        step_fault_evict mode inv hk hin hst hnone h2
      exact ⟨s', fr, _, h1, h2, h3⟩
    · have hlt : (loadedFrames (s.calls ++ [Call.countPageFault])).length < F := by
        by_contra hge
        rw [if_neg hge] at hall
        exact hnone hall
      rw [if_pos hlt] at hall
      have hfresh : ff (s.calls ++ [Call.countPageFault]) ∉ loadedFrames s.calls :=
        fun h => hall.2 ((mem_loadedFrames_fault s.calls _).2 h)
      obtain ⟨s', fr, h1, h2, h3⟩ := step_fault_free mode inv hk hin hst hnone hfresh
      exact ⟨s', fr, _, h1, h2, h3⟩

theorem timed_length : ∀ (t : Int) (refs : List (Int × Char)), (timed t refs).length = refs.length
  | _, [] => rfl
  | t, (pno, mode) :: rest => by
    simp only [timed, List.length_cons, timed_length (t + 1) rest]

theorem run_inv {F : Nat} {ff : List Call → Int} (hF : 2 ≤ F) (hff : FreshAllocator F ff) :
    ∀ (refs : List (Int × Char)) (s : State) (k : Int) (L : List Int),
      RunInv s k L → 0 < k → (∀ r ∈ refs, 0 ≤ r.1 ∧ r.1 < s.nPages) →
      ∃ s' L', runTrace ff s (timed k refs) = .ok s' () ∧
        RunInv s' (k + refs.length) L' ∧ s'.nPages = s.nPages ∧
        s'.replacePolicy = s.replacePolicy
  | [], s, k, L, inv, _, _ => ⟨s, L, rfl, by simpa using inv, rfl, rfl⟩
  | (pno, mode) :: rest, s, k, L, inv, hk, hv => by
    obtain ⟨s1, fr, L1, h1, inv1, n1, p1⟩ :=
      step hF hff mode inv hk (hv (pno, mode) (List.mem_cons_self _ _))
    obtain ⟨s', L', h2, inv2, n2, p2⟩ := run_inv hF hff rest s1 (k + 1) L1 inv1 (by omega)
      (fun r hr => by rw [n1]; exact hv r (List.mem_cons_of_mem _ hr))
    refine ⟨s', L', ?_, ?_, by rw [n2, n1], by rw [p2, p1]⟩
    · simp only [timed, runTrace, h1, h2]
    · have e : k + 1 + (rest.length : Int) = k + ((pno, mode) :: rest).length := by
        simp only [List.length_cons]
        push_cast
        ring
      rw [← e]
      exact inv2

/-- After at least one reference, a reference run has returned and satisfies the invariant. -/
theorem reference_inv {F : Nat} {ff : List Call → Int} (hF : 2 ≤ F)
    (hff : FreshAllocator F ff) (mem : Int → PTE) {policy : Policy}
    (hpol : policy = .REPL_FIFO ∨ policy = .REPL_LRU) {np : Int}
    {refs : List (Int × Char)} (hne : refs ≠ [])
    (hv : ∀ r ∈ refs, 0 ≤ r.1 ∧ r.1 < np) :
    ∃ s' L', referenceRun ff mem policy np refs = .ok s' () ∧
      RunInv s' refs.length L' ∧ s'.nPages = np ∧ s'.replacePolicy = policy := by
  match refs, hne with
  | (pno, mode) :: rest, _ =>
    obtain ⟨s1, fr, h1, inv1, n1⟩ :=
      step_first hF hff mem hpol mode (hv (pno, mode) (List.mem_cons_self _ _))
    have p1 : s1.replacePolicy = policy := (request_data h1).2.1
    obtain ⟨s', L', h2, inv2, n2, p2⟩ := run_inv hF hff rest s1 1 [pno] inv1 (by omega)
      (fun r hr => by rw [n1]; exact hv r (List.mem_cons_of_mem _ hr))
    refine ⟨s', L', ?_, ?_, by rw [n2, n1], by rw [p2, p1]⟩
    · simp only [referenceRun, timed, runTrace, h1]
      exact h2
    · have e : (1 : Int) + (rest.length : Int) = (((pno, mode) :: rest).length : Nat) := by
        simp only [List.length_cons]
        push_cast
        ring
      rw [← e]
      exact inv2

/-! ### What the invariant says about the walk from `replace_head` -/

theorem RunInv.resident_iff {s : State} {k : Int} {L : List Int} (inv : RunInv s k L)
    (p : Int) : p ∈ L ↔ resident s p := by
  constructor
  · intro hp
    exact ⟨inv.mem_inTable hp, inv.status p hp⟩
  · intro hp
    exact (inv.mem_iff hp.1).2 hp.2

theorem RunInv.length_eq_residentCount {s : State} {k : Int} {L : List Int}
    (inv : RunInv s k L) : L.length = residentCount s := by
  have hperm : (L.map Int.toNat).Perm ((List.range s.nPages.toNat).filter
      (fun (i : Nat) => decide ((s.PageTable (i : Int)).status = IN_MEMORY))) := by
    apply (List.perm_ext_iff_of_nodup ?_ ((List.nodup_range _).filter _)).2
    · intro i
      simp only [List.mem_map, List.mem_filter, List.mem_range, decide_eq_true_eq]
      constructor
      · rintro ⟨p, hp, rfl⟩
        have h0 := inv.links.nonneg p hp
        have h1 := inv.inTable p hp
        refine ⟨by omega, ?_⟩
        rw [Int.toNat_of_nonneg h0]
        exact inv.status p hp
      · rintro ⟨hi, hst⟩
        refine ⟨(i : Int), ?_, by simp⟩
        apply (inv.mem_iff ⟨by omega, by omega⟩).2 hst
    · apply List.Nodup.map_on ?_ inv.links.nodup
      intro x hx y hy hxy
      have := inv.links.nonneg x hx
      have := inv.links.nonneg y hy
      omega
  have := hperm.length_eq
  rw [List.length_map] at this
  exact this

theorem RunInv.walk {s : State} {k : Int} {L : List Int} (inv : RunInv s k L) (fuel : Nat)
    (hf : s.nPages.toNat < fuel) : walkFrom s.nxt fuel s.replace_head = L := by
  have hlen : L.length ≤ s.nPages.toNat := by
    rw [inv.length_eq_residentCount, residentCount]
    refine (List.length_filter_le _ _).trans ?_
    rw [List.length_range]
  have hhd : s.replace_head = L.headD (-1) := by
    have := inv.links.head
    cases L with
    | nil => simp at this
    | cons a r =>
      simp only [List.head?_cons, Option.some.injEq] at this
      rw [← this]
      rfl
  rw [hhd]
  exact walkFrom_eq L fuel inv.links.next (fun p hp => inv.links.mem_ne hp) (by omega)

theorem RunInv.orderList_eq {s : State} {k : Int} {L : List Int} (inv : RunInv s k L) :
    orderList s = L :=
  inv.walk _ (Nat.lt_succ_self _)

theorem RunInv.head_prev {s : State} {k : Int} {L : List Int} (inv : RunInv s k L) :
    (s.PageTable s.replace_head).prev = -1 := by
  have h1 := inv.links.head
  have h2 := inv.links.prev
  cases L with
  | nil => simp at h1
  | cons a r =>
    simp only [List.head?_cons, Option.some.injEq] at h1
    rw [← h1]
    exact h2.1

theorem RunInv.tail_next {s : State} {k : Int} {L : List Int} (inv : RunInv s k L) :
    (s.PageTable s.replace_tail).next = -1 := by
  obtain ⟨L0, hL⟩ := getLast?_eq_some_append inv.links.last
  exact (inv.links.split (A := L0) (B := []) hL).1

/-- C1 (order-list completeness): in a reference run under FIFO or LRU over a memory of
`F >= 2` frames, with valid page numbers (so `np >= 1`), after every request the run has
returned and the walk along `next` from `replace_head` has no repetition, visits exactly the
resident pages, ends at `replace_tail` whose `next` is `-1` (more fuel does not lengthen
it), the head's `prev` is `-1`, and its length is the number of resident pages. -/
theorem order_list_complete {F : Nat} {ff : List Call → Int} (hF : 2 ≤ F)
    (hff : FreshAllocator F ff) (mem : Int → PTE) (policy : Policy)
    (hpol : policy = .REPL_FIFO ∨ policy = .REPL_LRU) (np : Int)
    (refs : List (Int × Char)) (hne : refs ≠ [])
    (hv : ∀ r ∈ refs, 0 ≤ r.1 ∧ r.1 < np) :
    ∃ s', referenceRun ff mem policy np refs = .ok s' () ∧
      (orderList s').Nodup ∧
      (∀ p, p ∈ orderList s' ↔ resident s' p) ∧
      (orderList s').getLast? = some s'.replace_tail ∧
      (∀ fuel, s'.nPages.toNat < fuel →
        walkFrom s'.nxt fuel s'.replace_head = orderList s') ∧
      (s'.PageTable s'.replace_head).prev = -1 ∧
      (s'.PageTable s'.replace_tail).next = -1 ∧
      (orderList s').length = residentCount s' := by
  obtain ⟨s', L', hrun, inv, -, -⟩ := reference_inv hF hff mem hpol hne hv
  refine ⟨s', hrun, ?_⟩
  rw [inv.orderList_eq]
  exact ⟨inv.links.nodup, inv.resident_iff, inv.links.last, inv.walk, inv.head_prev,
    inv.tail_next, inv.length_eq_residentCount⟩

/-! ### Victims, frames -/

/-- In a reference run, a fault with no free frame evicts the oldest page of the list. -/
theorem victim_oldest {F : Nat} {ff : List Call → Int} (hF : 2 ≤ F)
    (hff : FreshAllocator F ff) (mem : Int → PTE) {policy : Policy}
    (hpol : policy = .REPL_FIFO ∨ policy = .REPL_LRU) {np : Int}
    (refs : List (Int × Char)) (hv : ∀ r ∈ refs, 0 ≤ r.1 ∧ r.1 < np)
    {pno : Int} (mode : Char) (hin : 0 ≤ pno ∧ pno < np) :
    ∃ s, referenceRun ff mem policy np refs = .ok s () ∧
      ((s.PageTable pno).status ≠ IN_MEMORY → ff (s.calls ++ [Call.countPageFault]) = NONE →
        ∃ v sv s' fr,
          findVictim ((s.call .countPageFault).call .findFreeFrame) refs.length = .ok sv v ∧
          requestPage ff s pno mode refs.length = .ok s' fr ∧
          resident s v ∧
          (∀ q, resident s q → q ≠ v → ageOf policy (s.dat v) < ageOf policy (s.dat q)) ∧
          (s'.PageTable v).status = ON_DISK ∧
          (∀ q, resident s q → q ≠ v → resident s' q) ∧
          fr = (s.PageTable v).frame ∧ (s'.PageTable pno).frame = (s.PageTable v).frame) := by
  by_cases hne : refs = []
  · subst hne
    refine ⟨initPageTable mem policy np, rfl, ?_⟩
    intro _ hnone
    exact absurd hnone (hff.first hF)
  · obtain ⟨s, L, hrun, inv, hn, hp⟩ := reference_inv hF hff mem hpol hne hv
    refine ⟨s, hrun, ?_⟩
    intro hst hnone
    have hk : (0 : Int) < refs.length := by
      have : 0 < refs.length := List.length_pos.2 hne
      omega
    have hin' : s.inTable pno := by
      simp only [State.inTable, hn]
      exact hin
    have hlen : (loadedFrames (s.calls ++ [Call.countPageFault])).length = L.length := by
      rw [inv.length_eq]
      exact loadedFrames_length_congr (mem_loadedFrames_fault s.calls)
    have h2 : 2 ≤ L.length := by
      by_contra hlt
      have hall := hff (s.calls ++ [Call.countPageFault])
      rw [if_pos (by omega)] at hall
      exact hall.1 hnone
    obtain ⟨v, b, r, hL, hvp, s', fr, sv, hfv, hreq, inv', hn', hfr, hvs, hpf⟩ :=
      step_fault_evict mode inv hk hin' hst hnone h2
    refine ⟨v, sv, s', fr, hfv, hreq, ?_, ?_, hvs, ?_, hfr, hpf⟩
    · apply (inv.resident_iff v).1
      rw [hL]
      exact List.mem_cons_self _ _
    · intro q hq hqv
      have hqL := (inv.resident_iff q).2 hq
      rw [hL] at hqL
      have hqM : q ∈ b :: r := by
        rcases List.mem_cons.1 hqL with h | h
        · exact absurd h hqv
        · exact h
      have hord := inv.ordered
      rw [hL, hp] at hord
      exact List.rel_of_pairwise_cons hord hqM
    · intro q hq hqv
      have hqL := (inv.resident_iff q).2 hq
      rw [hL] at hqL
      apply (inv'.resident_iff q).1
      rcases List.mem_cons.1 hqL with h | h
      · exact absurd h hqv
      · exact List.mem_append_left _ h

/-- C2 (FIFO victim): in a reference run under FIFO over `F >= 2` frames, the run has
returned, and a next request that faults while `findFreeFrame` returns `NONE` returns after
evicting the victim `v` that `findVictim` gives: `v` was resident, its `loadTime` was
smaller than that of every other resident page, it is `ON_DISK` afterwards while the other
resident pages stay resident, and its frame is the one given to the requested page. -/
theorem fifo_victim {F : Nat} {ff : List Call → Int} (hF : 2 ≤ F)
    (hff : FreshAllocator F ff) (mem : Int → PTE) (np : Int)
    (refs : List (Int × Char)) (hv : ∀ r ∈ refs, 0 ≤ r.1 ∧ r.1 < np)
    (pno : Int) (mode : Char) (hin : 0 ≤ pno ∧ pno < np) :
    ∃ s, referenceRun ff mem .REPL_FIFO np refs = .ok s () ∧
      ((s.PageTable pno).status ≠ IN_MEMORY → ff (s.calls ++ [Call.countPageFault]) = NONE →
        ∃ v sv s' fr,
          findVictim ((s.call .countPageFault).call .findFreeFrame) refs.length = .ok sv v ∧
          requestPage ff s pno mode refs.length = .ok s' fr ∧
          resident s v ∧
          (∀ q, resident s q → q ≠ v →
            (s.PageTable v).loadTime < (s.PageTable q).loadTime) ∧
          (s'.PageTable v).status = ON_DISK ∧
          (∀ q, resident s q → q ≠ v → resident s' q) ∧
          fr = (s.PageTable v).frame ∧ (s'.PageTable pno).frame = (s.PageTable v).frame) :=
  victim_oldest hF hff mem (Or.inl rfl) refs hv mode hin

/-- C3 (LRU victim): in a reference run under LRU over `F >= 2` frames, the run has
returned, and a next request that faults while `findFreeFrame` returns `NONE` returns after
evicting the victim `v` that `findVictim` gives: `v` was resident, its `accessTime` was
smaller than that of every other resident page, it is `ON_DISK` afterwards while the other
resident pages stay resident, and its frame is the one given to the requested page. -/
theorem lru_victim {F : Nat} {ff : List Call → Int} (hF : 2 ≤ F)
    (hff : FreshAllocator F ff) (mem : Int → PTE) (np : Int)
    (refs : List (Int × Char)) (hv : ∀ r ∈ refs, 0 ≤ r.1 ∧ r.1 < np)
    (pno : Int) (mode : Char) (hin : 0 ≤ pno ∧ pno < np) :
    ∃ s, referenceRun ff mem .REPL_LRU np refs = .ok s () ∧
      ((s.PageTable pno).status ≠ IN_MEMORY → ff (s.calls ++ [Call.countPageFault]) = NONE →
        ∃ v sv s' fr,
          findVictim ((s.call .countPageFault).call .findFreeFrame) refs.length = .ok sv v ∧
          requestPage ff s pno mode refs.length = .ok s' fr ∧
          resident s v ∧
          (∀ q, resident s q → q ≠ v →
            (s.PageTable v).accessTime < (s.PageTable q).accessTime) ∧
          (s'.PageTable v).status = ON_DISK ∧
          (∀ q, resident s q → q ≠ v → resident s' q) ∧
          fr = (s.PageTable v).frame ∧ (s'.PageTable pno).frame = (s.PageTable v).frame) :=
  victim_oldest hF hff mem (Or.inr rfl) refs hv mode hin

/-- C4 (status/frame correspondence): in a reference run under FIFO or LRU over `F >= 2`
frames, after `initPageTable` and after every request the run has returned and every entry
of the table has a frame different from `NONE` exactly when its status is `IN_MEMORY`. -/
theorem status_frame {F : Nat} {ff : List Call → Int} (hF : 2 ≤ F)
    (hff : FreshAllocator F ff) (mem : Int → PTE) (policy : Policy)
    (hpol : policy = .REPL_FIFO ∨ policy = .REPL_LRU) (np : Int)
    (refs : List (Int × Char)) (hv : ∀ r ∈ refs, 0 ≤ r.1 ∧ r.1 < np) :
    ∃ s', referenceRun ff mem policy np refs = .ok s' () ∧
      ∀ p, s'.inTable p →
        ((s'.PageTable p).frame ≠ NONE ↔ (s'.PageTable p).status = IN_MEMORY) := by
  by_cases hne : refs = []
  · subst hne
    refine ⟨initPageTable mem policy np, rfl, ?_⟩
    intro p hp
    have hp' : 0 ≤ p ∧ p < np := hp
    simp only [initPageTable, hp', and_self, if_true]
    constructor
    · intro h
      exact absurd rfl h
    · intro h
      revert h
      decide
  · obtain ⟨s, L, hrun, inv, -, -⟩ := reference_inv hF hff mem hpol hne hv
    refine ⟨s, hrun, ?_⟩
    intro p hp
    by_cases hpL : p ∈ L
    · exact ⟨fun _ => inv.status p hpL, fun _ => inv.frameSome p hpL⟩
    · have hab := inv.absent p hp hpL
      constructor
      · intro h
        exact absurd hab.2 h
      · intro h
        exact absurd ((inv.mem_iff hp).2 h) hpL

/-- C5 (frame exclusivity): in a reference run under FIFO or LRU over `F >= 2` frames, after
every request the run has returned and no two distinct resident pages have the same
frame. -/
theorem frame_exclusive {F : Nat} {ff : List Call → Int} (hF : 2 ≤ F)
    (hff : FreshAllocator F ff) (mem : Int → PTE) (policy : Policy)
    (hpol : policy = .REPL_FIFO ∨ policy = .REPL_LRU) (np : Int)
    (refs : List (Int × Char)) (hne : refs ≠ [])
    (hv : ∀ r ∈ refs, 0 ≤ r.1 ∧ r.1 < np) :
    ∃ s', referenceRun ff mem policy np refs = .ok s' () ∧
      ∀ p q, resident s' p → resident s' q → p ≠ q →
        (s'.PageTable p).frame ≠ (s'.PageTable q).frame := by
  obtain ⟨s, L, hrun, inv, -, -⟩ := reference_inv hF hff mem hpol hne hv
  refine ⟨s, hrun, ?_⟩
  intro p q hp hq hpq e
  have hpL := (inv.resident_iff p).2 hp
  have hqL := (inv.resident_iff q).2 hq
  have e' : (fun x => (s.dat x).frame) p = (fun x => (s.dat x).frame) q := e
  exact hpq (List.inj_on_of_nodup_map inv.frameNodup hpL hqL e')

/-- The allocator `firstFree F` is one of a memory of `F` frames. -/
theorem firstFree_fresh (F : Nat) : FreshAllocator F (firstFree F) := by
  intro calls
  by_cases hlt : (loadedFrames calls).length < F
  · rw [if_pos hlt]
    unfold firstFree
    rw [if_pos hlt]
    cases hf : (List.range F).find?
        (fun (i : Nat) => decide ((i : Int) ∉ loadedFrames calls)) with
    | none =>
      exfalso
      rw [List.find?_eq_none] at hf
      have hsub : (List.range F).map (fun (i : Nat) => (i : Int)) ⊆ loadedFrames calls := by
        intro x hx
        rw [List.mem_map] at hx
        obtain ⟨i, hi, rfl⟩ := hx
        have := hf i hi
        simpa using this
      have hnd : ((List.range F).map (fun (i : Nat) => (i : Int))).Nodup :=
        (List.nodup_range F).map (fun a b h => by simpa using h)
      have := (List.subperm_of_subset hnd hsub).length_le
      rw [List.length_map, List.length_range] at this
      omega
    | some i =>
      have := List.find?_some hf
      simp only [decide_eq_true_eq] at this
      refine ⟨?_, this⟩
      simp only [NONE]
      omega
  · rw [if_neg hlt]
    unfold firstFree
    rw [if_neg hlt]

/-! ### Single requests: result, frame -/

/-- C12 (result and timestamps of a request): after a request that returns, the requested
page is `IN_MEMORY`, its `accessTime` is `time`, the returned value is its `frame`, and its
`loadTime` is `time` if the request faulted and unchanged if it hit. The frame is the one
`findFreeFrame` returned, or the victim's when it returned `NONE`, or on a hit the one the
page had. -/
theorem request_result (ff : List Call → Int) (s : State) (pno : Int) (mode : Char)
    (time : Int) (s' : State) (fr : Int) (h : requestPage ff s pno mode time = .ok s' fr) :
    (s'.PageTable pno).status = IN_MEMORY ∧
    (s'.PageTable pno).accessTime = time ∧
    fr = (s'.PageTable pno).frame ∧
    ((s.PageTable pno).status ≠ IN_MEMORY → (s'.PageTable pno).loadTime = time) ∧
    ((s.PageTable pno).status = IN_MEMORY →
      (s'.PageTable pno).loadTime = (s.PageTable pno).loadTime ∧
      fr = (s.PageTable pno).frame) ∧
    ((s.PageTable pno).status ≠ IN_MEMORY → ff (s.calls ++ [Call.countPageFault]) ≠ NONE →
      fr = ff (s.calls ++ [Call.countPageFault])) ∧
    ((s.PageTable pno).status ≠ IN_MEMORY → ff (s.calls ++ [Call.countPageFault]) = NONE →
      ∃ sv v, findVictim ((s.call .countPageFault).call .findFreeFrame) time = .ok sv v ∧
        fr = (s.PageTable v).frame) := by
  have hne1 : ¬ (IN_MEMORY = NOT_USED ∨ IN_MEMORY = ON_DISK) := by decide
  obtain ⟨-, -, -, hfr, hc⟩ := request_data h
  have e1 : ∀ (u : State) (p : Int), (u.PageTable p).status = (u.dat p).status := fun _ _ => rfl
  have e2 : ∀ (u : State) (p : Int), (u.PageTable p).accessTime = (u.dat p).accessTime :=
    fun _ _ => rfl
  have e3 : ∀ (u : State) (p : Int), (u.PageTable p).loadTime = (u.dat p).loadTime :=
    fun _ _ => rfl
  have e4 : ∀ (u : State) (p : Int), (u.PageTable p).frame = (u.dat p).frame := fun _ _ => rfl
  rw [e1 s', e2 s', e3 s', e4 s']
  rcases hc with ⟨hst, hff, -, hd⟩ | ⟨hst, hff, sv, v, hv, -, -, hd⟩ | ⟨hst, -, hd⟩
  · have hst' : (s.PageTable pno).status ≠ IN_MEMORY := by
      intro h'
      rw [h'] at hst
      exact hne1 hst
    have hdp : s'.dat pno =
        ((s.dat pno).loaded (ff (s.calls ++ [Call.countPageFault])) time).accessed mode time := by
      rw [hd]
      simp only [if_true]
    rw [hdp] at hfr ⊢
    exact ⟨rfl, rfl, hfr, fun _ => rfl, fun h' => absurd h' hst', fun _ _ => hfr,
      fun _ h' => absurd h' hff⟩
  · have hst' : (s.PageTable pno).status ≠ IN_MEMORY := by
      intro h'
      rw [h'] at hst
      exact hne1 hst
    have hdp : s'.dat pno =
        ((if pno = v then (s.dat v).evicted else s.dat pno).loaded (s.dat v).frame
          time).accessed mode time := by
      rw [hd]
      simp only [if_true]
    rw [hdp] at hfr ⊢
    exact ⟨rfl, rfl, hfr, fun _ => rfl, fun h' => absurd h' hst', fun _ h' => absurd hff h',
      fun _ _ => ⟨sv, v, hv, hfr⟩⟩
  · have hdp : s'.dat pno = (s.dat pno).accessed mode time := by
      rw [hd]
      simp only [if_true]
    rw [hdp] at hfr ⊢
    exact ⟨hst, rfl, hfr, fun h' => absurd hst h', fun _ => ⟨rfl, hfr⟩,
      fun h' => absurd hst h', fun h' => absurd hst h'⟩

/-- C13 (a hit changes the order list only under LRU): under every policy other than LRU, a
request for a page of the table that is `IN_MEMORY` returns and leaves `replace_head`,
`replace_tail` and the `prev` and `next` of every entry unchanged. -/
theorem hit_keeps_list (ff : List Call → Int) (s : State) (pno : Int) (mode : Char)
    (time : Int) (hpol : s.replacePolicy ≠ .REPL_LRU) (hin : s.inTable pno)
    (hst : (s.PageTable pno).status = IN_MEMORY) :
    ∃ s' fr, requestPage ff s pno mode time = .ok s' fr ∧
      s'.replace_head = s.replace_head ∧ s'.replace_tail = s.replace_tail ∧
      ∀ j, (s'.PageTable j).next = (s.PageTable j).next ∧
        (s'.PageTable j).prev = (s.PageTable j).prev := by
  have hreq := requestPage_of_hit ff mode time hin hst (hit_other pno hpol)
  refine ⟨_, _, hreq, rfl, rfl, ?_⟩
  intro j
  have h1 := congrFun (nxt_accessed (s.call .countPageHit) pno mode time) j
  have h2 := congrFun (prv_accessed (s.call .countPageHit) pno mode time) j
  exact ⟨h1, h2⟩

/-- A request for another page does not make a page `IN_MEMORY`. -/
theorem request_other_status {ff : List Call → Int} {s s' : State} {pno t fr : Int}
    {mode : Char} (h : requestPage ff s pno mode t = .ok s' fr) {p : Int} (hp : p ≠ pno)
    (hst : (s.PageTable p).status = NOT_USED ∨ (s.PageTable p).status = ON_DISK) :
    (s'.PageTable p).status = NOT_USED ∨ (s'.PageTable p).status = ON_DISK := by
  obtain ⟨-, -, -, -, hc⟩ := request_data h
  have e1 : ∀ (u : State), (u.PageTable p).status = (u.dat p).status := fun _ => rfl
  rw [e1 s']
  rcases hc with ⟨-, -, -, hd⟩ | ⟨-, -, sv, v, -, -, -, hd⟩ | ⟨-, -, hd⟩
  · rw [hd]
    simp only [hp, if_false]
    exact hst
  · rw [hd]
    simp only [hp, if_false]
    by_cases hpv : p = v
    · simp only [hpv, if_true]
      exact Or.inr rfl
    · simp only [hpv, if_false]
      exact hst
  · rw [hd]
    simp only [hp, if_false]
    exact hst

/-- C15 (initial records): after `initPageTable(policy, np)`, `nPages` is `np`,
`replacePolicy` is `policy`, and every entry of the table is `NOT_USED`, not modified, with
frame and times `NONE` and both counters 0; hence, after any trace of requests that return,
a page not yet requested is not `IN_MEMORY`, and its first request counts a fault. -/
theorem initial_records (mem : Int → PTE) (policy : Policy) (np : Int) :
    (initPageTable mem policy np).nPages = np ∧
    (initPageTable mem policy np).replacePolicy = policy ∧
    (∀ i, 0 ≤ i → i < np →
      ((initPageTable mem policy np).PageTable i).status = NOT_USED ∧
      ((initPageTable mem policy np).PageTable i).modified = 0 ∧
      ((initPageTable mem policy np).PageTable i).frame = NONE ∧
      ((initPageTable mem policy np).PageTable i).accessTime = NONE ∧
      ((initPageTable mem policy np).PageTable i).loadTime = NONE ∧
      ((initPageTable mem policy np).PageTable i).nPeeks = 0 ∧
      ((initPageTable mem policy np).PageTable i).nPokes = 0) ∧
    (∀ ff trace s', runTrace ff (initPageTable mem policy np) trace = .ok s' () →
      ∀ p, 0 ≤ p → p < np → (∀ r ∈ trace, r.1 ≠ p) →
        ((s'.PageTable p).status = NOT_USED ∨ (s'.PageTable p).status = ON_DISK) ∧
        ∀ mode time s'' fr, requestPage ff s' p mode time = .ok s'' fr →
          nFaults s'' = nFaults s' + 1 ∧ nHits s'' = nHits s') := by
  refine ⟨rfl, rfl, ?_, ?_⟩
  · intro i h0 h1
    simp only [initPageTable, h0, h1, and_self, if_true]
  · intro ff trace s' hrun p h0 h1 hp
    have main : ∀ (trace : List (Int × Char × Int)) (s : State),
        runTrace ff s trace = .ok s' () → (∀ r ∈ trace, r.1 ≠ p) →
        ((s.PageTable p).status = NOT_USED ∨ (s.PageTable p).status = ON_DISK) →
        ((s'.PageTable p).status = NOT_USED ∨ (s'.PageTable p).status = ON_DISK) := by
      intro trace
      induction trace with
      | nil =>
        intro s h _ hst
        simp only [runTrace, Outcome.ok.injEq, and_true] at h
        subst h
        exact hst
      | cons r rest ih =>
        intro s h hne hst
        obtain ⟨pno, mode, t⟩ := r
        obtain ⟨s1, fr, hreq, hrest⟩ := runTrace_cons_ok h
        have hpp : p ≠ pno := fun e => hne (pno, mode, t) (List.mem_cons_self _ _) e.symm
        exact ih s1 hrest (fun r hr => hne r (List.mem_cons_of_mem _ hr))
          (request_other_status hreq hpp hst)
    have hst := main trace _ hrun hp (Or.inl (by simp only [initPageTable, h0, h1, and_self,
      if_true]))
    refine ⟨hst, ?_⟩
    intro mode time s'' fr hreq
    exact (request_counts hreq).1 hst

/-- C20 (frame of a request): after a request that returns, the seven data fields of every
page other than the requested one and, on an eviction, the victim, are unchanged; a hit
changes none of `status`, `frame` and `loadTime` of any page and its only call is
`countPageHit`. -/
theorem request_frame (ff : List Call → Int) (s : State) (pno : Int) (mode : Char)
    (time : Int) (s' : State) (fr : Int) (h : requestPage ff s pno mode time = .ok s' fr) :
    ((s.PageTable pno).status = IN_MEMORY →
      (∀ j, j ≠ pno → (s'.PageTable j).data = (s.PageTable j).data) ∧
      (∀ j, (s'.PageTable j).status = (s.PageTable j).status ∧
        (s'.PageTable j).frame = (s.PageTable j).frame ∧
        (s'.PageTable j).loadTime = (s.PageTable j).loadTime) ∧
      s'.calls = s.calls ++ [Call.countPageHit]) ∧
    ((s.PageTable pno).status ≠ IN_MEMORY → ff (s.calls ++ [Call.countPageFault]) ≠ NONE →
      ∀ j, j ≠ pno → (s'.PageTable j).data = (s.PageTable j).data) ∧
    ((s.PageTable pno).status ≠ IN_MEMORY → ff (s.calls ++ [Call.countPageFault]) = NONE →
      ∃ sv v, findVictim ((s.call .countPageFault).call .findFreeFrame) time = .ok sv v ∧
        ∀ j, j ≠ pno → j ≠ v → (s'.PageTable j).data = (s.PageTable j).data) := by
  have hne1 : ¬ (IN_MEMORY = NOT_USED ∨ IN_MEMORY = ON_DISK) := by decide
  obtain ⟨-, -, -, -, hc⟩ := request_data h
  have e0 : ∀ (u : State) (j : Int), (u.PageTable j).data = u.dat j := fun _ _ => rfl
  have e1 : ∀ (u : State) (j : Int), (u.PageTable j).status = (u.dat j).status := fun _ _ => rfl
  have e3 : ∀ (u : State) (j : Int), (u.PageTable j).loadTime = (u.dat j).loadTime :=
    fun _ _ => rfl
  have e4 : ∀ (u : State) (j : Int), (u.PageTable j).frame = (u.dat j).frame := fun _ _ => rfl
  rcases hc with ⟨hst, hff, -, hd⟩ | ⟨hst, hff, sv, v, hv, -, -, hd⟩ | ⟨hst, hcalls, hd⟩
  · have hst' : (s.PageTable pno).status ≠ IN_MEMORY := by
      intro h'
      rw [h'] at hst
      exact hne1 hst
    refine ⟨fun h' => absurd h' hst', fun _ _ j hj => ?_, fun _ h' => absurd h' hff⟩
    rw [e0, e0, hd]
    simp only [hj, if_false]
  · have hst' : (s.PageTable pno).status ≠ IN_MEMORY := by
      intro h'
      rw [h'] at hst
      exact hne1 hst
    refine ⟨fun h' => absurd h' hst', fun _ h' => absurd hff h',
      fun _ _ => ⟨sv, v, hv, fun j hj hjv => ?_⟩⟩
    rw [e0, e0, hd]
    simp only [hj, hjv, if_false]
  · refine ⟨fun _ => ⟨fun j hj => ?_, fun j => ?_, hcalls⟩, fun h' => absurd hst h',
      fun h' => absurd hst h'⟩
    · rw [e0, e0, hd]
      simp only [hj, if_false]
    · rw [e1, e3, e4, e1, e3, e4, hd]
      by_cases hj : j = pno
      · rw [hj]
        simp only [if_true]
        exact ⟨rfl, rfl, rfl⟩
      · simp only [hj, if_false, and_self]

/-! ### Initial cursors, victim selection -/

/-- C16 as stated fails: after `initPageTable` of a 4-page table the cursors are not both
`-1`, and the walk from `replace_head` visits page 0, which is not `IN_MEMORY`. -/
theorem initial_cursors_not_sentinel :
    ¬ ((initPageTable junk .REPL_FIFO 4).replace_head = -1 ∧
        (initPageTable junk .REPL_FIFO 4).replace_tail = -1) ∧
    ¬ (∀ p, p ∈ orderList (initPageTable junk .REPL_FIFO 4) ↔
        resident (initPageTable junk .REPL_FIFO 4) p) := by
  constructor
  · decide
  · intro h
    have h0 : (0 : Int) ∈ orderList (initPageTable junk .REPL_FIFO 4) := by decide
    have := ((h 0).1 h0).2
    revert this
    decide

/-- C16, amended: after `initPageTable(policy, np)`, `replace_head` is 0 and `replace_tail`
is `np - 1`; no page is `IN_MEMORY`, and the walk from `replace_head` starts at page 0. -/
theorem initial_cursors (mem : Int → PTE) (policy : Policy) (np : Int) :
    (initPageTable mem policy np).replace_head = 0 ∧
    (initPageTable mem policy np).replace_tail = np - 1 ∧
    (∀ p, ¬ resident (initPageTable mem policy np) p) ∧
    (orderList (initPageTable mem policy np)).head? = some 0 := by
  refine ⟨rfl, rfl, ?_, ?_⟩
  · intro p hp
    have hin : 0 ≤ p ∧ p < np := hp.1
    have hst := hp.2
    simp only [initPageTable, hin, and_self, if_true] at hst
    revert hst
    decide
  · have h0 : ¬ ((0 : Int) = -1) := by decide
    simp only [orderList, walkFrom, h0, if_false, List.head?_cons]
    rfl

theorem findVictim_total {s : State} (t : Int) (h1 : s.inTable s.replace_head)
    (h2 : s.inTable (s.PageTable s.replace_head).next) :
    ∃ sv v, findVictim s t = .ok sv v := by
  cases hr : findVictim s t with
  | ok sv v => exact ⟨sv, v, rfl⟩
  | fail e s' =>
    exfalso
    unfold findVictim at hr
    simp only [] at hr
    rw [if_neg (not_not_intro h1)] at hr
    rw [if_neg (show ¬¬ State.inTable
      { s with replace_head := (s.PageTable s.replace_head).next }
      (s.PageTable s.replace_head).next from not_not_intro h2)] at hr
    split at hr <;> cases hr

theorem findVictim_fail_bounds {s s' : State} {t : Int} {e : Fatal}
    (h : findVictim s t = .fail e s') :
    ¬ (s.inTable s.replace_head ∧ s.inTable (s.PageTable s.replace_head).next) := by
  intro hb
  obtain ⟨sv, v, hv⟩ := findVictim_total t hb.1 hb.2
  rw [hv] at h
  cases h

theorem findVictim_clock {s sv : State} {t v : Int} (hpol : s.replacePolicy = .REPL_CLOCK)
    (h : findVictim s t = .ok sv v) : v = 0 := by
  unfold findVictim at h
  simp only [] at h
  split at h
  · cases h
  · split at h
    · cases h
    · split at h <;> rename_i hp <;> simp only [modify_replacePolicy] at hp
      · rw [hpol] at hp
        cases hp
      · rw [hpol] at hp
        cases hp
      · simp only [Outcome.ok.injEq] at h
        exact h.2.symm

/-- C17 (CLOCK returns a constant): under `REPL_CLOCK`, in every state, `findVictim` with
its table accesses carried out returns page 0, with `replace_head` advanced to the old
head's `next` and the data fields and the `next` links of all entries unchanged. The
guarded `findVictim` returns the same state and page 0 whenever it returns, which it does
whenever the old head and its `next` index the table; otherwise it stops at an
out-of-bounds access. -/
theorem clock_constant (s : State) (time : Int) (hpol : s.replacePolicy = .REPL_CLOCK) :
    (findVictim_raw s time).2 = 0 ∧
    (findVictim_raw s time).1.replace_head = (s.PageTable s.replace_head).next ∧
    (findVictim_raw s time).1.dat = s.dat ∧ (findVictim_raw s time).1.nxt = s.nxt ∧
    (∀ sv v, findVictim s time = .ok sv v → sv = (findVictim_raw s time).1 ∧ v = 0) ∧
    (s.inTable s.replace_head → s.inTable (s.PageTable s.replace_head).next →
      ∃ sv, findVictim s time = .ok sv 0) ∧
    (∀ e s', findVictim s time = .fail e s' →
      e = .OutOfBounds ∧
      ¬ (s.inTable s.replace_head ∧ s.inTable (s.PageTable s.replace_head).next)) := by
  obtain ⟨-, -, -, r4, -, r6, r7⟩ := findVictim_raw_effect s time
  refine ⟨?_, r4, r6, r7, ?_, ?_, ?_⟩
  · rw [findVictim_raw_eq, if_pos hpol]
  · intro sv v h
    rw [findVictim_raw_of_ok h]
    exact ⟨rfl, findVictim_clock hpol h⟩
  · intro h1 h2
    obtain ⟨sv, v, hv⟩ := findVictim_total time h1 h2
    have := findVictim_clock hpol hv
    subst this
    exact ⟨sv, hv⟩
  · intro e s' h
    exact ⟨findVictim_fail h, findVictim_fail_bounds h⟩

/-- On a list of one entry `findVictim` sets `replace_head` to `-1` and then indexes the
table with it. -/
theorem findVictim_single {s : State} {v : Int} (t : Int) (hw : WellFormed s [v]) :
    findVictim s t = .fail .OutOfBounds { s with replace_head := -1 } := by
  have hhd : s.replace_head = v := by
    have := hw.1.head
    simp only [List.head?_cons, Option.some.injEq] at this
    exact this.symm
  have hnx : (s.PageTable v).next = -1 := hw.1.next.1
  have hin : s.inTable v := ⟨hw.1.nonneg v (List.mem_singleton_self v),
    hw.2 v (List.mem_singleton_self v)⟩
  have hout : ¬ (0 ≤ (-1 : Int) ∧ (-1 : Int) < s.nPages) := by omega
  unfold findVictim
  simp only [hhd, hnx]
  rw [if_neg (not_not_intro hin)]
  rw [if_pos (show ¬ State.inTable { s with replace_head := -1 } (-1) from hout)]

/-- C18 fails on a list of one entry: with one frame, after the reference to page 0 the
list is `[0]`; `findVictim` then stops at an out-of-bounds access with `replace_head = -1`,
and so does the run that next references page 1. -/
theorem findVictim_one_entry :
    orderList (referenceRun (firstFree 1) junk .REPL_FIFO 4 [(0, 'r')]).state = [0] ∧
    (findVictim (referenceRun (firstFree 1) junk .REPL_FIFO 4 [(0, 'r')]).state 1).error? =
      some .OutOfBounds ∧
    (findVictim (referenceRun (firstFree 1) junk .REPL_FIFO 4
      [(0, 'r')]).state 1).state.replace_head = -1 ∧
    (referenceRun (firstFree 1) junk .REPL_FIFO 4 [(0, 'r'), (1, 'r')]).error? =
      some .OutOfBounds := by
  decide

/-! ### Insertion at the tail -/

/-- C19 fails on requests the code can receive, since the code tells the first insertion
by `time == 0` and not by the list being empty. The first request after `initPageTable`,
made at time 5 for page 2, returns with `replace_head` still 0, the page's `prev` set to the
initial `replace_tail` 3, and entry 3's `next` set to 2. A fault at time 0 on the list `[0]`
moves `replace_head` to the new page 1, whose `prev` is `-1`, and leaves the old tail's
`next` at `-1`. -/
theorem insert_depends_on_time :
    ((requestPage (firstFree 2) (initPageTable junk .REPL_FIFO 4) 2 'r' 5).isOk = true ∧
      (requestPage (firstFree 2) (initPageTable junk .REPL_FIFO 4) 2 'r'
        5).state.replace_head = 0 ∧
      (requestPage (firstFree 2) (initPageTable junk .REPL_FIFO 4) 2 'r'
        5).state.replace_tail = 2 ∧
      ((requestPage (firstFree 2) (initPageTable junk .REPL_FIFO 4) 2 'r'
        5).state.PageTable 2).prev = 3 ∧
      ((requestPage (firstFree 2) (initPageTable junk .REPL_FIFO 4) 2 'r'
        5).state.PageTable 2).next = -1 ∧
      ((requestPage (firstFree 2) (initPageTable junk .REPL_FIFO 4) 2 'r'
        5).state.PageTable 3).next = 2) ∧
    (orderList (runTrace (firstFree 2) (initPageTable junk .REPL_FIFO 4)
        [(0, 'r', 0)]).state = [0] ∧
      (requestPage (firstFree 2)
        (runTrace (firstFree 2) (initPageTable junk .REPL_FIFO 4) [(0, 'r', 0)]).state
        1 'r' 0).isOk = true ∧
      (requestPage (firstFree 2)
        (runTrace (firstFree 2) (initPageTable junk .REPL_FIFO 4) [(0, 'r', 0)]).state
        1 'r' 0).state.replace_head = 1 ∧
      ((requestPage (firstFree 2)
        (runTrace (firstFree 2) (initPageTable junk .REPL_FIFO 4) [(0, 'r', 0)]).state
        1 'r' 0).state.PageTable 1).prev = -1 ∧
      ((requestPage (firstFree 2)
        (runTrace (firstFree 2) (initPageTable junk .REPL_FIFO 4) [(0, 'r', 0)]).state
        1 'r' 0).state.PageTable 0).next = -1) := by
  decide

/-- What the insertion of lines 126-140 does: a request that faults on `pno` and returns
ends with `replace_tail = pno` and `pno.next = -1`. With `s1` the state in which the
insertion starts (after the victim selection, if any): when `time = 0`, `replace_head` is
`pno` and `pno.prev` is `-1`, and no link of another entry changes; when `time ≠ 0`,
`pno.prev` is the old tail, the old tail's `next` is `pno` unless the old tail is `pno`
itself, `replace_head` is unchanged and so are the other links of the other entries. -/
theorem insert_at_tail (ff : List Call → Int) (s : State) (pno : Int) (mode : Char)
    (time : Int) (s' : State) (fr : Int) (h : requestPage ff s pno mode time = .ok s' fr)
    (hst : (s.PageTable pno).status ≠ IN_MEMORY) :
    ∃ s1 fno,
      (if ff (s.calls ++ [Call.countPageFault]) = NONE then
          requestPage_evict ((s.call .countPageFault).call .findFreeFrame) time
        else .ok ((s.call .countPageFault).call .findFreeFrame)
          (ff (s.calls ++ [Call.countPageFault]))) = .ok s1 fno ∧
      s'.replace_tail = pno ∧ (s'.PageTable pno).next = -1 ∧
      (time = 0 →
        s'.replace_head = pno ∧ (s'.PageTable pno).prev = -1 ∧
        ∀ j, j ≠ pno → (s'.PageTable j).next = (s1.PageTable j).next ∧
          (s'.PageTable j).prev = (s1.PageTable j).prev) ∧
      (time ≠ 0 →
        s'.replace_head = s1.replace_head ∧ (s'.PageTable pno).prev = s1.replace_tail ∧
        (s1.replace_tail ≠ pno → (s'.PageTable s1.replace_tail).next = pno) ∧
        ∀ j, j ≠ pno →
          (j ≠ s1.replace_tail → (s'.PageTable j).next = (s1.PageTable j).next) ∧
          (s'.PageTable j).prev = (s1.PageTable j).prev) ∧
      (ff (s.calls ++ [Call.countPageFault]) ≠ NONE →
        s1.replace_head = s.replace_head ∧ s1.replace_tail = s.replace_tail ∧
        s1.PageTable = s.PageTable) := by
  obtain ⟨-, hcase⟩ := requestPage_inv h
  rcases hcase with ⟨-, s1, fno, s2, h1, h2, rfl, rfl⟩ | ⟨hst', -⟩
  · obtain ⟨-, -, -, l4, l5, -, l7, l8⟩ := load_inv h2
    have en : ∀ j, ((s2.modify pno (fun e => e.accessed mode time)).PageTable j).next =
        s2.nxt j := fun j => congrFun (nxt_accessed s2 pno mode time) j
    have ep : ∀ j, ((s2.modify pno (fun e => e.accessed mode time)).PageTable j).prev =
        s2.prv j := fun j => congrFun (prv_accessed s2 pno mode time) j
    have e1n : ∀ j, (s1.PageTable j).next = s1.nxt j := fun _ => rfl
    have e1p : ∀ j, (s1.PageTable j).prev = s1.prv j := fun _ => rfl
    refine ⟨s1, fno, h1, l5, ?_, ?_, ?_, ?_⟩
    · rw [en, l7]
      simp only [if_true]
    · intro ht
      refine ⟨by rw [modify_replace_head, l4, if_pos ht], ?_, ?_⟩
      · rw [ep, l8]
        simp only [if_true, ht]
      · intro j hj
        rw [en, ep, l7, l8, e1n, e1p]
        simp only [hj, if_false, ht, ne_eq, not_true_eq_false, false_and, and_self]
    · intro ht
      refine ⟨by rw [modify_replace_head, l4, if_neg ht], ?_, ?_, ?_⟩
      · rw [ep, l8]
        simp only [if_true, ht, if_false]
      · intro hne
        rw [en, l7]
        simp only [hne, if_false, ht, ne_eq, not_false_eq_true, and_self, if_true]
      · intro j hj
        rw [en, ep, l7, l8, e1n, e1p]
        simp only [hj, if_false, ht, ne_eq, not_false_eq_true, true_and, and_true]
        intro hjt
        simp only [hjt, if_false]
    · intro hne
      rw [if_neg hne] at h1
      simp only [Outcome.ok.injEq] at h1
      rw [← h1.1]
      exact ⟨rfl, rfl, rfl⟩
  · exact absurd hst' hst

/-! ### Well-formed lists: eviction and LRU hits -/

/-- A walk with any fuel visits an initial part of a well-formed list. -/
theorem walkFrom_take {nx : Int → Int} :
    ∀ (L : List Int) (fuel : Nat), NextChain nx L (-1) → (∀ p ∈ L, p ≠ -1) →
      walkFrom nx fuel (L.headD (-1)) = L.take fuel
  | [], fuel, _, _ => by
    cases fuel with
    | zero => rfl
    | succ n => simp [walkFrom]
  | a :: rest, fuel, hc, hne => by
    cases fuel with
    | zero => rfl
    | succ n =>
      have ha : a ≠ -1 := hne a (List.mem_cons_self _ _)
      have ih := walkFrom_take rest n hc.2 (fun p hp => hne p (List.mem_cons_of_mem _ hp))
      simp only [walkFrom, List.headD_cons, ha, if_false, hc.1, ih, List.take_succ_cons]

theorem Links.headD_eq {nx pv : Int → Int} {hd tl : Int} {L : List Int}
    (h : Links nx pv hd tl L) : hd = L.headD (-1) := by
  have := h.head
  cases L with
  | nil => simp at this
  | cons a r =>
    simp only [List.head?_cons, Option.some.injEq] at this
    rw [← this]
    rfl

/-- What is not in a well-formed list is not reached by a walk from its head. -/
theorem Links.not_reached {nx pv : Int → Int} {hd tl : Int} {L : List Int}
    (h : Links nx pv hd tl L) {v : Int} (hv : v ∉ L) (fuel : Nat) :
    v ∉ walkFrom nx fuel hd := by
  rw [h.headD_eq, walkFrom_take L fuel h.next (fun p hp => h.mem_ne hp)]
  exact fun hm => hv (List.mem_of_mem_take hm)

theorem length_le_of_bounds {L : List Int} {n : Int} (hnd : L.Nodup)
    (h0 : ∀ p ∈ L, 0 ≤ p) (h1 : ∀ p ∈ L, p < n) : L.length ≤ n.toNat := by
  have hnd' : (L.map Int.toNat).Nodup := by
    apply List.Nodup.map_on ?_ hnd
    intro x hx y hy hxy
    have := h0 x hx
    have := h0 y hy
    omega
  have hsub : L.map Int.toNat ⊆ List.range n.toNat := by
    intro i hi
    rw [List.mem_map] at hi
    obtain ⟨p, hp, rfl⟩ := hi
    have := h0 p hp
    have := h1 p hp
    rw [List.mem_range]
    omega
  have := (List.subperm_of_subset hnd' hsub).length_le
  rw [List.length_map, List.length_range] at this
  exact this

/-- The walk from `replace_head` gives a well-formed list back. -/
theorem WellFormed.walk_eq {s : State} {L : List Int} (hw : WellFormed s L) :
    orderList s = L := by
  have hlen := length_le_of_bounds hw.1.nodup hw.1.nonneg hw.2
  unfold orderList
  rw [hw.1.headD_eq]
  exact walkFrom_eq L _ hw.1.next (fun p hp => hw.1.mem_ne hp) (by omega)

theorem WellFormed.inTable_of_mem {s : State} {L : List Int} (hw : WellFormed s L) {p : Int}
    (hp : p ∈ L) : s.inTable p :=
  ⟨hw.1.nonneg p hp, hw.2 p hp⟩

theorem WellFormed.tail_in {s : State} {L : List Int} (hw : WellFormed s L) :
    s.replace_tail ∈ L := by
  obtain ⟨L0, h⟩ := getLast?_eq_some_append hw.1.last
  rw [h]
  simp

theorem erase_middle {A B : List Int} {p : Int} (hp : p ∉ A) :
    (A ++ p :: B).erase p = A ++ B := by
  rw [List.erase_append_right _ hp, List.erase_cons_head]

/-- C11 (eviction resets the victim and reuses its frame): under FIFO or LRU, on a
well-formed list of at least two resident pages, a request for a page of the table that is
`NOT_USED` or `ON_DISK`, made when `findFreeFrame` returns `NONE`, returns; the victim is the
old head `v`; afterwards `v` is `ON_DISK`, not modified, with frame and times `NONE`, no walk
from `replace_head` reaches it, and the requested page is `IN_MEMORY` in the frame `v` held,
which is the value returned. -/
theorem eviction_resets (ff : List Call → Int) (s : State) (pno : Int) (mode : Char)
    (time : Int) (L : List Int)
    (hpol : s.replacePolicy = .REPL_FIFO ∨ s.replacePolicy = .REPL_LRU)
    (hw : WellFormed s L) (hlen : 2 ≤ L.length)
    (hres : ∀ p ∈ L, (s.PageTable p).status = IN_MEMORY) (hin : s.inTable pno)
    (hst : (s.PageTable pno).status = NOT_USED ∨ (s.PageTable pno).status = ON_DISK)
    (hff : ff (s.calls ++ [Call.countPageFault]) = NONE) :
    ∃ s' fr sv,
      findVictim ((s.call .countPageFault).call .findFreeFrame) time =
        .ok sv s.replace_head ∧
      requestPage ff s pno mode time = .ok s' fr ∧
      (s'.PageTable s.replace_head).status = ON_DISK ∧
      (s'.PageTable s.replace_head).modified = 0 ∧
      (s'.PageTable s.replace_head).frame = NONE ∧
      (s'.PageTable s.replace_head).accessTime = NONE ∧
      (s'.PageTable s.replace_head).loadTime = NONE ∧
      (∀ fuel, s.replace_head ∉ walkFrom s'.nxt fuel s'.replace_head) ∧
      (s'.PageTable pno).status = IN_MEMORY ∧
      (s'.PageTable pno).frame = (s.PageTable s.replace_head).frame ∧
      fr = (s.PageTable s.replace_head).frame := by
  have hne1 : ¬ (IN_MEMORY = NOT_USED ∨ IN_MEMORY = ON_DISK) := by decide
  have hpL : pno ∉ L := by
    intro hp
    rw [hres pno hp] at hst
    exact hne1 hst
  obtain ⟨v, b, r, rfl⟩ : ∃ v b r, L = v :: b :: r := by
    match L, hlen with
    | v :: b :: r, _ => exact ⟨v, b, r, rfl⟩
  have hvp : v ≠ pno := fun e => hpL (by simp [e])
  obtain ⟨hhd, hnv, hpop⟩ := hw.1.pop
  rw [hhd]
  have hvin := hw.inTable_of_mem (List.mem_cons_self v (b :: r))
  have hbin := hw.inTable_of_mem (List.mem_cons_of_mem v (List.mem_cons_self b r))
  have htl := hw.inTable_of_mem hw.tail_in
  have hpol' : s.replacePolicy ≠ .REPL_CLOCK := by
    rcases hpol with h | h <;> rw [h] <;> decide
  obtain ⟨sv, hsv⟩ := findVictim_ok (s := (s.call .countPageFault).call .findFreeFrame) time
    (by simp only [call_replace_head, call_nPages, hhd]; exact hvin)
    (by simp only [call_replace_head, call_nPages, nxt_call, hhd, hnv]; exact hbin) hpol'
  simp only [call_replace_head, hhd] at hsv
  obtain ⟨-, v2, -, v4, v5, -, v7, v8⟩ := findVictim_effect hsv
  obtain ⟨s1, hs1⟩ := evict_ok hsv (by
    simp only [State.inTable, v2, call_nPages]
    exact hvin)
  obtain ⟨sv', v', e0, -, -, -, e5, -, e7, e8, -, e10, e11⟩ := evict_inv hs1
  rw [hsv] at e0
  simp only [Outcome.ok.injEq] at e0
  obtain ⟨rfl, rfl⟩ := e0
  obtain ⟨s2, h2⟩ := load_ok s1 pno (sv.PageTable v).frame time (by
    split_ifs
    · simp only [State.inTable, e5, v2, call_nPages]
      exact hin
    · simp only [State.inTable, e5, e8, v2, v5, call_nPages, call_replace_tail]
      exact htl)
  have h1 : (if ff (s.calls ++ [Call.countPageFault]) = NONE then
              requestPage_evict ((s.call .countPageFault).call .findFreeFrame) time
            else .ok ((s.call .countPageFault).call .findFreeFrame)
              (ff (s.calls ++ [Call.countPageFault]))) =
      .ok s1 (sv.PageTable v).frame := by
    rw [if_pos hff, hs1]
  have hreq := requestPage_of_fault mode hin hst h1 h2
  obtain ⟨-, -, -, l4, l5, -, l7, l8⟩ := load_inv h2
  obtain ⟨-, -, -, d4, dc⟩ := request_data hreq
  rcases dc with ⟨-, hne, -⟩ | ⟨-, -, sv', v', hv', -, -, hd⟩ | ⟨hst', -⟩
  · exact absurd hff hne
  · rw [hsv] at hv'
    simp only [Outcome.ok.injEq] at hv'
    obtain ⟨rfl, rfl⟩ := hv'
    have hpv : ¬ pno = v := fun e => hvp e.symm
    have hdp : (s2.modify pno (fun e => e.accessed mode time)).dat pno =
        ((s.dat pno).loaded (s.dat v).frame time).accessed mode time := by
      rw [hd]
      simp only [if_true, hpv, if_false]
    have hdv : (s2.modify pno (fun e => e.accessed mode time)).dat v = (s.dat v).evicted := by
      rw [hd]
      simp only [hvp, if_false, if_true]
    have hdv' : ((s2.modify pno (fun e => e.accessed mode time)).PageTable v).data =
        (s.dat v).evicted := hdv
    have hdp' : ((s2.modify pno (fun e => e.accessed mode time)).PageTable pno).data =
        ((s.dat pno).loaded (s.dat v).frame time).accessed mode time := hdp
    have q1 := congrArg PTE.status hdv'
    have q2 := congrArg PTE.modified hdv'
    have q3 := congrArg PTE.frame hdv'
    have q4 := congrArg PTE.accessTime hdv'
    have q5 := congrArg PTE.loadTime hdv'
    have q6 := congrArg PTE.status hdp'
    have q7 := congrArg PTE.frame hdp'
    refine ⟨_, _, sv, hsv, hreq, q1, q2, q3, q4, q5, ?_, q6, q7, ?_⟩
    · intro fuel
      rw [nxt_accessed]
      by_cases ht : time = 0
      · have hh : (s2.modify pno (fun e => e.accessed mode time)).replace_head = pno := by
          rw [modify_replace_head, l4, if_pos ht]
        have hn : s2.nxt pno = -1 := by
          rw [l7]
          simp only [if_true]
        rw [hh]
        cases fuel with
        | zero => simp [walkFrom]
        | succ n =>
          have hp1 : pno ≠ -1 := by
            have := hin.1
            omega
          cases n with
          | zero => simp [walkFrom, hp1, hvp]
          | succ m => simp [walkFrom, hp1, hvp, hn]
      · have hpM : pno ∉ b :: r := fun h => hpL (List.mem_cons_of_mem _ h)
        have hvM : v ∉ b :: r := (List.nodup_cons.1 hw.1.nodup).1
        have hsnoc := hpop.snoc hpM hin.1
        have hl : Links s2.nxt s2.prv
            (s2.modify pno (fun e => e.accessed mode time)).replace_head
            s2.replace_tail (b :: r ++ [pno]) := by
          rw [l7, l8]
          simp only [modify_replace_head, l4, l5, ht, if_false, ne_eq, not_false_eq_true,
            true_and, e7, e8, e10, e11, v4, v5, v7, v8, call_replace_head,
            call_replace_tail, nxt_call, prv_call, hhd, hnv]
          exact hsnoc
        apply hl.not_reached
        intro hm
        rw [List.mem_append, List.mem_singleton] at hm
        rcases hm with hm | hm
        · exact hvM hm
        · exact hvp hm
    · rw [d4, hdp]
      rfl
  · rw [hst'] at hst
    exact absurd hst hne1

/-- On a well-formed list of at least two entries, under FIFO or LRU, `findVictim` returns
the head and leaves the rest of the list, well-formed, with the victim out of reach. -/
theorem findVictim_pops {s : State} {v b : Int} {r : List Int} (t : Int)
    (hpol : s.replacePolicy ≠ .REPL_CLOCK) (hw : WellFormed s (v :: b :: r)) :
    ∃ sv, findVictim s t = .ok sv v ∧ WellFormed sv (b :: r) ∧
      sv.replace_head = (s.PageTable v).next ∧ (sv.PageTable b).prev = -1 ∧
      ∀ fuel, v ∉ walkFrom sv.nxt fuel sv.replace_head := by
  obtain ⟨hhd, hnv, hpop⟩ := hw.1.pop
  have hvin := hw.inTable_of_mem (List.mem_cons_self v (b :: r))
  have hbin := hw.inTable_of_mem (List.mem_cons_of_mem v (List.mem_cons_self b r))
  obtain ⟨sv, hsv⟩ := findVictim_ok t (by rw [hhd]; exact hvin)
    (by rw [hhd, hnv]; exact hbin) hpol
  rw [hhd] at hsv
  obtain ⟨-, v2, -, v4, v5, -, v7, v8⟩ := findVictim_effect hsv
  rw [hhd, hnv] at v4 v8
  have hl : Links sv.nxt sv.prv sv.replace_head sv.replace_tail (b :: r) := by
    rw [v4, v5, v7, v8]
    exact hpop
  have hvM : v ∉ b :: r := (List.nodup_cons.1 hw.1.nodup).1
  refine ⟨sv, hsv, ⟨hl, ?_⟩, ?_, ?_, fun fuel => hl.not_reached hvM fuel⟩
  · intro p hp
    rw [v2]
    exact hw.2 p (List.mem_cons_of_mem _ hp)
  · rw [v4]
    exact hnv.symm
  · exact hl.prev.1

/-- C14 (LRU hit moves the page to the tail): under LRU, on a well-formed list `L`, a
request for a page `pno` of `L` that is `IN_MEMORY` returns; afterwards the list is `L`
without `pno`, followed by `pno`: it is well-formed, it is what the walk from `replace_head`
visits, `replace_tail` is `pno`, and it is `L` itself when `pno` was the tail (or the only
entry). -/
theorem lru_hit_to_tail (ff : List Call → Int) (s : State) (pno : Int) (mode : Char)
    (time : Int) (L : List Int) (hpol : s.replacePolicy = .REPL_LRU) (hw : WellFormed s L)
    (hpL : pno ∈ L) (hst : (s.PageTable pno).status = IN_MEMORY) :
    ∃ s' fr, requestPage ff s pno mode time = .ok s' fr ∧
      WellFormed s' (L.erase pno ++ [pno]) ∧
      orderList s' = L.erase pno ++ [pno] ∧
      s'.replace_tail = pno ∧
      (s.replace_tail = pno → L.erase pno ++ [pno] = L) := by
  have hin : s.inTable pno := hw.inTable_of_mem hpL
  have htl := hw.inTable_of_mem hw.tail_in
  have hnd := hw.1.nodup
  -- it is enough to give the links of the new list
  suffices hs : ∃ s' fr, requestPage ff s pno mode time = .ok s' fr ∧
      Links s'.nxt s'.prv s'.replace_head s'.replace_tail (L.erase pno ++ [pno]) ∧
      (s.replace_tail = pno → L.erase pno ++ [pno] = L) by
    obtain ⟨s', fr, hreq, hl, he⟩ := hs
    have hn := (hit_effect hreq hst).1
    have hw' : WellFormed s' (L.erase pno ++ [pno]) := by
      refine ⟨hl, ?_⟩
      intro p hp
      rw [hn]
      rw [List.mem_append, List.mem_singleton] at hp
      rcases hp with hp | hp
      · exact hw.2 p (List.mem_of_mem_erase hp)
      · rw [hp]
        exact hin.2
    have ht : s'.replace_tail = pno := by
      have := hl.last
      rw [List.getLast?_concat] at this
      simp only [Option.some.injEq] at this
      exact this.symm
    exact ⟨s', fr, hreq, hw', hw'.walk_eq, ht, he⟩
  rcases hw.1.cases hpL with ⟨hL, hp, hn⟩ | ⟨b, r, hL, hp, hn, hb⟩ |
    ⟨A, a, hL, hp, ha, hn⟩ | ⟨A, a, b, B, hL, hp, hn, ha, hb⟩
  · -- the only entry
    have hreq := requestPage_of_hit ff mode time hin hst (hit_sole hpol hp hn)
    have hE : L.erase pno ++ [pno] = L := by
      rw [hL]
      simp
    refine ⟨_, _, hreq, ?_, fun _ => hE⟩
    rw [hE]
    have hl := hw.1
    rw [hL] at hl ⊢
    have hh : s.replace_head = pno := by
      have := hl.head
      simp only [List.head?_cons, Option.some.injEq] at this
      exact this.symm
    have ht : s.replace_tail = pno := by
      have := hl.last
      simp only [List.getLast?_singleton, Option.some.injEq] at this
      exact this.symm
    rw [hh, ht] at hl
    rw [nxt_accessed, prv_accessed]
    exact hl
  · -- the first of several
    have hbin : s.inTable b := hw.inTable_of_mem (by rw [hL]; simp)
    have hh := hit_head hpol hp (by rw [hn]; exact hb)
    rw [hn, if_neg (not_not_intro hbin)] at hh
    generalize hs1 : ({ s.modify b (fun e => { e with prev := -1 }) with
      replace_head := b } : State) = s1 at hh
    have e1 : s1.nxt = s.nxt := by
      rw [← hs1]
      exact nxt_setPrev s b (-1)
    have e2 : s1.prv = fun j => if j = b then -1 else s.prv j := by
      rw [← hs1]
      exact prv_setPrev s b (-1)
    have e3 : s1.replace_head = b := by rw [← hs1]
    have e4 : s1.replace_tail = s.replace_tail := by rw [← hs1]; rfl
    have e5 : s1.nPages = s.nPages := by rw [← hs1]; rfl
    obtain ⟨s2, h2⟩ := toTail_ok s1 pno (by
      simp only [State.inTable, e4, e5]
      exact htl)
    rw [h2] at hh
    have hreq := requestPage_of_hit ff mode time hin hst hh
    obtain ⟨-, -, -, t4, t5, -, t7, t8⟩ := toTail_inv h2
    have hl := hw.1
    rw [hL] at hl hnd
    obtain ⟨-, -, hpop⟩ := hl.pop
    have hpM : pno ∉ b :: r := (List.nodup_cons.1 hnd).1
    have hE : L.erase pno = b :: r := by
      rw [hL, List.erase_cons_head]
    have hlast : s.replace_tail ∈ b :: r := by
      have := hpop.last
      exact List.mem_of_mem_getLast? this
    refine ⟨_, _, hreq, ?_, ?_⟩
    · rw [hE, nxt_accessed, prv_accessed, t7, t8]
      simp only [modify_replace_head, modify_replace_tail, t4, t5, e1, e2, e3, e4]
      exact hpop.snoc hpM hin.1
    · intro ht
      exact absurd (ht ▸ hlast) hpM
  · -- the last of several
    have hreq := requestPage_of_hit ff mode time hin hst
      (hit_last hpol (by rw [hp]; exact ha) hn)
    have hL' : L = (A ++ [a]) ++ [pno] := by
      rw [hL]
      simp
    rw [hL'] at hnd
    have hpM : pno ∉ A ++ [a] := fun h =>
      (List.nodup_append.1 hnd).2.2 h (List.mem_singleton_self pno)
    have hE : L.erase pno ++ [pno] = L := by
      have : (A ++ [a] ++ [pno]).erase pno = A ++ [a] := by
        rw [erase_middle hpM, List.append_nil]
      rw [hL', this]
    refine ⟨_, _, hreq, ?_, fun _ => hE⟩
    rw [hE, nxt_accessed, prv_accessed]
    exact hw.1
  · -- an interior entry
    have hain : s.inTable a := hw.inTable_of_mem (by rw [hL]; simp)
    have hbin : s.inTable b := hw.inTable_of_mem (by rw [hL]; simp)
    have hh := hit_mid hpol (by rw [hp]; exact ha) (by rw [hn]; exact hb)
    rw [hn, hp, if_neg (not_not_intro hain), if_neg (not_not_intro hbin)] at hh
    generalize hs1 : (s.modify a (fun e => { e with next := b })).modify b
      (fun e => { e with prev := a }) = s1 at hh
    have e1 : s1.nxt = fun j => if j = a then b else s.nxt j := by
      rw [← hs1, nxt_setPrev, nxt_setNext]
    have e2 : s1.prv = fun j => if j = b then a else s.prv j := by
      rw [← hs1, prv_setPrev, prv_setNext]
    have e3 : s1.replace_head = s.replace_head := by rw [← hs1]; rfl
    have e4 : s1.replace_tail = s.replace_tail := by rw [← hs1]; rfl
    have e5 : s1.nPages = s.nPages := by rw [← hs1]; rfl
    obtain ⟨s2, h2⟩ := toTail_ok s1 pno (by
      simp only [State.inTable, e4, e5]
      exact htl)
    rw [h2] at hh
    have hreq := requestPage_of_hit ff mode time hin hst hh
    obtain ⟨-, -, -, t4, t5, -, t7, t8⟩ := toTail_inv h2
    have hl := hw.1
    rw [hL] at hl hnd
    have hrem := hl.remove
    have hpA : pno ∉ A ++ [a] := by
      have h1 : A ++ a :: pno :: b :: B = (A ++ [a]) ++ pno :: b :: B := by simp
      rw [h1] at hnd
      intro h
      exact (List.nodup_append.1 hnd).2.2 h (List.mem_cons_self _ _)
    have hE : L.erase pno = A ++ a :: b :: B := by
      have h1 : L = (A ++ [a]) ++ pno :: b :: B := by
        rw [hL]
        simp
      rw [h1, erase_middle hpA]
      simp
    have hpM : pno ∉ A ++ a :: b :: B := by
      rw [← hE]
      have hnd' := hw.1.nodup
      exact fun h => (List.Nodup.not_mem_erase hnd') h
    have hlast : s.replace_tail ∈ A ++ a :: b :: B :=
      List.mem_of_mem_getLast? hrem.last
    refine ⟨_, _, hreq, ?_, ?_⟩
    · rw [hE, nxt_accessed, prv_accessed, t7, t8]
      simp only [modify_replace_head, modify_replace_tail, t4, t5, e1, e2, e3, e4]
      exact hrem.snoc hpM hin.1
    · intro ht
      exact absurd (ht ▸ hlast) hpM

/-! ### Instances on concrete runs -/

/-- C6 at a concrete input: page 9 of a 4-page table. -/
theorem invalid_reference_witness :
    ∃ s', requestPage (firstFree 2) (initPageTable junk .REPL_FIFO 4) 9 'r' 0 =
      .fail .InvalidPageReference s' :=
  (invalid_reference (firstFree 2) (initPageTable junk .REPL_FIFO 4) 9 'r' 0).1.2
    (Or.inr (by decide))

/-- C7 on the trace `0r 1w 2r 1r 3r` with three frames under LRU, whose fourth request is a
hit on the interior entry of the list and whose fifth evicts: it returns with faults + hits
grown by 5; and that fourth request, with the bounds guard, returns with one more hit. -/
theorem hit_fault_accounting_witness :
    (∃ s', runTrace_raw (firstFree 3) (initPageTable junk .REPL_LRU 4)
        [(0, 'r', 0), (1, 'w', 1), (2, 'r', 2), (1, 'r', 3), (3, 'r', 4)] = .ok s' () ∧
      nFaults s' + nHits s' =
        nFaults (initPageTable junk .REPL_LRU 4) + nHits (initPageTable junk .REPL_LRU 4) +
          [(0, 'r', 0), (1, 'w', 1), (2, 'r', 2), (1, 'r', 3), (3, 'r', 4)].length) ∧
    (∃ s' fr, requestPage (firstFree 3)
        (runTrace (firstFree 3) (initPageTable junk .REPL_LRU 4)
          [(0, 'r', 0), (1, 'w', 1), (2, 'r', 2)]).state 1 'r' 3 = .ok s' fr ∧
      nHits s' = nHits (runTrace (firstFree 3) (initPageTable junk .REPL_LRU 4)
          [(0, 'r', 0), (1, 'w', 1), (2, 'r', 2)]).state + 1 ∧
      nFaults s' = nFaults (runTrace (firstFree 3) (initPageTable junk .REPL_LRU 4)
          [(0, 'r', 0), (1, 'w', 1), (2, 'r', 2)]).state) :=
  ⟨(hit_fault_accounting (firstFree 3)).2.2.1
      [(0, 'r', 0), (1, 'w', 1), (2, 'r', 2), (1, 'r', 3), (3, 'r', 4)]
      (initPageTable junk .REPL_LRU 4) (definedStatus_init junk .REPL_LRU 4) (by decide),
    (hit_fault_accounting (firstFree 3)).2.2.2.2.1 junk .REPL_LRU 4
      [(0, 'r', 0), (1, 'w', 1), (2, 'r', 2)] _ (ok_of_isOk (by decide)) 1 'r' 3
      (by decide) (by decide)⟩

/-- C8, amended, on the run `0r 1w 0r 2r` with two frames under LRU: page 0 was read
twice. -/
theorem usage_counters_witness :
    ((runTrace (firstFree 2) (initPageTable junk .REPL_LRU 4)
        [(0, 'r', 0), (1, 'w', 1), (0, 'r', 2), (2, 'r', 3)]).state.PageTable 0).nPeeks =
      countRefs 0 'r' [(0, 'r', 0), (1, 'w', 1), (0, 'r', 2), (2, 'r', 3)] ∧
    ((runTrace (firstFree 2) (initPageTable junk .REPL_LRU 4)
        [(0, 'r', 0), (1, 'w', 1), (0, 'r', 2), (2, 'r', 3)]).state.PageTable 0).nPokes =
      countRefs 0 'w' [(0, 'r', 0), (1, 'w', 1), (0, 'r', 2), (2, 'r', 3)] :=
  ⟨((usage_counters (firstFree 2) (initPageTable junk .REPL_LRU 4)
      [(0, 'r', 0), (1, 'w', 1), (0, 'r', 2), (2, 'r', 3)] _ (ok_of_isOk (by decide)) 0).2.2
      junk .REPL_LRU 4 rfl (by decide) (by decide)).2.2.1 (by decide),
    ((usage_counters (firstFree 2) (initPageTable junk .REPL_LRU 4)
      [(0, 'r', 0), (1, 'w', 1), (0, 'r', 2), (2, 'r', 3)] _ (ok_of_isOk (by decide)) 0).2.2
      junk .REPL_LRU 4 rfl (by decide) (by decide)).2.2.2 (by decide)⟩

/-- C9 with one frame under LRU, on the request for page 1 made when the list is `[0]`:
after page 0 was written the victim is the modified page 0, of frame 0, and the request
calls `saveFrame(0)` and then `loadFrame(0, 1, 1)`; after page 0 was only read there is no
`saveFrame`. And with two frames, on the request for page 2 after `0r 1w 0r`, with the
bounds guard: the victim is the modified page 1, of frame 1. -/
theorem persist_on_eviction_witness :
    (∃ s' fr, requestPage_raw (firstFree 1)
        (runTrace (firstFree 1) (initPageTable junk .REPL_LRU 4) [(0, 'w', 0)]).state
        1 'r' 1 = .ok s' fr ∧
      s'.calls =
        (runTrace (firstFree 1) (initPageTable junk .REPL_LRU 4) [(0, 'w', 0)]).state.calls ++
          [Call.countPageFault, Call.findFreeFrame, Call.saveFrame 0,
            Call.loadFrame 0 1 1]) ∧
    (∃ s' fr, requestPage_raw (firstFree 1)
        (runTrace (firstFree 1) (initPageTable junk .REPL_LRU 4) [(0, 'r', 0)]).state
        1 'r' 1 = .ok s' fr ∧
      s'.calls =
        (runTrace (firstFree 1) (initPageTable junk .REPL_LRU 4) [(0, 'r', 0)]).state.calls ++
          [Call.countPageFault, Call.findFreeFrame, Call.loadFrame 0 1 1]) ∧
    (requestPage (firstFree 2) (afterThree .REPL_LRU) 2 'r' 3).state.calls =
      (afterThree .REPL_LRU).calls ++
        [Call.countPageFault, Call.findFreeFrame, Call.saveFrame 1, Call.loadFrame 1 2 3] := by
  obtain ⟨s', fr, h, h1, -⟩ := (persist_on_eviction (firstFree 1)
    (runTrace (firstFree 1) (initPageTable junk .REPL_LRU 4) [(0, 'w', 0)]).state 1 'r' 1
    (by decide)).1 (by decide) (by decide) 0 0 (by decide) (by decide)
  obtain ⟨u', gr, g, -, g2⟩ := (persist_on_eviction (firstFree 1)
    (runTrace (firstFree 1) (initPageTable junk .REPL_LRU 4) [(0, 'r', 0)]).state 1 'r' 1
    (by decide)).1 (by decide) (by decide) 0 0 (by decide) (by decide)
  have k := ((persist_on_eviction (firstFree 2) (afterThree .REPL_LRU) 2 'r' 3
    (by decide)).2.2.2.1 (by decide) (by decide) _ 1 1
    (ok_of_isOk_result (by decide)) (by decide)).1 (by decide)
  exact ⟨⟨s', fr, h, h1 (by decide)⟩, ⟨u', gr, g, g2 (by decide)⟩, k⟩

/-- C10 on the run `0r 1w`: page 1 is modified, resident and written since its load. -/
theorem modified_flag_witness :
    ((runTrace (firstFree 2) (initPageTable junk .REPL_LRU 4)
        [(0, 'r', 0), (1, 'w', 1)]).state.PageTable 1).status = IN_MEMORY ∧
    writtenSinceLoad (firstFree 2) 1 (initPageTable junk .REPL_LRU 4)
      [(0, 'r', 0), (1, 'w', 1)] false = true :=
  (modified_flag (firstFree 2)).1 junk .REPL_LRU 4 [(0, 'r', 0), (1, 'w', 1)] _
    (ok_of_isOk (by decide)) 1 (by decide) (by decide) (by decide)

theorem state_of_ok {o : Outcome Unit} {s : State} (h : o = .ok s ()) : s = o.state := by
  rw [h]
  rfl

/-- C1 on the run `0r 1w 0r 2r` with two frames under LRU. -/
theorem order_list_complete_witness :
    ∃ s', referenceRun (firstFree 2) junk .REPL_LRU 4
        [(0, 'r'), (1, 'w'), (0, 'r'), (2, 'r')] = .ok s' () ∧
      (orderList s').Nodup ∧
      (∀ p, p ∈ orderList s' ↔ resident s' p) ∧
      (orderList s').getLast? = some s'.replace_tail ∧
      (∀ fuel, s'.nPages.toNat < fuel →
        walkFrom s'.nxt fuel s'.replace_head = orderList s') ∧
      (s'.PageTable s'.replace_head).prev = -1 ∧
      (s'.PageTable s'.replace_tail).next = -1 ∧
      (orderList s').length = residentCount s' :=
  order_list_complete (by decide) (firstFree_fresh 2) junk .REPL_LRU (Or.inr rfl) 4
    [(0, 'r'), (1, 'w'), (0, 'r'), (2, 'r')] (by decide) (by decide)

/-- C2 on the run `0r 1r 0r` then page 2, with two frames under FIFO: page 0, loaded first,
is evicted although it was referenced last. -/
theorem fifo_victim_witness :
    ∃ s v sv s' fr,
      referenceRun (firstFree 2) junk .REPL_FIFO 4 [(0, 'r'), (1, 'r'), (0, 'r')] = .ok s () ∧
      findVictim ((s.call .countPageFault).call .findFreeFrame) 3 = .ok sv v ∧
      requestPage (firstFree 2) s 2 'r' 3 = .ok s' fr ∧
      v = 0 ∧ (s'.PageTable 0).status = ON_DISK ∧ (s'.PageTable 1).status = IN_MEMORY := by
  obtain ⟨s, hrun, h⟩ := fifo_victim (by decide) (firstFree_fresh 2) junk 4
    [(0, 'r'), (1, 'r'), (0, 'r')] (by decide) 2 'r' (by decide)
  have hs := state_of_ok hrun
  subst hs
  obtain ⟨v, sv, s', fr, hfv, hreq, -, -, hvs, hres, -, -⟩ := h (by decide) (by decide)
  have hv0 : v = 0 := by
    have h1 := congrArg Outcome.result hfv
    have h2 : (findVictim (((referenceRun (firstFree 2) junk .REPL_FIFO 4
        [(0, 'r'), (1, 'r'), (0, 'r')]).state.call .countPageFault).call .findFreeFrame)
        ((3 : Nat) : Int)).result = 0 := by decide
    exact (h1.symm.trans h2)
  subst hv0
  refine ⟨_, 0, sv, s', fr, hrun, hfv, hreq, rfl, hvs, ?_⟩
  exact (hres 1 ⟨by decide, by decide⟩ (by decide)).2

/-- C3 on the run `0r 1r 0r` then page 2, with two frames under LRU: page 1 is evicted, not
page 0. -/
theorem lru_victim_witness :
    ∃ s v sv s' fr,
      referenceRun (firstFree 2) junk .REPL_LRU 4 [(0, 'r'), (1, 'r'), (0, 'r')] = .ok s () ∧
      findVictim ((s.call .countPageFault).call .findFreeFrame) 3 = .ok sv v ∧
      requestPage (firstFree 2) s 2 'r' 3 = .ok s' fr ∧
      v = 1 ∧ (s'.PageTable 1).status = ON_DISK ∧ (s'.PageTable 0).status = IN_MEMORY := by
  obtain ⟨s, hrun, h⟩ := lru_victim (by decide) (firstFree_fresh 2) junk 4
    [(0, 'r'), (1, 'r'), (0, 'r')] (by decide) 2 'r' (by decide)
  have hs := state_of_ok hrun
  subst hs
  obtain ⟨v, sv, s', fr, hfv, hreq, -, -, hvs, hres, -, -⟩ := h (by decide) (by decide)
  have hv1 : v = 1 := by
    have h1 := congrArg Outcome.result hfv
    have h2 : (findVictim (((referenceRun (firstFree 2) junk .REPL_LRU 4
        [(0, 'r'), (1, 'r'), (0, 'r')]).state.call .countPageFault).call .findFreeFrame)
        ((3 : Nat) : Int)).result = 1 := by decide
    exact (h1.symm.trans h2)
  subst hv1
  refine ⟨_, 1, sv, s', fr, hrun, hfv, hreq, rfl, hvs, ?_⟩
  exact (hres 0 ⟨by decide, by decide⟩ (by decide)).2

/-- C4 on the run `0r 1w 0r 2r` with two frames under FIFO. -/
theorem status_frame_witness :
    ∃ s', referenceRun (firstFree 2) junk .REPL_FIFO 4
        [(0, 'r'), (1, 'w'), (0, 'r'), (2, 'r')] = .ok s' () ∧
      ∀ p, s'.inTable p →
        ((s'.PageTable p).frame ≠ NONE ↔ (s'.PageTable p).status = IN_MEMORY) :=
  status_frame (by decide) (firstFree_fresh 2) junk .REPL_FIFO (Or.inl rfl) 4
    [(0, 'r'), (1, 'w'), (0, 'r'), (2, 'r')] (by decide)

/-- C5 on the run `0r 1w 0r 2r` with two frames under FIFO. -/
theorem frame_exclusive_witness :
    ∃ s', referenceRun (firstFree 2) junk .REPL_FIFO 4
        [(0, 'r'), (1, 'w'), (0, 'r'), (2, 'r')] = .ok s' () ∧
      ∀ p q, resident s' p → resident s' q → p ≠ q →
        (s'.PageTable p).frame ≠ (s'.PageTable q).frame :=
  frame_exclusive (by decide) (firstFree_fresh 2) junk .REPL_FIFO (Or.inl rfl) 4
    [(0, 'r'), (1, 'w'), (0, 'r'), (2, 'r')] (by decide) (by decide)

/-! ### Further instances on concrete runs -/

theorem afterThree_lru_wellFormed : WellFormed (afterThree .REPL_LRU) [1, 0] :=
  ⟨⟨by decide, by decide, by decide, by decide, ⟨by decide, by decide, trivial⟩,
    ⟨by decide, by decide, trivial⟩⟩, by decide⟩

theorem afterThree_fifo_wellFormed : WellFormed (afterThree .REPL_FIFO) [0, 1] :=
  ⟨⟨by decide, by decide, by decide, by decide, ⟨by decide, by decide, trivial⟩,
    ⟨by decide, by decide, trivial⟩⟩, by decide⟩

/-- C11 on the request for page 2 after `0r 1w 0r` under LRU: the victim is page 1. -/
theorem eviction_resets_witness :
    ∃ s' fr sv,
      findVictim (((afterThree .REPL_LRU).call .countPageFault).call .findFreeFrame) 3 =
        .ok sv (afterThree .REPL_LRU).replace_head ∧
      requestPage (firstFree 2) (afterThree .REPL_LRU) 2 'r' 3 = .ok s' fr ∧
      (s'.PageTable (afterThree .REPL_LRU).replace_head).status = ON_DISK ∧
      (s'.PageTable (afterThree .REPL_LRU).replace_head).modified = 0 ∧
      (s'.PageTable (afterThree .REPL_LRU).replace_head).frame = NONE ∧
      (s'.PageTable (afterThree .REPL_LRU).replace_head).accessTime = NONE ∧
      (s'.PageTable (afterThree .REPL_LRU).replace_head).loadTime = NONE ∧
      (∀ fuel, (afterThree .REPL_LRU).replace_head ∉ walkFrom s'.nxt fuel s'.replace_head) ∧
      (s'.PageTable 2).status = IN_MEMORY ∧
      (s'.PageTable 2).frame =
        ((afterThree .REPL_LRU).PageTable (afterThree .REPL_LRU).replace_head).frame ∧
      fr = ((afterThree .REPL_LRU).PageTable (afterThree .REPL_LRU).replace_head).frame :=
  eviction_resets (firstFree 2) (afterThree .REPL_LRU) 2 'r' 3 [1, 0] (Or.inr rfl)
    afterThree_lru_wellFormed (by decide) (by decide) (by decide) (by decide) (by decide)

/-- C12 on the request for page 2 after `0r 1w 0r` under LRU. -/
theorem request_result_witness :
    ((requestPage (firstFree 2) (afterThree .REPL_LRU) 2 'r' 3).state.PageTable 2).status =
      IN_MEMORY ∧
    ((requestPage (firstFree 2) (afterThree .REPL_LRU) 2 'r' 3).state.PageTable
      2).accessTime = 3 ∧
    (requestPage (firstFree 2) (afterThree .REPL_LRU) 2 'r' 3).result =
      ((requestPage (firstFree 2) (afterThree .REPL_LRU) 2 'r' 3).state.PageTable 2).frame :=
  ⟨(request_result (firstFree 2) (afterThree .REPL_LRU) 2 'r' 3 _ _
      (ok_of_isOk_result (by decide))).1,
    (request_result (firstFree 2) (afterThree .REPL_LRU) 2 'r' 3 _ _
      (ok_of_isOk_result (by decide))).2.1,
    (request_result (firstFree 2) (afterThree .REPL_LRU) 2 'r' 3 _ _
      (ok_of_isOk_result (by decide))).2.2.1⟩

/-- C13 on a hit of page 0 after `0r 1w 0r` under FIFO. -/
theorem hit_keeps_list_witness :
    ∃ s' fr, requestPage (firstFree 2) (afterThree .REPL_FIFO) 0 'w' 3 = .ok s' fr ∧
      s'.replace_head = (afterThree .REPL_FIFO).replace_head ∧
      s'.replace_tail = (afterThree .REPL_FIFO).replace_tail ∧
      ∀ j, (s'.PageTable j).next = ((afterThree .REPL_FIFO).PageTable j).next ∧
        (s'.PageTable j).prev = ((afterThree .REPL_FIFO).PageTable j).prev :=
  hit_keeps_list (firstFree 2) (afterThree .REPL_FIFO) 0 'w' 3 (by decide) (by decide)
    (by decide)

/-- C14 on a hit of page 1, the head, after `0r 1w 0r` under LRU: the list `[1, 0]` becomes
`[0, 1]`. -/
theorem lru_hit_to_tail_witness :
    ∃ s' fr, requestPage (firstFree 2) (afterThree .REPL_LRU) 1 'r' 3 = .ok s' fr ∧
      WellFormed s' [0, 1] ∧ orderList s' = [0, 1] ∧ s'.replace_tail = 1 ∧
      ((afterThree .REPL_LRU).replace_tail = 1 → ([0, 1] : List Int) = [1, 0]) := by
  have h := lru_hit_to_tail (firstFree 2) (afterThree .REPL_LRU) 1 'r' 3 [1, 0] rfl
    afterThree_lru_wellFormed (by decide) (by decide)
  have e : ([1, 0] : List Int).erase 1 ++ [1] = [0, 1] := by decide
  rw [e] at h
  exact h

/-- C15 on a 4-page table: entry 2 after `initPageTable`. -/
theorem initial_records_witness :
    ((initPageTable junk .REPL_LRU 4).PageTable 2).status = NOT_USED ∧
    ((initPageTable junk .REPL_LRU 4).PageTable 2).modified = 0 ∧
    ((initPageTable junk .REPL_LRU 4).PageTable 2).frame = NONE ∧
    ((initPageTable junk .REPL_LRU 4).PageTable 2).accessTime = NONE ∧
    ((initPageTable junk .REPL_LRU 4).PageTable 2).loadTime = NONE ∧
    ((initPageTable junk .REPL_LRU 4).PageTable 2).nPeeks = 0 ∧
    ((initPageTable junk .REPL_LRU 4).PageTable 2).nPokes = 0 :=
  (initial_records junk .REPL_LRU 4).2.2.1 2 (by decide) (by decide)

/-- C16, amended, on a 4-page table. -/
theorem initial_cursors_witness :
    (initPageTable junk .REPL_LRU 4).replace_head = 0 ∧
    (initPageTable junk .REPL_LRU 4).replace_tail = 4 - 1 ∧
    (∀ p, ¬ resident (initPageTable junk .REPL_LRU 4) p) ∧
    (orderList (initPageTable junk .REPL_LRU 4)).head? = some 0 :=
  initial_cursors junk .REPL_LRU 4

/-- C17 on the one-entry list `[1]` reached with one frame under CLOCK: page 0, which was
never referenced, is returned, and `replace_head` becomes the `-1` that was the `next` of
page 1. -/
theorem clock_constant_witness :
    (findVictim_raw
      (referenceRun (firstFree 1) junk .REPL_CLOCK 4 [(1, 'r')]).state 1).2 = 0 ∧
    (findVictim_raw
      (referenceRun (firstFree 1) junk .REPL_CLOCK 4 [(1, 'r')]).state 1).1.replace_head =
        ((referenceRun (firstFree 1) junk .REPL_CLOCK 4 [(1, 'r')]).state.PageTable
          (referenceRun (firstFree 1) junk .REPL_CLOCK 4 [(1, 'r')]).state.replace_head).next :=
  ⟨(clock_constant (referenceRun (firstFree 1) junk .REPL_CLOCK 4 [(1, 'r')]).state 1
      (by decide)).1,
    (clock_constant (referenceRun (firstFree 1) junk .REPL_CLOCK 4 [(1, 'r')]).state 1
      (by decide)).2.1⟩

/-- C20 on a hit of page 0 after `0r 1w 0r` under LRU. -/
theorem request_frame_witness :
    (requestPage (firstFree 2) (afterThree .REPL_LRU) 0 'w' 3).state.calls =
      (afterThree .REPL_LRU).calls ++ [Call.countPageHit] :=
  ((request_frame (firstFree 2) (afterThree .REPL_LRU) 0 'w' 3 _ _
    (ok_of_isOk_result (by decide))).1 (by decide)).2.2

end PageTable
